import Mathlib

/-! Mouse trail overlay: the per-tick animation state engine.

A shallow embedding of the main loop of `mouse_line.cpp` (trail buffer, ripple
system, click edge detection, redraw and sleep scheduling), followed by the
properties proved about it.

Conventions of the embedding:

* `float` values are embedded as exact rationals (`ℚ`).  Every ripple value the
  loop produces (life `30, 29, ..`, radius `0, 2, 4, ..`) is a small integer, on
  which `float` arithmetic is exact.  Coordinates and the literals `0.1f`,
  `1.2f`, `2.4f`, `0.5f` are taken at their decimal value.  The interpolation
  factor of the trail colours is a quotient and is taken exactly; the 8-bit
  channels the program computes from it in `float` can differ by one from the
  exact ones.
* Where the rounding of `float` decides a property, the code is embedded a
  second time in binary32 arithmetic (`f32`: round to nearest, ties to even):
  `movedF32`, `tickF32` and `runF32` follow the sample and the push condition of
  line 175, whose literal `0.1f` is `13421773 / 2 ^ 27`, and `drawRippleF32`
  follows the ripple loop.  The front node of the trail is studied on that
  embedding; on the ripples of a run both embeddings of the ripple loop select
  the same outlines and the same alpha.
* `Uint64` time stamps are natural numbers, and the one subtraction made on
  them is taken modulo `2 ^ 64`.
* `int` counters are integers; `++` wraps in two's complement (in C++ the
  overflow of a signed counter is undefined).
* `std::deque<TrailNode>` is a list whose head is the front; `std::vector<Ripple>`
  is a list in index order.
* The calls made to the SDL renderer and to `SDL_Delay` are recorded, in order,
  as a list of `Cmd` per loop iteration.
-/

namespace MouseLine

/-! ## Data model -/

/-- RGBA colour with four 8-bit channels (`SDL_Color`). -/
structure SDL_Color where
  r : Nat
  g : Nat
  b : Nat
  a : Nat
deriving DecidableEq, Repr

/-- Display rectangle (`SDL_Rect`), of which the loop reads the origin. -/
structure SDL_Rect where
  x : Int
  y : Int
  w : Int
  h : Int
deriving DecidableEq, Repr

def COLOR_MAIN : SDL_Color := ⟨243, 186, 236, 255⟩

def COLOR_AUX : SDL_Color := ⟨125, 232, 243, 255⟩

def TRAIL_LENGTH : Nat := 14

def RIPPLE_MAX_LIFE : Int := 30

def RIPPLE_GROWTH : ℚ := 2

def CIRCLE_SEGMENTS : Nat := 24

/-- Button index of the left mouse button in SDL3 (`SDL_mouse.h`). -/
def SDL_BUTTON_LEFT : Nat := 1

/-- Button index of the right mouse button in SDL3 (`SDL_mouse.h`). -/
def SDL_BUTTON_RIGHT : Nat := 3

/-- Bit of a button in the button bitmask: `1u << (X - 1)` (`SDL_mouse.h`). -/
def SDL_BUTTON_MASK (X : Nat) : Nat := 1 <<< (X - 1)

structure Point where
  x : ℚ
  y : ℚ
deriving DecidableEq, Repr

structure TrailNode where
  pos : Point
  timestamp : Nat
deriving DecidableEq, Repr

structure Ripple where
  center : Point
  radius : ℚ
  life : ℚ
  color : SDL_Color
deriving DecidableEq, Repr

/-- Calls issued by one loop iteration, in the order they are made.
`renderLines cx cy radius` is the `SDL_RenderLines` call of `drawCircleApprox`:
the closed polyline of `CIRCLE_SEGMENTS + 1` points `centre + unitCircle[i] * radius`. -/
inductive Cmd where
  | setRenderDrawColor (r g b a : Nat)
  | renderClear
  | renderLines (cx cy radius : ℚ)
  | renderLine (x1 y1 x2 y2 : ℚ)
  | renderPresent
  | delay (ms : Nat)
deriving DecidableEq, Repr

/-- What outlives one loop iteration: the globals `trail` and `ripples`, the
locals `wasLeftDown` and `wasRightDown` declared before the loop, and the
function-local statics `useAux`, `hideCounter` and `cleanupCounter`. -/
structure State where
  trail : List TrailNode
  ripples : List Ripple
  wasLeftDown : Bool
  wasRightDown : Bool
  useAux : Bool
  hideCounter : Int
  cleanupCounter : Int
deriving DecidableEq, Repr

/-- What one loop iteration reads from outside: the global mouse state, the
clock, and `appState.visible` as it stands after the event poll. -/
structure Input where
  gx : ℚ
  gy : ℚ
  buttons : Nat
  now : Nat
  visible : Bool
deriving DecidableEq, Repr

/-- The loop iteration in progress: the persistent state, the local flag
`hasActivity`, and the calls issued so far. -/
structure Frame where
  st : State
  hasActivity : Bool
  out : List Cmd
deriving DecidableEq, Repr

/-- State on entry to the loop: empty containers, flags false, counters zero. -/
def initial : State :=
  { trail := [], ripples := [], wasLeftDown := false, wasRightDown := false,
    useAux := false, hideCounter := 0, cleanupCounter := 0 }

/-! ## Arithmetic helpers -/

/-- `std::abs` on a float. -/
def fabs (v : ℚ) : ℚ := if v < 0 then -v else v

/-- Conversion `(Uint8)` of a float: the fraction is discarded, and the result
is kept in eight bits. -/
def toUint8 (v : ℚ) : Nat :=
  Int.toNat ((if 0 ≤ v then Rat.floor v else -Rat.floor (-v)) % 256)

/-- Increment of an `int`, wrapping in two's complement. -/
def incInt (n : Int) : Int := (n + 1 + 2 ^ 31) % 2 ^ 32 - 2 ^ 31

/-- `now - timestamp > 200` on `Uint64` operands. -/
def expired (now : Nat) (node : TrailNode) : Bool :=
  decide ((now + 2 ^ 64 - node.timestamp) % 2 ^ 64 > 200)

/-! ## Trail update (source lines 174-189) -/

/-- The condition of line 175: the trail is empty, or the front position differs
from `(wx, wy)` by more than `0.1` on some axis. -/
def moved (trail : List TrailNode) (wx wy : ℚ) : Bool :=
  match trail with
  | [] => true
  | front :: _ =>
    decide (fabs (front.pos.x - wx) > 1 / 10) || decide (fabs (front.pos.y - wy) > 1 / 10)

/-- Lines 175-178: push the sample at the front when the pointer moved. -/
def trailPush (wx wy : ℚ) (now : Nat) (f : Frame) : Frame :=
  if moved f.st.trail wx wy then
    { f with
      st := { f.st with trail := { pos := ⟨wx, wy⟩, timestamp := now } :: f.st.trail }
      hasActivity := true }
  else f

/-- The `while` loop of lines 181-189, run on the deque listed from its back:
the head of the argument is `trail.back()`. -/
def evictLoop (now : Nat) : List TrailNode → Bool → List TrailNode × Bool
  | [], act => ([], act)
  | back :: rest, act =>
    if decide ((back :: rest).length > TRAIL_LENGTH) || expired now back then
      evictLoop now rest true
    else (back :: rest, act)

/-- Lines 181-189 on the frame. -/
def trailEvict (now : Nat) (f : Frame) : Frame :=
  { f with
    st := { f.st with trail := (evictLoop now f.st.trail.reverse f.hasActivity).1.reverse }
    hasActivity := (evictLoop now f.st.trail.reverse f.hasActivity).2 }

/-! ## Click detection (source lines 192-211) -/

def isLeftDown (i : Input) : Bool := (i.buttons &&& SDL_BUTTON_MASK SDL_BUTTON_LEFT) != 0

def isRightDown (i : Input) : Bool := (i.buttons &&& SDL_BUTTON_MASK SDL_BUTTON_RIGHT) != 0

/-- The ripple pushed at a click: radius `0.0f`, life `(float)RIPPLE_MAX_LIFE`. -/
def newRipple (wx wy : ℚ) (color : SDL_Color) : Ripple :=
  { center := ⟨wx, wy⟩, radius := 0, life := (RIPPLE_MAX_LIFE : ℚ), color := color }

/-- Lines 195-204: left button, alternating colour. -/
def leftClick (wx wy : ℚ) (down : Bool) (f : Frame) : Frame :=
  let f1 : Frame :=
    if down && !f.st.wasLeftDown then
      { f with
        st := { f.st with
          useAux := !f.st.useAux
          ripples := f.st.ripples ++
            [newRipple wx wy (if f.st.useAux then COLOR_AUX else COLOR_MAIN)] }
        hasActivity := true }
    else f
  { f1 with st := { f1.st with wasLeftDown := down } }

/-- Lines 206-211: right button, fixed colour. -/
def rightClick (wx wy : ℚ) (down : Bool) (f : Frame) : Frame :=
  let f1 : Frame :=
    if down && !f.st.wasRightDown then
      { f with
        st := { f.st with ripples := f.st.ripples ++ [newRipple wx wy COLOR_MAIN] }
        hasActivity := true }
    else f
  { f1 with st := { f1.st with wasRightDown := down } }

/-! ## Ripple advance (source lines 214-223) -/

/-- Body of the range-for of lines 216-219. -/
def growRipple (r : Ripple) : Ripple :=
  { r with radius := r.radius + RIPPLE_GROWTH, life := r.life - 1 }

/-- The range-for of lines 216-219 over the whole vector. -/
def growAll : List Ripple → List Ripple
  | [] => []
  | r :: rs => growRipple r :: growAll rs

/-- The erase-remove of lines 221-222: drop the ripples with `life <= 0`, the
others stay in order. -/
def removeDead : List Ripple → List Ripple
  | [] => []
  | r :: rs => if r.life ≤ 0 then removeDead rs else r :: removeDead rs

/-- Lines 214-223 on the vector. -/
def advanceList (rs : List Ripple) : List Ripple :=
  if !rs.isEmpty then removeDead (growAll rs) else rs

/-- Lines 214-223 on the frame. -/
def advanceRipples (f : Frame) : Frame :=
  if !f.st.ripples.isEmpty then
    { f with
      st := { f.st with ripples := removeDead (growAll f.st.ripples) }
      hasActivity := true }
  else f

/-! ## Renderer (source lines 49-74 and 229-263) -/

def lerpColor (c1 c2 : SDL_Color) (t : ℚ) : SDL_Color :=
  let t1 : ℚ := if t < 0 then 0 else t
  let t2 : ℚ := if t1 > 1 then 1 else t1
  { r := toUint8 ((c1.r : ℚ) + (((c2.r : Int) - (c1.r : Int) : Int) : ℚ) * t2)
    g := toUint8 ((c1.g : ℚ) + (((c2.g : Int) - (c1.g : Int) : Int) : ℚ) * t2)
    b := toUint8 ((c1.b : ℚ) + (((c2.b : Int) - (c1.b : Int) : Int) : ℚ) * t2)
    a := toUint8 ((c1.a : ℚ) + (((c2.a : Int) - (c1.a : Int) : Int) : ℚ) * t2) }

def drawCircleApprox (cx cy radius : ℚ) : List Cmd :=
  if radius ≤ 1 / 2 then [] else [Cmd.renderLines cx cy radius]

/-- Body of the ripple loop of lines 233-243. -/
def drawRipple (r : Ripple) : List Cmd :=
  let alphaRatio : ℚ := r.life / (RIPPLE_MAX_LIFE : ℚ)
  let alpha : Nat := toUint8 (255 * alphaRatio)
  [Cmd.setRenderDrawColor r.color.r r.color.g r.color.b alpha]
    ++ drawCircleApprox r.center.x r.center.y r.radius
    ++ (if r.radius > 6 / 5 then drawCircleApprox r.center.x r.center.y (r.radius - 6 / 5) else [])
    ++ (if r.radius > 12 / 5 then drawCircleApprox r.center.x r.center.y (r.radius - 12 / 5) else [])

def drawRipples : List Ripple → List Cmd
  | [] => []
  | r :: rs => drawRipple r ++ drawRipples rs

/-- Body of the trail loop of lines 247-260 for index `i`, with `p1 = trail[i]`,
`p2 = trail[i+1]` and `size = trail.size()`. -/
def drawSegment (size i : Nat) (p1 p2 : Point) : List Cmd :=
  let t : ℚ := (i : ℚ) / ((size - 1 : Nat) : ℚ)
  let current := lerpColor COLOR_MAIN COLOR_AUX t
  let alpha : ℚ := 1 - t
  [ Cmd.setRenderDrawColor current.r current.g current.b (toUint8 (255 * alpha)),
    Cmd.renderLine p1.x p1.y p2.x p2.y,
    Cmd.renderLine (p1.x + 1 / 2) (p1.y + 1 / 2) (p2.x + 1 / 2) (p2.y + 1 / 2) ]

/-- The trail loop of lines 247-260 from index `i` on, the argument being the
nodes from `trail[i]` to the back. -/
def drawSegments (size : Nat) : Nat → List TrailNode → List Cmd
  | i, n1 :: n2 :: rest =>
    drawSegment size i n1.pos n2.pos ++ drawSegments size (i + 1) (n2 :: rest)
  | _, _ => []

def drawTrail (trail : List TrailNode) : List Cmd :=
  if trail.length ≥ 2 then drawSegments trail.length 0 trail else []

/-- Lines 229-263: clear to transparent, ripples, trail, present. -/
def drawFrame (f : Frame) : Frame :=
  { f with out := f.out ++ [Cmd.setRenderDrawColor 0 0 0 0, Cmd.renderClear]
      ++ drawRipples f.st.ripples ++ drawTrail f.st.trail ++ [Cmd.renderPresent] }

/-! ## Scheduling (source lines 227, 264-297) -/

/-- Lines 266-273: the hidden branch, which ends the iteration (`continue`). -/
def hiddenBranch (f : Frame) : Frame :=
  { f with
    st := { f.st with hideCounter := incInt f.st.hideCounter }
    out := f.out
      ++ (if Int.tmod f.st.hideCounter 60 = 0 then
            [Cmd.setRenderDrawColor 0 0 0 0, Cmd.renderClear, Cmd.renderPresent]
          else [])
      ++ [Cmd.delay 100] }

/-- Lines 277-283: the sleep after a visible iteration. -/
def frameRateControl (f : Frame) : Frame :=
  { f with out := f.out ++ [Cmd.delay (if f.hasActivity then 12 else 33)] }

/-- Lines 287-297: periodic cleanup.  `shrink_to_fit` leaves the elements of a
container as they are, and capacities are not part of the state: of the trim
branch only the reset of the counter is left. -/
def cleanup (f : Frame) : Frame :=
  if incInt f.st.cleanupCounter > 600 then
    { f with st := { f.st with cleanupCounter := 0 } }
  else
    { f with st := { f.st with cleanupCounter := incInt f.st.cleanupCounter } }

/-- Lines 227-297: draw, or the hidden branch, or neither; then sleep and cleanup
unless the hidden branch ended the iteration. -/
def schedule (visible : Bool) (f : Frame) : Frame :=
  if visible && f.hasActivity then cleanup (frameRateControl (drawFrame f))
  else if !visible then hiddenBranch f
  else cleanup (frameRateControl f)

/-! ## The loop body -/

def windowX (bounds : SDL_Rect) (i : Input) : ℚ := i.gx - (bounds.x : ℚ)

def windowY (bounds : SDL_Rect) (i : Input) : ℚ := i.gy - (bounds.y : ℚ)

/-- The iteration after lines 166-189: trail pushed and trimmed. -/
def stageTrail (bounds : SDL_Rect) (s : State) (i : Input) : Frame :=
  trailEvict i.now
    (trailPush (windowX bounds i) (windowY bounds i) i.now
      { st := s, hasActivity := false, out := [] })

/-- The iteration after line 204: left button handled. -/
def stageLeft (bounds : SDL_Rect) (s : State) (i : Input) : Frame :=
  leftClick (windowX bounds i) (windowY bounds i) (isLeftDown i) (stageTrail bounds s i)

/-- The iteration after line 211: right button handled. -/
def stageRight (bounds : SDL_Rect) (s : State) (i : Input) : Frame :=
  rightClick (windowX bounds i) (windowY bounds i) (isRightDown i) (stageLeft bounds s i)

/-- The iteration after line 223: ripples advanced; `hasActivity` is final. -/
def stageAdvance (bounds : SDL_Rect) (s : State) (i : Input) : Frame :=
  advanceRipples (stageRight bounds s i)

/-- One iteration of the main loop (lines 166-297). -/
def tick (bounds : SDL_Rect) (s : State) (i : Input) : Frame :=
  schedule i.visible (stageAdvance bounds s i)

/-- The state after the loop has run once per input, in order. -/
def run (bounds : SDL_Rect) : State → List Input → State
  | s, [] => s
  | s, i :: rest => run bounds (tick bounds s i).st rest

/-- The calls issued by each iteration of a run. -/
def runOut (bounds : SDL_Rect) : State → List Input → List (List Cmd)
  | _, [] => []
  | s, i :: rest => (tick bounds s i).out :: runOut bounds (tick bounds s i).st rest

/-! ## Vocabulary of the properties -/

/-- Whether the button read by `down` was down on the last tick of `ins`
(not down before the first tick). -/
def prevDown (down : Input → Bool) (ins : List Input) : Bool :=
  match ins.getLast? with
  | none => false
  | some j => down j

/-- Number of press edges of the button read by `down` over the ticks `ins`,
`prev` telling whether it was down just before them. -/
def countEdges (down : Input → Bool) : Bool → List Input → Nat
  | _, [] => 0
  | prev, i :: rest => (if down i && !prev then 1 else 0) + countEdges down (down i) rest

/-- Number of hidden ticks among `ins`. -/
def countHidden : List Input → Nat
  | [] => 0
  | i :: rest => (if i.visible then 0 else 1) + countHidden rest

/-- The sleep durations requested by a list of calls, in order. -/
def delays : List Cmd → List Nat
  | [] => []
  | Cmd.delay ms :: rest => ms :: delays rest
  | _ :: rest => delays rest

/-- Whether a call is one the renderer of lines 233-261 makes: a colour
selection, a line or a polyline. -/
def isPaint : Cmd → Bool
  | Cmd.setRenderDrawColor _ _ _ _ => true
  | Cmd.renderLines _ _ _ => true
  | Cmd.renderLine _ _ _ _ => true
  | _ => false

/-- Whether a call draws a line or a polyline. -/
def isDraw : Cmd → Bool
  | Cmd.renderLines _ _ _ => true
  | Cmd.renderLine _ _ _ _ => true
  | _ => false

/-- `advanceList` applied `n` times. -/
def advanceN : Nat → List Ripple → List Ripple
  | 0, rs => rs
  | n + 1, rs => advanceN n (advanceList rs)

/-- The iteration after lines 166-178: sample taken, trail pushed, not yet
trimmed.  `stageTrail` is `trailEvict` applied to it. -/
def stagePush (bounds : SDL_Rect) (s : State) (i : Input) : Frame :=
  trailPush (windowX bounds i) (windowY bounds i) i.now
    { st := s, hasActivity := false, out := [] }

/-- The ripples appended by the click handling of a tick (lines 195-211), in the
order they are appended: the left button's, then the right button's. -/
def spawned (bounds : SDL_Rect) (s : State) (i : Input) : List Ripple :=
  (if isLeftDown i && !s.wasLeftDown then
      [newRipple (windowX bounds i) (windowY bounds i)
        (if s.useAux then COLOR_AUX else COLOR_MAIN)]
    else [])
  ++ (if isRightDown i && !s.wasRightDown then
      [newRipple (windowX bounds i) (windowY bounds i) COLOR_MAIN]
    else [])

/-- Number of visible ticks among `ins`. -/
def countVisible : List Input → Nat
  | [] => 0
  | i :: rest => (if i.visible then 1 else 0) + countVisible rest

/-- The full scan that section 4.1 of the specification allows in place of the
single-pass trim: remove every node whose age `now - timestamp` exceeds 200,
then keep the first 14 of the remaining nodes. -/
def specFullScanTrim (now : Nat) (trail : List TrailNode) : List TrailNode :=
  (trail.filter (fun n => !decide (now - n.timestamp > 200))).take 14

/-- The ripples of `spawned`, each paired with the button that spawned it
(`true` for the left button).  The tag is not program state: it records where a
ripple came from, for the invariants below. -/
def spawnedTagged (bounds : SDL_Rect) (s : State) (i : Input) : List (Ripple × Bool) :=
  (if isLeftDown i && !s.wasLeftDown then
      [(newRipple (windowX bounds i) (windowY bounds i)
        (if s.useAux then COLOR_AUX else COLOR_MAIN), true)]
    else [])
  ++ (if isRightDown i && !s.wasRightDown then
      [(newRipple (windowX bounds i) (windowY bounds i) COLOR_MAIN, false)]
    else [])

/-- The advance step of lines 214-223 on tagged ripples: the tag rides along. -/
def advanceTagged (ts : List (Ripple × Bool)) : List (Ripple × Bool) :=
  (ts.map (fun p => (growRipple p.1, p.2))).filter (fun p => decide (0 < p.1.life))

/-- What holds of the ripple collection of a reachable state, in terms of the
button that spawned each ripple.  Every ripple has a whole life `k` in `1..29`
and radius `2 (30 - k)`; one spawned on the previous tick (life 29) has its
button recorded as down; a right-button ripple has the main colour; the latest
left-button ripple, if at most two ticks old, has the colour the toggle has just
left; lives do not decrease along the collection, two ripples of one button
are at least two ticks apart, and two left-button ripples exactly two ticks
apart differ in colour. -/
def TagInv (wasLeft wasRight useAux : Bool) (ts : List (Ripple × Bool)) : Prop :=
  (∀ p ∈ ts, ∃ k : Nat, 1 ≤ k ∧ k ≤ 29 ∧ p.1.life = (k : ℚ)
      ∧ p.1.radius = 2 * (30 - (k : ℚ)))
    ∧ (∀ p ∈ ts, p.1.life = 29 → (if p.2 then wasLeft else wasRight) = true)
    ∧ (∀ p ∈ ts, p.2 = false → p.1.color = COLOR_MAIN)
    ∧ (∀ p ∈ ts, p.2 = true → 28 ≤ p.1.life →
        p.1.color = (if useAux then COLOR_MAIN else COLOR_AUX))
    ∧ ts.Pairwise (fun p q =>
        p.1.life ≤ q.1.life
          ∧ (p.2 = q.2 → p.1.life + 2 ≤ q.1.life)
          ∧ (p.2 = true → q.2 = true → p.1.life + 2 = q.1.life → p.1.color ≠ q.1.color))

/-- What the renderer of lines 233-261 draws for a state: the ripples, then the
trail. -/
def frameCmds (s : State) : List Cmd := drawRipples s.ripples ++ drawTrail s.trail

/-- The frame a tick puts on screen: the calls between its `SDL_RenderClear` and
its `SDL_RenderPresent`, or `none` when the tick presents nothing. -/
def presentedFrame (out : List Cmd) : Option (List Cmd) :=
  if Cmd.renderPresent ∈ out then
    some (((out.dropWhile (fun c => c != Cmd.renderClear)).tail).takeWhile
      (fun c => c != Cmd.renderPresent))
  else none

/-- The frame on screen after the ticks whose calls are listed, `shown` being
the frame on screen before them. -/
def onScreen (shown : List Cmd) : List (List Cmd) → List Cmd
  | [] => shown
  | out :: rest => onScreen ((presentedFrame out).getD shown) rest

/-! ## Line 175 in binary32 arithmetic

The coordinates are `float` and the test `std::abs(front - w) > 0.1f` is made in
`float`: the difference is rounded to binary32 and compared with the float
nearest to one tenth.  The definitions below follow that arithmetic on the
rationals, the finite floats being the rationals that `f32` leaves unchanged.
Pointer coordinates are finite floats. -/

/-- Two to the power `e`, `e` an integer. -/
def pow2 (e : Int) : ℚ :=
  if 0 ≤ e then ((2 ^ e.toNat : Nat) : ℚ) else 1 / ((2 ^ (-e).toNat : Nat) : ℚ)

/-- Number of binary digits of `n`; `fuel` bounds the recursion and `fuel = n`
is enough. -/
def bitLength : Nat → Nat → Nat
  | 0, _ => 0
  | fuel + 1, n => if n = 0 then 0 else bitLength fuel (n / 2) + 1

/-- Binary exponent of a positive `x`: the integer `e` with
`2 ^ e ≤ x < 2 ^ (e + 1)`. -/
def floorLog2 (x : ℚ) : Int :=
  if pow2 ((bitLength x.num.natAbs x.num.natAbs : Int) - (bitLength x.den x.den : Int)) ≤ x then
    (bitLength x.num.natAbs x.num.natAbs : Int) - (bitLength x.den x.den : Int)
  else (bitLength x.num.natAbs x.num.natAbs : Int) - (bitLength x.den x.den : Int) - 1

/-- Nearest integer, a tie going to the even one. -/
def roundHalfEven (x : ℚ) : Int :=
  if x - (Rat.floor x : ℚ) < 1 / 2 then Rat.floor x
  else if x - (Rat.floor x : ℚ) > 1 / 2 then Rat.floor x + 1
  else if Rat.floor x % 2 = 0 then Rat.floor x else Rat.floor x + 1

/-- Rounding of an exact result to `float` (IEEE 754 binary32, round to nearest,
ties to even): 24 significant bits, least exponent `-126` with gradual
underflow.  A result beyond the largest finite float is left finite, where the
machine gives an infinity; against `0.1f` both compare the same way. -/
def f32 (x : ℚ) : ℚ :=
  if x = 0 then 0
  else (roundHalfEven (x / pow2 (max (floorLog2 (fabs x)) (-126) - 23)) : ℚ)
        * pow2 (max (floorLog2 (fabs x)) (-126) - 23)

/-- Line 169, `float wx = gx - bounds.x`: the `int` is converted to `float` and
the subtraction is made in `float`.  `i.gx` is the float SDL returned. -/
def windowXF32 (bounds : SDL_Rect) (i : Input) : ℚ := f32 (i.gx - f32 (bounds.x : ℚ))

/-- Line 170, `float wy = gy - bounds.y`. -/
def windowYF32 (bounds : SDL_Rect) (i : Input) : ℚ := f32 (i.gy - f32 (bounds.y : ℚ))

/-- Condition of line 175 as the machine evaluates it: each difference rounded
to `float`, and `0.1f` the float nearest to one tenth. -/
def movedF32 (trail : List TrailNode) (wx wy : ℚ) : Bool :=
  match trail with
  | [] => true
  | front :: _ =>
    decide (fabs (f32 (front.pos.x - wx)) > f32 (1 / 10))
      || decide (fabs (f32 (front.pos.y - wy)) > f32 (1 / 10))

/-- Lines 175-178 with the condition evaluated in `float`. -/
def trailPushF32 (wx wy : ℚ) (now : Nat) (f : Frame) : Frame :=
  if movedF32 f.st.trail wx wy then
    { f with
      st := { f.st with trail := { pos := ⟨wx, wy⟩, timestamp := now } :: f.st.trail }
      hasActivity := true }
  else f

/-- The iteration after lines 166-189, sample and push condition in `float`. -/
def stageTrailF32 (bounds : SDL_Rect) (s : State) (i : Input) : Frame :=
  trailEvict i.now
    (trailPushF32 (windowXF32 bounds i) (windowYF32 bounds i) i.now
      { st := s, hasActivity := false, out := [] })

/-- One iteration of the main loop, sample and push condition in `float`. -/
def tickF32 (bounds : SDL_Rect) (s : State) (i : Input) : Frame :=
  schedule i.visible
    (advanceRipples
      (rightClick (windowXF32 bounds i) (windowYF32 bounds i) (isRightDown i)
        (leftClick (windowXF32 bounds i) (windowYF32 bounds i) (isLeftDown i)
          (stageTrailF32 bounds s i))))

/-- The state after a run of `tickF32`. -/
def runF32 (bounds : SDL_Rect) : State → List Input → State
  | s, [] => s
  | s, i :: rest => runF32 bounds (tickF32 bounds s i).st rest

/-- Body of the ripple loop of lines 233-243 as the machine evaluates it: the
quotient, the product and the differences rounded to `float`, `1.2f` and `2.4f`
the floats nearest to the decimals.  The guard of `drawCircleApprox` compares
with `0.5f`, which is one half exactly. -/
def drawRippleF32 (r : Ripple) : List Cmd :=
  let alphaRatio : ℚ := f32 (r.life / f32 (RIPPLE_MAX_LIFE : ℚ))
  let alpha : Nat := toUint8 (f32 (255 * alphaRatio))
  [Cmd.setRenderDrawColor r.color.r r.color.g r.color.b alpha]
    ++ drawCircleApprox r.center.x r.center.y r.radius
    ++ (if r.radius > f32 (6 / 5) then
          drawCircleApprox r.center.x r.center.y (f32 (r.radius - f32 (6 / 5)))
        else [])
    ++ (if r.radius > f32 (12 / 5) then
          drawCircleApprox r.center.x r.center.y (f32 (r.radius - f32 (12 / 5)))
        else [])

/-! ## Stage by stage: what each step leaves alone -/

theorem run_append (bounds : SDL_Rect) (ins : List Input) (i : Input) :
    ∀ s : State, run bounds s (ins ++ [i]) = (tick bounds (run bounds s ins) i).st := by
  induction ins with
  | nil => intro s; rfl
  | cons j rest ih => intro s; simp only [List.cons_append, run]; exact ih _

theorem trailPush_ripples (wx wy : ℚ) (now : Nat) (f : Frame) :
    (trailPush wx wy now f).st.ripples = f.st.ripples
      ∧ (trailPush wx wy now f).st.wasLeftDown = f.st.wasLeftDown
      ∧ (trailPush wx wy now f).st.wasRightDown = f.st.wasRightDown
      ∧ (trailPush wx wy now f).st.useAux = f.st.useAux
      ∧ (trailPush wx wy now f).st.hideCounter = f.st.hideCounter
      ∧ (trailPush wx wy now f).st.cleanupCounter = f.st.cleanupCounter
      ∧ (trailPush wx wy now f).out = f.out := by
  unfold trailPush
  split <;> simp

theorem stageTrail_frame (bounds : SDL_Rect) (s : State) (i : Input) :
    (stageTrail bounds s i).st.ripples = s.ripples
      ∧ (stageTrail bounds s i).st.wasLeftDown = s.wasLeftDown
      ∧ (stageTrail bounds s i).st.wasRightDown = s.wasRightDown
      ∧ (stageTrail bounds s i).st.useAux = s.useAux
      ∧ (stageTrail bounds s i).st.hideCounter = s.hideCounter
      ∧ (stageTrail bounds s i).st.cleanupCounter = s.cleanupCounter
      ∧ (stageTrail bounds s i).out = [] := by
  have h := trailPush_ripples (windowX bounds i) (windowY bounds i) i.now
    { st := s, hasActivity := false, out := [] }
  simp only [stageTrail, trailEvict]
  exact h

theorem leftClick_frame (wx wy : ℚ) (down : Bool) (f : Frame) :
    (leftClick wx wy down f).st.trail = f.st.trail
      ∧ (leftClick wx wy down f).st.wasLeftDown = down
      ∧ (leftClick wx wy down f).st.wasRightDown = f.st.wasRightDown
      ∧ (leftClick wx wy down f).st.hideCounter = f.st.hideCounter
      ∧ (leftClick wx wy down f).st.cleanupCounter = f.st.cleanupCounter
      ∧ (leftClick wx wy down f).out = f.out := by
  unfold leftClick
  split <;> simp

theorem leftClick_ripples (wx wy : ℚ) (down : Bool) (f : Frame) :
    (leftClick wx wy down f).st.ripples
        = f.st.ripples ++
          (if down && !f.st.wasLeftDown then
            [newRipple wx wy (if f.st.useAux then COLOR_AUX else COLOR_MAIN)] else [])
      ∧ (leftClick wx wy down f).st.useAux
        = (if down && !f.st.wasLeftDown then !f.st.useAux else f.st.useAux) := by
  unfold leftClick
  split <;> simp

theorem rightClick_frame (wx wy : ℚ) (down : Bool) (f : Frame) :
    (rightClick wx wy down f).st.trail = f.st.trail
      ∧ (rightClick wx wy down f).st.wasLeftDown = f.st.wasLeftDown
      ∧ (rightClick wx wy down f).st.wasRightDown = down
      ∧ (rightClick wx wy down f).st.useAux = f.st.useAux
      ∧ (rightClick wx wy down f).st.hideCounter = f.st.hideCounter
      ∧ (rightClick wx wy down f).st.cleanupCounter = f.st.cleanupCounter
      ∧ (rightClick wx wy down f).out = f.out := by
  unfold rightClick
  split <;> simp

theorem rightClick_ripples (wx wy : ℚ) (down : Bool) (f : Frame) :
    (rightClick wx wy down f).st.ripples
        = f.st.ripples ++
          (if down && !f.st.wasRightDown then [newRipple wx wy COLOR_MAIN] else []) := by
  unfold rightClick
  split <;> simp

theorem advanceRipples_frame (f : Frame) :
    (advanceRipples f).st.trail = f.st.trail
      ∧ (advanceRipples f).st.wasLeftDown = f.st.wasLeftDown
      ∧ (advanceRipples f).st.wasRightDown = f.st.wasRightDown
      ∧ (advanceRipples f).st.useAux = f.st.useAux
      ∧ (advanceRipples f).st.hideCounter = f.st.hideCounter
      ∧ (advanceRipples f).st.cleanupCounter = f.st.cleanupCounter
      ∧ (advanceRipples f).out = f.out
      ∧ (advanceRipples f).st.ripples = advanceList f.st.ripples := by
  unfold advanceRipples advanceList
  split <;> simp

theorem cleanup_frame (f : Frame) :
    (cleanup f).st.trail = f.st.trail
      ∧ (cleanup f).st.ripples = f.st.ripples
      ∧ (cleanup f).st.wasLeftDown = f.st.wasLeftDown
      ∧ (cleanup f).st.wasRightDown = f.st.wasRightDown
      ∧ (cleanup f).st.useAux = f.st.useAux
      ∧ (cleanup f).st.hideCounter = f.st.hideCounter
      ∧ (cleanup f).out = f.out
      ∧ (cleanup f).hasActivity = f.hasActivity := by
  unfold cleanup
  split <;> exact ⟨rfl, rfl, rfl, rfl, rfl, rfl, rfl, rfl⟩

theorem schedule_frame (visible : Bool) (f : Frame) :
    (schedule visible f).st.trail = f.st.trail
      ∧ (schedule visible f).st.ripples = f.st.ripples
      ∧ (schedule visible f).st.wasLeftDown = f.st.wasLeftDown
      ∧ (schedule visible f).st.wasRightDown = f.st.wasRightDown
      ∧ (schedule visible f).st.useAux = f.st.useAux := by
  unfold schedule
  split
  · obtain ⟨h1, h2, h3, h4, h5, _⟩ := cleanup_frame (frameRateControl (drawFrame f))
    exact ⟨h1, h2, h3, h4, h5⟩
  · split
    · exact ⟨rfl, rfl, rfl, rfl, rfl⟩
    · obtain ⟨h1, h2, h3, h4, h5, _⟩ := cleanup_frame (frameRateControl f)
      exact ⟨h1, h2, h3, h4, h5⟩

theorem tick_trail (bounds : SDL_Rect) (s : State) (i : Input) :
    (tick bounds s i).st.trail = (stageTrail bounds s i).st.trail := by
  unfold tick stageAdvance stageRight stageLeft
  rw [(schedule_frame _ _).1, (advanceRipples_frame _).1, (rightClick_frame _ _ _ _).1,
    (leftClick_frame _ _ _ _).1]

/-! ## Trail: size -/

theorem evictLoop_length (now : Nat) (l : List TrailNode) :
    ∀ act : Bool, (evictLoop now l act).1.length ≤ TRAIL_LENGTH := by
  induction l with
  | nil => intro act; simp [evictLoop]
  | cons back rest ih =>
    intro act
    unfold evictLoop
    split
    · exact ih true
    · rename_i h
      simp only [Bool.or_eq_true, decide_eq_true_eq, not_or, not_lt] at h
      exact h.1

theorem stageTrail_length (bounds : SDL_Rect) (s : State) (i : Input) :
    (stageTrail bounds s i).st.trail.length ≤ TRAIL_LENGTH := by
  simp only [stageTrail, trailEvict, List.length_reverse]
  exact evictLoop_length _ _ _

/-- C1. Starting from the empty trail, after every sequence of ticks, whatever
the pointer positions, buttons, time stamps and visibility, the trail buffer
holds at most 14 nodes. -/
theorem trail_size_bound (bounds : SDL_Rect) (ins : List Input) :
    (run bounds initial ins).trail.length ≤ 14 := by
  rcases List.eq_nil_or_concat ins with h | ⟨l, i, h⟩
  · subst h
    simp [run, initial]
  · subst h
    rw [List.concat_eq_append, run_append, tick_trail]
    exact stageTrail_length bounds _ i

/-! ## Trail: age -/

theorem trailPush_trail (wx wy : ℚ) (now : Nat) (f : Frame) :
    (trailPush wx wy now f).st.trail
      = if moved f.st.trail wx wy then
          { pos := ⟨wx, wy⟩, timestamp := now } :: f.st.trail
        else f.st.trail := by
  unfold trailPush
  split <;> rfl

theorem evictLoop_suffix (now : Nat) (l : List TrailNode) :
    ∀ act : Bool, (evictLoop now l act).1 <:+ l := by
  induction l with
  | nil => intro act; simp [evictLoop]
  | cons back rest ih =>
    intro act
    unfold evictLoop
    split
    · exact (ih true).trans (List.suffix_cons back rest)
    · exact List.suffix_refl _

theorem evictLoop_fresh (now : Nat) (hnow : now < 2 ^ 64) (l : List TrailNode) :
    ∀ act : Bool, l.Pairwise (fun a c => a.timestamp ≤ c.timestamp) →
      (∀ n ∈ l, n.timestamp ≤ now) →
      ∀ n ∈ (evictLoop now l act).1, now - n.timestamp ≤ 200 := by
  induction l with
  | nil => intro act _ _ n hn; simp [evictLoop] at hn
  | cons back rest ih =>
    intro act hs hle
    unfold evictLoop
    split
    · exact ih true (List.Pairwise.of_cons hs) (fun n hn => hle n (List.mem_cons_of_mem _ hn))
    · rename_i h
      simp only [expired, Bool.or_eq_true, decide_eq_true_eq, not_or, not_lt] at h
      have hb : back.timestamp ≤ now := hle back (List.mem_cons_self _ _)
      have hsub : (now + 2 ^ 64 - back.timestamp) % 2 ^ 64 = now - back.timestamp := by
        have e : now + 2 ^ 64 - back.timestamp = (now - back.timestamp) + 2 ^ 64 := by omega
        rw [e, Nat.add_mod_right, Nat.mod_eq_of_lt (by omega)]
      have hage : now - back.timestamp ≤ 200 := by
        have h2 := h.2
        rw [hsub] at h2
        exact h2
      intro n hn
      rcases List.mem_cons.1 hn with hEq | hn2
      · rw [hEq]; exact hage
      · have := List.rel_of_pairwise_cons hs hn2
        omega

/-- The trail after the trail update is an initial segment of the trail after
the push: eviction removes from the back only. -/
theorem stageTrail_initial_segment (bounds : SDL_Rect) (s : State) (i : Input) :
    (stageTrail bounds s i).st.trail <+:
      (if moved s.trail (windowX bounds i) (windowY bounds i) then
        { pos := ⟨windowX bounds i, windowY bounds i⟩, timestamp := i.now } :: s.trail
       else s.trail) := by
  have hp := trailPush_trail (windowX bounds i) (windowY bounds i) i.now
    { st := s, hasActivity := false, out := [] }
  simp only [stageTrail, trailEvict]
  rw [← hp]
  have hsuf := evictLoop_suffix i.now
    (trailPush (windowX bounds i) (windowY bounds i) i.now
      { st := s, hasActivity := false, out := [] }).st.trail.reverse
    (trailPush (windowX bounds i) (windowY bounds i) i.now
      { st := s, hasActivity := false, out := [] }).hasActivity
  have := List.reverse_prefix.2 hsuf
  rwa [List.reverse_reverse] at this

/-- With a monotonic clock the trail is ordered newest first, and every time
stamp in it is the clock reading of some earlier tick. -/
theorem run_trail_sorted (bounds : SDL_Rect) (ins : List Input)
    (hmono : (ins.map Input.now).Pairwise (fun a c => a ≤ c)) :
    (run bounds initial ins).trail.Pairwise (fun a c => c.timestamp ≤ a.timestamp)
      ∧ ∀ n ∈ (run bounds initial ins).trail, ∃ j ∈ ins, n.timestamp = j.now := by
  induction ins using List.reverseRecOn with
  | nil => simp [run, initial]
  | append_singleton l i ih =>
    rw [List.map_append, List.pairwise_append] at hmono
    obtain ⟨hl, _, hli⟩ := hmono
    obtain ⟨ihs, ihm⟩ := ih hl
    have hbound : ∀ n ∈ (run bounds initial l).trail, n.timestamp ≤ i.now := by
      intro n hn
      obtain ⟨j, hj, hjn⟩ := ihm n hn
      rw [hjn]
      exact hli j.now (List.mem_map_of_mem _ hj) i.now (by simp)
    have hseg := stageTrail_initial_segment bounds (run bounds initial l) i
    rw [run_append, tick_trail]
    split at hseg
    · constructor
      · refine List.Pairwise.sublist hseg.sublist ?_
        exact List.pairwise_cons.2 ⟨fun n hn => hbound n hn, ihs⟩
      · intro n hn
        rcases List.mem_cons.1 (hseg.subset hn) with hEq | hn2
        · exact ⟨i, by simp, by rw [hEq]⟩
        · obtain ⟨j, hj, hjn⟩ := ihm n hn2
          exact ⟨j, List.mem_append_left _ hj, hjn⟩
    · constructor
      · exact List.Pairwise.sublist hseg.sublist ihs
      · intro n hn
        obtain ⟨j, hj, hjn⟩ := ihm n (hseg.subset hn)
        exact ⟨j, List.mem_append_left _ hj, hjn⟩

/-- C2. Starting from the empty trail, for every sequence of ticks whose time
stamps never decrease (and fit the 64-bit clock), at the end of the last tick
every node of the trail buffer, not only the back one, has a time stamp no later
than that tick's and an age `now - timestamp` of at most 200. -/
theorem trail_age_bound (bounds : SDL_Rect) (ins : List Input) (i : Input)
    (hmono : List.Chain' (fun a c => a ≤ c) ((ins ++ [i]).map Input.now))
    (hrange : i.now < 2 ^ 64) :
    ∀ n ∈ (run bounds initial (ins ++ [i])).trail,
      n.timestamp ≤ i.now ∧ i.now - n.timestamp ≤ 200 := by
  have hpw : ((ins ++ [i]).map Input.now).Pairwise (fun a c => a ≤ c) :=
    List.chain'_iff_pairwise.1 hmono
  rw [List.map_append, List.pairwise_append] at hpw
  obtain ⟨hl, _, hli⟩ := hpw
  obtain ⟨hsorted, hfrom⟩ := run_trail_sorted bounds ins hl
  have hbound : ∀ n ∈ (run bounds initial ins).trail, n.timestamp ≤ i.now := by
    intro n hn
    obtain ⟨j, hj, hjn⟩ := hfrom n hn
    rw [hjn]
    exact hli j.now (List.mem_map_of_mem _ hj) i.now (by simp)
  have hp := trailPush_trail (windowX bounds i) (windowY bounds i) i.now
    { st := run bounds initial ins, hasActivity := false, out := [] }
  have hT : (trailPush (windowX bounds i) (windowY bounds i) i.now
        { st := run bounds initial ins, hasActivity := false, out := [] }).st.trail.Pairwise
        (fun a c => c.timestamp ≤ a.timestamp)
      ∧ ∀ n ∈ (trailPush (windowX bounds i) (windowY bounds i) i.now
        { st := run bounds initial ins, hasActivity := false, out := [] }).st.trail,
          n.timestamp ≤ i.now := by
    rw [hp]
    split
    · refine ⟨List.pairwise_cons.2 ⟨fun n hn => hbound n hn, hsorted⟩, ?_⟩
      intro n hn
      rcases List.mem_cons.1 hn with hEq | hn2
      · rw [hEq]
      · exact hbound n hn2
    · exact ⟨hsorted, hbound⟩
  have hfresh := evictLoop_fresh i.now hrange
    (trailPush (windowX bounds i) (windowY bounds i) i.now
      { st := run bounds initial ins, hasActivity := false, out := [] }).st.trail.reverse
    (trailPush (windowX bounds i) (windowY bounds i) i.now
      { st := run bounds initial ins, hasActivity := false, out := [] }).hasActivity
    (List.pairwise_reverse.2 hT.1)
    (fun n hn => hT.2 n (List.mem_reverse.1 hn))
  intro n hn
  rw [run_append, tick_trail] at hn
  have hn2 : n ∈ (evictLoop i.now
      (trailPush (windowX bounds i) (windowY bounds i) i.now
        { st := run bounds initial ins, hasActivity := false, out := [] }).st.trail.reverse
      (trailPush (windowX bounds i) (windowY bounds i) i.now
        { st := run bounds initial ins, hasActivity := false, out := [] }).hasActivity).1 :=
    List.mem_reverse.1 hn
  refine ⟨?_, hfresh n hn2⟩
  exact hT.2 n (List.mem_reverse.1 ((evictLoop_suffix _ _ _).subset hn2))

theorem trail_age_bound_witness :
    List.Chain' (fun a c => a ≤ c)
        (([Input.mk 0 0 0 0 true, Input.mk 5 0 0 150 true] ++ [Input.mk 5 0 0 260 true]).map
          Input.now)
      ∧ (Input.mk 5 0 0 260 true).now < 2 ^ 64
      ∧ (run ⟨0, 0, 1920, 1080⟩ initial
          ([Input.mk 0 0 0 0 true, Input.mk 5 0 0 150 true] ++ [Input.mk 5 0 0 260 true])).trail
          = [⟨⟨5, 0⟩, 150⟩]
      ∧ ∀ n ∈ (run ⟨0, 0, 1920, 1080⟩ initial
          ([Input.mk 0 0 0 0 true, Input.mk 5 0 0 150 true] ++ [Input.mk 5 0 0 260 true])).trail,
          n.timestamp ≤ (Input.mk 5 0 0 260 true).now
            ∧ (Input.mk 5 0 0 260 true).now - n.timestamp ≤ 200 :=
  ⟨by simp, by decide, by decide!,
    trail_age_bound ⟨0, 0, 1920, 1080⟩ [Input.mk 0 0 0 0 true, Input.mk 5 0 0 150 true]
      (Input.mk 5 0 0 260 true) (by simp) (by decide)⟩

/-! ## Trail: when a node is pushed -/

/-- C3, as stated, fails in two ways.  A pointer resting at `(0, 0)`: the node of
tick 0 is evicted at 250 ms, and the tick at 300 ms, whose position equals the
previous tick's, pushes a node onto the empty trail.  A pointer creeping by
`0.06` per tick: on the third tick it is within `0.1` of the previous sample but
`0.12` from the front node, and a node is pushed. -/
theorem stationary_pointer_counterexample :
    (fabs (windowX ⟨0, 0, 1920, 1080⟩ ⟨0, 0, 0, 300, true⟩
          - windowX ⟨0, 0, 1920, 1080⟩ ⟨0, 0, 0, 250, true⟩) ≤ 1 / 10
      ∧ fabs (windowY ⟨0, 0, 1920, 1080⟩ ⟨0, 0, 0, 300, true⟩
          - windowY ⟨0, 0, 1920, 1080⟩ ⟨0, 0, 0, 250, true⟩) ≤ 1 / 10
      ∧ (run ⟨0, 0, 1920, 1080⟩ initial
          [⟨0, 0, 0, 0, true⟩, ⟨0, 0, 0, 250, true⟩]).trail = []
      ∧ moved (run ⟨0, 0, 1920, 1080⟩ initial
          [⟨0, 0, 0, 0, true⟩, ⟨0, 0, 0, 250, true⟩]).trail 0 0 = true
      ∧ (run ⟨0, 0, 1920, 1080⟩ initial
          [⟨0, 0, 0, 0, true⟩, ⟨0, 0, 0, 250, true⟩, ⟨0, 0, 0, 300, true⟩]).trail
          = [⟨⟨0, 0⟩, 300⟩])
    ∧ (fabs (windowX ⟨0, 0, 1920, 1080⟩ ⟨3 / 25, 0, 0, 20, true⟩
          - windowX ⟨0, 0, 1920, 1080⟩ ⟨3 / 50, 0, 0, 10, true⟩) ≤ 1 / 10
      ∧ fabs (windowY ⟨0, 0, 1920, 1080⟩ ⟨3 / 25, 0, 0, 20, true⟩
          - windowY ⟨0, 0, 1920, 1080⟩ ⟨3 / 50, 0, 0, 10, true⟩) ≤ 1 / 10
      ∧ (run ⟨0, 0, 1920, 1080⟩ initial
          [⟨0, 0, 0, 0, true⟩, ⟨3 / 50, 0, 0, 10, true⟩]).trail = [⟨⟨0, 0⟩, 0⟩]
      ∧ moved (run ⟨0, 0, 1920, 1080⟩ initial
          [⟨0, 0, 0, 0, true⟩, ⟨3 / 50, 0, 0, 10, true⟩]).trail (3 / 25) 0 = true
      ∧ (run ⟨0, 0, 1920, 1080⟩ initial
          [⟨0, 0, 0, 0, true⟩, ⟨3 / 50, 0, 0, 10, true⟩, ⟨3 / 25, 0, 0, 20, true⟩]).trail
          = [⟨⟨3 / 25, 0⟩, 20⟩, ⟨⟨0, 0⟩, 0⟩]) := by
  decide!

/-- C3, amended. In every state whose trail is not empty, if the pointer
position of the tick is within `0.1` on both axes of the position of the front
node, the tick pushes no node: the push step leaves the trail as it is, and the
trail at the end of the tick is an initial segment of the trail at its start
(the same, or shortened from the back by eviction). -/
theorem stationary_pointer_no_push (bounds : SDL_Rect) (s : State) (i : Input)
    (front : TrailNode) (rest : List TrailNode) (hne : s.trail = front :: rest)
    (hx : fabs (front.pos.x - windowX bounds i) ≤ 1 / 10)
    (hy : fabs (front.pos.y - windowY bounds i) ≤ 1 / 10) :
    (trailPush (windowX bounds i) (windowY bounds i) i.now
        { st := s, hasActivity := false, out := [] }).st.trail = s.trail
      ∧ (tick bounds s i).st.trail <+: s.trail := by
  have hm : moved s.trail (windowX bounds i) (windowY bounds i) = false := by
    rw [hne]
    simp only [moved, Bool.or_eq_false_iff, decide_eq_false_iff_not, not_lt, gt_iff_lt]
    exact ⟨hx, hy⟩
  constructor
  · rw [trailPush_trail]
    simp [hm]
  · have hseg := stageTrail_initial_segment bounds s i
    rw [hm] at hseg
    rw [tick_trail]
    simpa using hseg

theorem stationary_pointer_no_push_witness :
    fabs ((0 : ℚ) - windowX ⟨0, 0, 1920, 1080⟩ ⟨1 / 20, 0, 0, 10, true⟩) ≤ 1 / 10
      ∧ fabs ((0 : ℚ) - windowY ⟨0, 0, 1920, 1080⟩ ⟨1 / 20, 0, 0, 10, true⟩) ≤ 1 / 10
      ∧ (tick ⟨0, 0, 1920, 1080⟩
            { trail := [⟨⟨0, 0⟩, 0⟩], ripples := [], wasLeftDown := false,
              wasRightDown := false, useAux := false, hideCounter := 0, cleanupCounter := 0 }
            ⟨1 / 20, 0, 0, 10, true⟩).st.trail <+: [⟨⟨0, 0⟩, 0⟩] :=
  ⟨by decide!, by decide!,
    (stationary_pointer_no_push ⟨0, 0, 1920, 1080⟩
      { trail := [⟨⟨0, 0⟩, 0⟩], ripples := [], wasLeftDown := false,
        wasRightDown := false, useAux := false, hideCounter := 0, cleanupCounter := 0 }
      ⟨1 / 20, 0, 0, 10, true⟩ ⟨⟨0, 0⟩, 0⟩ [] rfl (by decide!) (by decide!)).2⟩

/-! ## Clicks: previous-down flags and the colour toggle -/

theorem tick_flags (bounds : SDL_Rect) (s : State) (i : Input) :
    (tick bounds s i).st.wasLeftDown = isLeftDown i
      ∧ (tick bounds s i).st.wasRightDown = isRightDown i
      ∧ (tick bounds s i).st.useAux
        = (if isLeftDown i && !s.wasLeftDown then !s.useAux else s.useAux) := by
  obtain ⟨_, hT1, _, hT3, _⟩ := stageTrail_frame bounds s i
  unfold tick stageAdvance stageRight stageLeft
  refine ⟨?_, ?_, ?_⟩
  · rw [(schedule_frame _ _).2.2.1, (advanceRipples_frame _).2.1,
      (rightClick_frame _ _ _ _).2.1, (leftClick_frame _ _ _ _).2.1]
  · rw [(schedule_frame _ _).2.2.2.1, (advanceRipples_frame _).2.2.1,
      (rightClick_frame _ _ _ _).2.2.1]
  · rw [(schedule_frame _ _).2.2.2.2, (advanceRipples_frame _).2.2.2.1,
      (rightClick_frame _ _ _ _).2.2.2.1, (leftClick_ripples _ _ _ _).2, hT1, hT3]

theorem prevDown_append (down : Input → Bool) (l : List Input) (i : Input) :
    prevDown down (l ++ [i]) = down i := by
  simp [prevDown]

theorem countEdges_append (down : Input → Bool) (l : List Input) (i : Input) :
    ∀ prev : Bool, countEdges down prev (l ++ [i])
      = countEdges down prev l
        + (if down i && !((l.getLast?.map down).getD prev) then 1 else 0) := by
  induction l with
  | nil => intro prev; simp [countEdges]
  | cons j rest ih =>
    intro prev
    have hlast : (((j :: rest).getLast?).map down).getD prev
        = ((rest.getLast?).map down).getD (down j) := by
      cases rest with
      | nil => simp
      | cons k r =>
        rw [List.getLast?_cons_cons]
        cases hl : (k :: r).getLast? with
        | none => simp at hl
        | some x => rfl
    show (if down j && !prev then 1 else 0) + countEdges down (down j) (rest ++ [i])
      = (if down j && !prev then 1 else 0) + countEdges down (down j) rest + _
    rw [ih (down j), hlast, Nat.add_assoc]

theorem countEdges_snoc (down : Input → Bool) (l : List Input) (i : Input) :
    countEdges down false (l ++ [i])
      = countEdges down false l + (if down i && !prevDown down l then 1 else 0) := by
  rw [countEdges_append]
  unfold prevDown
  cases l.getLast? <;> rfl

theorem run_flags (bounds : SDL_Rect) (ins : List Input) :
    (run bounds initial ins).wasLeftDown = prevDown isLeftDown ins
      ∧ (run bounds initial ins).wasRightDown = prevDown isRightDown ins := by
  rcases List.eq_nil_or_concat ins with h | ⟨l, i, h⟩
  · subst h
    exact ⟨rfl, rfl⟩
  · subst h
    rw [List.concat_eq_append, run_append, prevDown_append, prevDown_append]
    exact ⟨(tick_flags _ _ _).1, (tick_flags _ _ _).2.1⟩

theorem run_useAux (bounds : SDL_Rect) (ins : List Input) :
    (run bounds initial ins).useAux = decide (countEdges isLeftDown false ins % 2 = 1) := by
  induction ins using List.reverseRecOn with
  | nil => rfl
  | append_singleton l i ih =>
    rw [run_append, (tick_flags _ _ _).2.2, ih, (run_flags bounds l).1, countEdges_snoc]
    cases hedge : (isLeftDown i && !prevDown isLeftDown l)
    · simp
    · rcases Nat.mod_two_eq_zero_or_one (countEdges isLeftDown false l) with h | h
      · have : (countEdges isLeftDown false l + 1) % 2 = 1 := by omega
        simp [h, this]
      · have : (countEdges isLeftDown false l + 1) % 2 = 0 := by omega
        simp [h, this]

/-- C4. In every run from the initial state, on a tick with a left press edge
(left button down, not down on the tick before), whatever happened on the ticks
before, the ripple appended for it has colour `COLOR_MAIN` when the number of
left press edges so far, this one included, is odd, and `COLOR_AUX` when it is
even; and the two colours differ. -/
theorem left_colour_alternation (bounds : SDL_Rect) (ins : List Input) (i : Input)
    (hdown : isLeftDown i = true) (hprev : prevDown isLeftDown ins = false) :
    (stageLeft bounds (run bounds initial ins) i).st.ripples
        = (run bounds initial ins).ripples ++
          [newRipple (windowX bounds i) (windowY bounds i)
            (if countEdges isLeftDown false (ins ++ [i]) % 2 = 1 then COLOR_MAIN
             else COLOR_AUX)]
      ∧ COLOR_MAIN ≠ COLOR_AUX := by
  refine ⟨?_, by decide⟩
  obtain ⟨hT0, hT1, _, hT3, _⟩ := stageTrail_frame bounds (run bounds initial ins) i
  unfold stageLeft
  rw [(leftClick_ripples _ _ _ _).1, hT0, hT1, hT3, (run_flags bounds ins).1, hprev, hdown,
    run_useAux, countEdges_snoc, hprev, hdown]
  simp only [Bool.not_false, Bool.and_self, if_true]
  rcases Nat.mod_two_eq_zero_or_one (countEdges isLeftDown false ins) with h | h
  · have : (countEdges isLeftDown false ins + 1) % 2 = 1 := by omega
    simp [h, this]
  · have : (countEdges isLeftDown false ins + 1) % 2 = 0 := by omega
    simp [h, this]

theorem left_colour_alternation_witness :
    isLeftDown (Input.mk 7 9 1 36 true) = true
      ∧ prevDown isLeftDown
          [Input.mk 0 0 1 0 true, Input.mk 0 0 4 12 false, Input.mk 3 3 0 24 true] = false
      ∧ (stageLeft ⟨0, 0, 1920, 1080⟩
          (run ⟨0, 0, 1920, 1080⟩ initial
            [Input.mk 0 0 1 0 true, Input.mk 0 0 4 12 false, Input.mk 3 3 0 24 true])
          (Input.mk 7 9 1 36 true)).st.ripples.map Ripple.color
          = [COLOR_MAIN, COLOR_MAIN, COLOR_AUX] :=
  ⟨by decide, by decide,
    by
      rw [(left_colour_alternation ⟨0, 0, 1920, 1080⟩
        [Input.mk 0 0 1 0 true, Input.mk 0 0 4 12 false, Input.mk 3 3 0 24 true]
        (Input.mk 7 9 1 36 true) (by decide) (by decide)).1]
      decide!⟩

/-- C5. On every tick with a right press edge, in every state (so whatever the
value of the left-button toggle), the ripple appended for the right button has
colour `COLOR_MAIN`, and handling the right button leaves the toggle as the
left-button step left it; over the whole tick the toggle is flipped when the tick
has a left press edge and is unchanged otherwise. -/
theorem right_click_fixed_colour (bounds : SDL_Rect) (s : State) (i : Input)
    (hdown : isRightDown i = true) (hprev : s.wasRightDown = false) :
    (stageRight bounds s i).st.ripples
        = (stageLeft bounds s i).st.ripples ++
          [newRipple (windowX bounds i) (windowY bounds i) COLOR_MAIN]
      ∧ (stageRight bounds s i).st.useAux = (stageLeft bounds s i).st.useAux
      ∧ (tick bounds s i).st.useAux
        = (if isLeftDown i && !s.wasLeftDown then !s.useAux else s.useAux) := by
  obtain ⟨_, _, hT2, _⟩ := stageTrail_frame bounds s i
  refine ⟨?_, ?_, (tick_flags bounds s i).2.2⟩
  · unfold stageRight
    rw [rightClick_ripples, hdown]
    unfold stageLeft
    rw [(leftClick_frame _ _ _ _).2.2.1, hT2, hprev]
    rfl
  · unfold stageRight
    exact (rightClick_frame _ _ _ _).2.2.2.1

theorem right_click_fixed_colour_witness :
    isRightDown (Input.mk 4 5 4 100 true) = true
      ∧ (State.mk [] [] false false true 0 0).wasRightDown = false
      ∧ (stageRight ⟨0, 0, 1920, 1080⟩ (State.mk [] [] false false true 0 0)
          (Input.mk 4 5 4 100 true)).st.ripples
          = [newRipple 4 5 COLOR_MAIN]
      ∧ (tick ⟨0, 0, 1920, 1080⟩ (State.mk [] [] false false true 0 0)
          (Input.mk 4 5 4 100 true)).st.useAux = true :=
  ⟨by decide, rfl,
    by
      rw [(right_click_fixed_colour ⟨0, 0, 1920, 1080⟩ (State.mk [] [] false false true 0 0)
        (Input.mk 4 5 4 100 true) (by decide) rfl).1]
      decide!,
    by
      rw [(right_click_fixed_colour ⟨0, 0, 1920, 1080⟩ (State.mk [] [] false false true 0 0)
        (Input.mk 4 5 4 100 true) (by decide) rfl).2.2]
      decide⟩

/-! ## Ripples: one advance step -/

theorem growAll_eq_map (rs : List Ripple) : growAll rs = rs.map growRipple := by
  induction rs with
  | nil => rfl
  | cons r rest ih => simp [growAll, ih]

theorem removeDead_eq_filter (rs : List Ripple) :
    removeDead rs = rs.filter (fun r => decide (0 < r.life)) := by
  induction rs with
  | nil => rfl
  | cons r rest ih =>
    unfold removeDead
    split
    · rename_i h
      rw [ih, List.filter_cons_of_neg]
      simpa using h
    · rename_i h
      rw [ih, List.filter_cons_of_pos]
      simpa using h

theorem advanceList_eq (rs : List Ripple) :
    advanceList rs = (rs.map growRipple).filter (fun r => decide (0 < r.life)) := by
  unfold advanceList
  split
  · rw [growAll_eq_map, removeDead_eq_filter]
  · rename_i h
    have : rs = [] := by simpa using h
    subst this
    rfl

theorem tick_ripples (bounds : SDL_Rect) (s : State) (i : Input) :
    (tick bounds s i).st.ripples = advanceList (stageRight bounds s i).st.ripples := by
  unfold tick stageAdvance
  rw [(schedule_frame _ _).2.1, (advanceRipples_frame _).2.2.2.2.2.2.2]

/-- C6. On every tick the ripple collection left by the tick is obtained from
the collection as it stands after click handling by replacing every ripple by
one with the same centre and colour, radius increased by exactly 2 and life
decreased by exactly 1, and then keeping, in their order, exactly the ripples
whose new life is positive (those with new life `<= 0` are removed). -/
theorem ripple_step (bounds : SDL_Rect) (s : State) (i : Input) :
    (tick bounds s i).st.ripples
      = List.filter (fun r => decide (0 < r.life))
          (List.map
            (fun r => { center := r.center, radius := r.radius + 2, life := r.life - 1,
                        color := r.color })
            (stageRight bounds s i).st.ripples) := by
  rw [tick_ripples, advanceList_eq]
  rfl

/-! ## Ripples: lifetime -/

theorem advanceList_append (xs ys : List Ripple) :
    advanceList (xs ++ ys) = advanceList xs ++ advanceList ys := by
  simp [advanceList_eq]

theorem advanceN_append (n : Nat) :
    ∀ xs ys : List Ripple, advanceN n (xs ++ ys) = advanceN n xs ++ advanceN n ys := by
  induction n with
  | zero => intro xs ys; rfl
  | succ n ih =>
    intro xs ys
    simp only [advanceN, advanceList_append, ih]

theorem advanceN_nil (n : Nat) : advanceN n [] = [] := by
  induction n with
  | zero => rfl
  | succ n ih => simpa [advanceN, advanceList] using ih

theorem advanceN_single (p : Point) (c : SDL_Color) :
    ∀ (n k : Nat) (rad : ℚ),
      advanceN n [{ center := p, radius := rad, life := (k : ℚ) + 1, color := c }]
        = if n ≤ k then
            [{ center := p, radius := rad + 2 * (n : ℚ), life := (k : ℚ) + 1 - (n : ℚ),
               color := c }]
          else [] := by
  intro n
  induction n with
  | zero => intro k rad; simp [advanceN]
  | succ n ih =>
    intro k rad
    cases k with
    | zero =>
      have h0 : advanceList
          [{ center := p, radius := rad, life := ((0 : Nat) : ℚ) + 1, color := c }] = [] := by
        simp [advanceList_eq, growRipple]
      simp only [advanceN, h0, advanceN_nil]
      simp
    | succ k =>
      have h1 : advanceList
          [{ center := p, radius := rad, life := ((k + 1 : Nat) : ℚ) + 1, color := c }]
          = [{ center := p, radius := rad + 2, life := (k : ℚ) + 1, color := c }] := by
        have hpos : (0 : ℚ) < (k : ℚ) + 1 := by positivity
        simp [advanceList_eq, growRipple, RIPPLE_GROWTH, hpos]
      simp only [advanceN, h1, ih k (rad + 2)]
      by_cases hnk : n ≤ k
      · have hnk2 : n + 1 ≤ k + 1 := by omega
        simp only [hnk, hnk2, if_true]
        congr 2
        · push_cast; ring
        · push_cast; ring
      · have hnk2 : ¬ n + 1 ≤ k + 1 := by omega
        simp only [hnk, hnk2, if_false]

/-- C7, as stated, fails: the ripple spawned by a left press on the first of 30
ticks is in the collection with life 1 and radius 58 after 29 ticks and is gone
after the 30th, while the claim keeps it through the 30th advance step. -/
theorem ripple_lifetime_counterexample :
    (run ⟨0, 0, 1920, 1080⟩ initial (List.replicate 29 (Input.mk 0 0 1 0 true))).ripples
        = [{ center := ⟨0, 0⟩, radius := 58, life := 1, color := COLOR_MAIN }]
      ∧ (run ⟨0, 0, 1920, 1080⟩ initial (List.replicate 30 (Input.mk 0 0 1 0 true))).ripples
        = []
      ∧ advanceN 29 [newRipple 0 0 COLOR_MAIN]
        = [{ center := ⟨0, 0⟩, radius := 58, life := 1, color := COLOR_MAIN }]
      ∧ advanceN 30 [newRipple 0 0 COLOR_MAIN] = [] := by
  decide!

/-- C7, amended. A ripple created with radius 0 and life 30, wherever it stands
in the collection, is still there after each of the first 29 advance steps
applied to it, after `n` steps with radius `2 n` and life `30 - n`, and is absent
after the 30th advance step and every later one; the ripples before and after it
evolve as they would without it. -/
theorem ripple_lifetime (pre post : List Ripple) (wx wy : ℚ) (c : SDL_Color) (n : Nat) :
    advanceN n (pre ++ [newRipple wx wy c] ++ post)
      = advanceN n pre
        ++ (if n < 30 then
              [{ center := ⟨wx, wy⟩, radius := 2 * (n : ℚ), life := 30 - (n : ℚ), color := c }]
            else [])
        ++ advanceN n post := by
  rw [advanceN_append, advanceN_append]
  have hnew : newRipple wx wy c
      = { center := ⟨wx, wy⟩, radius := 0, life := ((29 : Nat) : ℚ) + 1, color := c } := by
    simp only [newRipple, RIPPLE_MAX_LIFE]
    norm_num
  rw [hnew, advanceN_single]
  by_cases h : n ≤ 29
  · have h2 : n < 30 := by omega
    simp only [h, h2, if_true]
    congr 4
    · ring
    · push_cast; ring
  · have h2 : ¬ n < 30 := by omega
    simp only [h, h2, if_false]

/-! ## Clicks: press edges -/

/-- C8. In every run from the initial state, the ripples appended on a tick are,
in this order, one for the left button exactly when it is down on the tick and
was not down on the tick before (not down before the first tick), and one for
the right button under the same condition on the right button; a held button or
a release appends nothing, so the number appended is the number of buttons with
a press edge on the tick. -/
theorem press_edge_detection (bounds : SDL_Rect) (ins : List Input) (i : Input) :
    (stageRight bounds (run bounds initial ins) i).st.ripples
        = (run bounds initial ins).ripples
          ++ (if isLeftDown i && !prevDown isLeftDown ins then
                [newRipple (windowX bounds i) (windowY bounds i)
                  (if (run bounds initial ins).useAux then COLOR_AUX else COLOR_MAIN)]
              else [])
          ++ (if isRightDown i && !prevDown isRightDown ins then
                [newRipple (windowX bounds i) (windowY bounds i) COLOR_MAIN]
              else [])
      ∧ (stageRight bounds (run bounds initial ins) i).st.ripples.length
        = (run bounds initial ins).ripples.length
          + (if isLeftDown i && !prevDown isLeftDown ins then 1 else 0)
          + (if isRightDown i && !prevDown isRightDown ins then 1 else 0) := by
  obtain ⟨hT0, hT1, hT2, hT3, _⟩ := stageTrail_frame bounds (run bounds initial ins) i
  have hshape : (stageRight bounds (run bounds initial ins) i).st.ripples
      = (run bounds initial ins).ripples
        ++ (if isLeftDown i && !prevDown isLeftDown ins then
              [newRipple (windowX bounds i) (windowY bounds i)
                (if (run bounds initial ins).useAux then COLOR_AUX else COLOR_MAIN)]
            else [])
        ++ (if isRightDown i && !prevDown isRightDown ins then
              [newRipple (windowX bounds i) (windowY bounds i) COLOR_MAIN]
            else []) := by
    unfold stageRight
    rw [rightClick_ripples]
    unfold stageLeft
    rw [(leftClick_ripples _ _ _ _).1, (leftClick_frame _ _ _ _).2.2.1, hT0, hT1, hT2, hT3,
      (run_flags bounds ins).1, (run_flags bounds ins).2]
  refine ⟨hshape, ?_⟩
  rw [hshape, List.length_append, List.length_append]
  congr 1
  · congr 1
    split <;> rfl
  · split <;> rfl

/-! ## Scheduling: redraw and sleep -/

theorem stageAdvance_out (bounds : SDL_Rect) (s : State) (i : Input) :
    (stageAdvance bounds s i).out = [] := by
  unfold stageAdvance stageRight stageLeft
  rw [(advanceRipples_frame _).2.2.2.2.2.2.1, (rightClick_frame _ _ _ _).2.2.2.2.2.2,
    (leftClick_frame _ _ _ _).2.2.2.2.2]
  exact (stageTrail_frame bounds s i).2.2.2.2.2.2

theorem stageAdvance_hideCounter (bounds : SDL_Rect) (s : State) (i : Input) :
    (stageAdvance bounds s i).st.hideCounter = s.hideCounter := by
  unfold stageAdvance stageRight stageLeft
  rw [(advanceRipples_frame _).2.2.2.2.1, (rightClick_frame _ _ _ _).2.2.2.2.1,
    (leftClick_frame _ _ _ _).2.2.2.1]
  exact (stageTrail_frame bounds s i).2.2.2.2.1

theorem drawCircleApprox_paint (cx cy radius : ℚ) :
    ∀ c ∈ drawCircleApprox cx cy radius, isPaint c = true := by
  intro c hc
  unfold drawCircleApprox at hc
  split at hc
  · simp at hc
  · simp only [List.mem_singleton] at hc
    rw [hc]
    rfl

theorem drawRipple_paint (r : Ripple) : ∀ c ∈ drawRipple r, isPaint c = true := by
  intro c hc
  simp only [drawRipple, List.mem_append, List.mem_singleton] at hc
  rcases hc with ((hc | hc) | hc) | hc
  · rw [hc]; rfl
  · exact drawCircleApprox_paint _ _ _ c hc
  · split at hc
    · exact drawCircleApprox_paint _ _ _ c hc
    · simp at hc
  · split at hc
    · exact drawCircleApprox_paint _ _ _ c hc
    · simp at hc

theorem drawRipples_paint (rs : List Ripple) : ∀ c ∈ drawRipples rs, isPaint c = true := by
  induction rs with
  | nil => intro c hc; simp [drawRipples] at hc
  | cons r rest ih =>
    intro c hc
    simp only [drawRipples, List.mem_append] at hc
    rcases hc with hc | hc
    · exact drawRipple_paint r c hc
    · exact ih c hc

theorem drawSegments_paint (size : Nat) (l : List TrailNode) :
    ∀ k : Nat, ∀ c ∈ drawSegments size k l, isPaint c = true := by
  induction l with
  | nil => intro k c hc; simp [drawSegments] at hc
  | cons n1 rest ih =>
    intro k c hc
    cases rest with
    | nil => simp [drawSegments] at hc
    | cons n2 tl =>
      simp only [drawSegments, List.mem_append] at hc
      rcases hc with hc | hc
      · simp only [drawSegment, List.mem_cons, List.mem_singleton, List.not_mem_nil,
          or_false] at hc
        rcases hc with hc | hc | hc <;> rw [hc] <;> rfl
      · exact ih (k + 1) c hc

theorem drawTrail_paint (trail : List TrailNode) : ∀ c ∈ drawTrail trail, isPaint c = true := by
  intro c hc
  unfold drawTrail at hc
  split at hc
  · exact drawSegments_paint _ _ _ c hc
  · simp at hc

theorem delays_append (xs ys : List Cmd) : delays (xs ++ ys) = delays xs ++ delays ys := by
  induction xs with
  | nil => rfl
  | cons c rest ih => cases c <;> simp [delays, ih]

theorem delays_paint (xs : List Cmd) (h : ∀ c ∈ xs, isPaint c = true) : delays xs = [] := by
  induction xs with
  | nil => rfl
  | cons c rest ih =>
    have hc := h c (List.mem_cons_self _ _)
    have hrest := ih (fun d hd => h d (List.mem_cons_of_mem _ hd))
    cases c <;> simp [isPaint] at hc <;> simp [delays, hrest]

theorem tick_out_drawn (bounds : SDL_Rect) (s : State) (i : Input)
    (hv : i.visible = true) (ha : (stageAdvance bounds s i).hasActivity = true) :
    (tick bounds s i).out
      = [Cmd.setRenderDrawColor 0 0 0 0, Cmd.renderClear]
        ++ (drawRipples (tick bounds s i).st.ripples ++ drawTrail (tick bounds s i).st.trail)
        ++ [Cmd.renderPresent, Cmd.delay 12] := by
  have hst := schedule_frame i.visible (stageAdvance bounds s i)
  have hout := stageAdvance_out bounds s i
  unfold tick at hst ⊢
  rw [hst.1, hst.2.1]
  unfold schedule
  rw [hv, ha]
  simp only [Bool.and_self, if_true]
  rw [(cleanup_frame _).2.2.2.2.2.2.1]
  simp [frameRateControl, drawFrame, hout, ha]

theorem tick_out_idle (bounds : SDL_Rect) (s : State) (i : Input)
    (hv : i.visible = true) (ha : (stageAdvance bounds s i).hasActivity = false) :
    (tick bounds s i).out = [Cmd.delay 33] := by
  have hout := stageAdvance_out bounds s i
  unfold tick schedule
  rw [hv, ha]
  simp only [Bool.and_false, Bool.not_true, Bool.false_eq_true, if_false]
  rw [(cleanup_frame _).2.2.2.2.2.2.1]
  simp [frameRateControl, hout, ha]

theorem tick_out_hidden (bounds : SDL_Rect) (s : State) (i : Input)
    (hv : i.visible = false) :
    (tick bounds s i).out
      = (if Int.tmod s.hideCounter 60 = 0 then
          [Cmd.setRenderDrawColor 0 0 0 0, Cmd.renderClear, Cmd.renderPresent]
        else [])
        ++ [Cmd.delay 100] := by
  have hout := stageAdvance_out bounds s i
  have hc := stageAdvance_hideCounter bounds s i
  unfold tick schedule
  rw [hv]
  simp only [Bool.false_and, Bool.not_false, if_true]
  simp [hiddenBranch, hout, hc]

/-- C9. On every tick, with `hasActivity` as it stands after the state update:
(1) visible and active: the calls are one clear to transparent, the ripple and
trail drawing (colour selections, lines and polylines only), one present, and a
12 ms sleep; (2) visible and not active: the only call is a 33 ms sleep; (3)
hidden: the tick sleeps 100 ms, whatever `hasActivity` is.  Every tick sleeps
exactly once, for 12, 33 or 100 ms. -/
theorem redraw_sleep_table (bounds : SDL_Rect) (s : State) (i : Input) :
    (i.visible = true → (stageAdvance bounds s i).hasActivity = true →
        (tick bounds s i).out
            = [Cmd.setRenderDrawColor 0 0 0 0, Cmd.renderClear]
              ++ (drawRipples (tick bounds s i).st.ripples
                  ++ drawTrail (tick bounds s i).st.trail)
              ++ [Cmd.renderPresent, Cmd.delay 12]
          ∧ (∀ c ∈ drawRipples (tick bounds s i).st.ripples
                ++ drawTrail (tick bounds s i).st.trail, isPaint c = true)
          ∧ (tick bounds s i).out.count Cmd.renderClear = 1
          ∧ (tick bounds s i).out.count Cmd.renderPresent = 1
          ∧ delays (tick bounds s i).out = [12])
      ∧ (i.visible = true → (stageAdvance bounds s i).hasActivity = false →
          (tick bounds s i).out = [Cmd.delay 33])
      ∧ (i.visible = false → delays (tick bounds s i).out = [100])
      ∧ (delays (tick bounds s i).out = [12] ∨ delays (tick bounds s i).out = [33]
          ∨ delays (tick bounds s i).out = [100]) := by
  have hpaint : ∀ c ∈ drawRipples (tick bounds s i).st.ripples
      ++ drawTrail (tick bounds s i).st.trail, isPaint c = true := by
    intro c hc
    rcases List.mem_append.1 hc with h | h
    · exact drawRipples_paint _ c h
    · exact drawTrail_paint _ c h
  have h1 : i.visible = true → (stageAdvance bounds s i).hasActivity = true →
      (tick bounds s i).out
          = [Cmd.setRenderDrawColor 0 0 0 0, Cmd.renderClear]
            ++ (drawRipples (tick bounds s i).st.ripples
                ++ drawTrail (tick bounds s i).st.trail)
            ++ [Cmd.renderPresent, Cmd.delay 12]
        ∧ (∀ c ∈ drawRipples (tick bounds s i).st.ripples
              ++ drawTrail (tick bounds s i).st.trail, isPaint c = true)
        ∧ (tick bounds s i).out.count Cmd.renderClear = 1
        ∧ (tick bounds s i).out.count Cmd.renderPresent = 1
        ∧ delays (tick bounds s i).out = [12] := by
    intro hv ha
    have hout := tick_out_drawn bounds s i hv ha
    have hclear : (drawRipples (tick bounds s i).st.ripples
        ++ drawTrail (tick bounds s i).st.trail).count Cmd.renderClear = 0 :=
      List.count_eq_zero_of_not_mem (fun hm => by simpa [isPaint] using hpaint _ hm)
    have hpres : (drawRipples (tick bounds s i).st.ripples
        ++ drawTrail (tick bounds s i).st.trail).count Cmd.renderPresent = 0 :=
      List.count_eq_zero_of_not_mem (fun hm => by simpa [isPaint] using hpaint _ hm)
    refine ⟨hout, hpaint, ?_, ?_, ?_⟩
    · rw [hout, List.count_append, List.count_append, hclear]
      decide
    · rw [hout, List.count_append, List.count_append, hpres]
      decide
    · rw [hout, delays_append, delays_append, delays_paint _ hpaint]
      rfl
  have h2 : i.visible = true → (stageAdvance bounds s i).hasActivity = false →
      (tick bounds s i).out = [Cmd.delay 33] := tick_out_idle bounds s i
  have h3 : i.visible = false → delays (tick bounds s i).out = [100] := by
    intro hv
    rw [tick_out_hidden bounds s i hv, delays_append]
    split <;> rfl
  refine ⟨h1, h2, h3, ?_⟩
  cases hv : i.visible
  · exact Or.inr (Or.inr (h3 hv))
  · cases ha : (stageAdvance bounds s i).hasActivity
    · exact Or.inr (Or.inl (by rw [h2 hv ha]; rfl))
    · exact Or.inl (h1 hv ha).2.2.2.2

theorem redraw_sleep_table_witness :
    (Input.mk 3 4 1 0 true).visible = true
      ∧ (stageAdvance ⟨0, 0, 1920, 1080⟩ initial (Input.mk 3 4 1 0 true)).hasActivity = true
      ∧ (tick ⟨0, 0, 1920, 1080⟩ initial (Input.mk 3 4 1 0 true)).out
          = [Cmd.setRenderDrawColor 0 0 0 0, Cmd.renderClear,
             Cmd.setRenderDrawColor 243 186 236 246, Cmd.renderLines 3 4 2,
             Cmd.renderLines 3 4 (4 / 5), Cmd.renderPresent, Cmd.delay 12]
      ∧ (tick ⟨0, 0, 1920, 1080⟩ initial (Input.mk 3 4 1 0 true)).out.count Cmd.renderPresent
          = 1 :=
  ⟨rfl, by decide!, by decide!,
    ((redraw_sleep_table ⟨0, 0, 1920, 1080⟩ initial (Input.mk 3 4 1 0 true)).1 rfl
      (by decide!)).2.2.2.1⟩

/-! ## Scheduling: the hidden branch -/

theorem tick_hideCounter (bounds : SDL_Rect) (s : State) (i : Input) :
    (tick bounds s i).st.hideCounter
      = if i.visible then s.hideCounter else incInt s.hideCounter := by
  have hc := stageAdvance_hideCounter bounds s i
  unfold tick schedule
  cases hv : i.visible
  · simp [hiddenBranch, hc]
  · cases ha : (stageAdvance bounds s i).hasActivity
    · simp only [Bool.and_false, Bool.not_true, Bool.false_eq_true, if_false, if_true]
      rw [(cleanup_frame _).2.2.2.2.2.1]
      exact hc
    · simp only [Bool.and_self, if_true]
      rw [(cleanup_frame _).2.2.2.2.2.1]
      exact hc

theorem countHidden_append (l : List Input) (i : Input) :
    countHidden (l ++ [i]) = countHidden l + (if i.visible then 0 else 1) := by
  induction l with
  | nil => simp [countHidden]
  | cons j rest ih =>
    show (if j.visible then 0 else 1) + countHidden (rest ++ [i])
      = (if j.visible then 0 else 1) + countHidden rest + _
    rw [ih, Nat.add_assoc]

theorem run_hideCounter (bounds : SDL_Rect) (ins : List Input) :
    countHidden ins < 2 ^ 31 → (run bounds initial ins).hideCounter = (countHidden ins : Int) := by
  induction ins using List.reverseRecOn with
  | nil => intro _; rfl
  | append_singleton l i ih =>
    intro h
    rw [countHidden_append] at h ⊢
    rw [run_append, tick_hideCounter]
    cases hv : i.visible
    · rw [hv] at h
      simp only [Bool.false_eq_true, if_false] at h ⊢
      rw [ih (by omega)]
      unfold incInt
      push_cast
      omega
    · simp only [if_true, Nat.add_zero]
      rw [hv] at h
      exact ih (by simpa using h)

theorem runOut_append (bounds : SDL_Rect) (ins : List Input) (i : Input) :
    ∀ s : State, runOut bounds s (ins ++ [i])
      = runOut bounds s ins ++ [(tick bounds (run bounds s ins) i).out] := by
  induction ins with
  | nil => intro s; rfl
  | cons j rest ih =>
    intro s
    show (tick bounds s j).out :: runOut bounds (tick bounds s j).st (rest ++ [i]) = _
    rw [ih]
    rfl

theorem countHidden_all (ins : List Input) (h : ∀ j ∈ ins, j.visible = false) :
    countHidden ins = ins.length := by
  induction ins with
  | nil => rfl
  | cons j rest ih =>
    have hj := h j (List.mem_cons_self _ _)
    simp only [countHidden, hj, List.length_cons]
    rw [ih (fun k hk => h k (List.mem_cons_of_mem _ hk))]
    simp [Nat.add_comm]

theorem tick_out_hidden_numbered (bounds : SDL_Rect) (ins : List Input) (i : Input)
    (hv : i.visible = false) (hn : countHidden ins < 2 ^ 31) :
    (tick bounds (run bounds initial ins) i).out
      = (if countHidden ins % 60 = 0 then
          [Cmd.setRenderDrawColor 0 0 0 0, Cmd.renderClear, Cmd.renderPresent]
        else [])
        ++ [Cmd.delay 100] := by
  rw [tick_out_hidden bounds _ i hv, run_hideCounter bounds ins hn]
  have h60 : Int.tmod (countHidden ins : Int) 60 = ((countHidden ins % 60 : Nat) : Int) :=
    (Int.ofNat_tmod (countHidden ins) 60).symm
  rw [h60]
  by_cases hz : countHidden ins % 60 = 0
  · rw [if_pos hz, if_pos (by rw [hz]; rfl)]
  · have : ((countHidden ins % 60 : Nat) : Int) ≠ 0 := by exact_mod_cast hz
    rw [if_neg hz, if_neg this]

theorem runOut_all_hidden (bounds : SDL_Rect) (ins : List Input) :
    (∀ j ∈ ins, j.visible = false) → ins.length < 2 ^ 31 →
      runOut bounds initial ins
        = (List.range ins.length).map
            (fun k =>
              (if k % 60 = 0 then
                [Cmd.setRenderDrawColor 0 0 0 0, Cmd.renderClear, Cmd.renderPresent]
              else [])
              ++ [Cmd.delay 100]) := by
  induction ins using List.reverseRecOn with
  | nil => intro _ _; rfl
  | append_singleton l i ih =>
    intro hall hlen
    have hl : ∀ j ∈ l, j.visible = false := fun j hj => hall j (List.mem_append_left _ hj)
    have hi : i.visible = false := hall i (by simp)
    rw [List.length_append, List.length_singleton] at hlen
    rw [runOut_append, ih hl (by omega), List.length_append, List.length_singleton,
      List.range_succ, List.map_append,
      tick_out_hidden_numbered bounds l i hi (by rw [countHidden_all l hl]; omega),
      countHidden_all l hl]
    rfl

/-- C10. Numbering the hidden ticks of a run from 0 in the order they occur
(fewer than `2 ^ 31` of them, the range of the `int` counter): a hidden tick
whose number is a multiple of 60 issues a clear to transparent, a present and a
100 ms sleep, and any other hidden tick issues the 100 ms sleep alone.  A run
that starts hidden and stays hidden for 119 ticks therefore presents a blank
frame on ticks 0 and 60 and issues only the sleep on the 117 others. -/
theorem hidden_blank_presents (bounds : SDL_Rect) :
    (∀ (ins : List Input) (i : Input), i.visible = false → countHidden ins < 2 ^ 31 →
        (tick bounds (run bounds initial ins) i).out
          = (if countHidden ins % 60 = 0 then
              [Cmd.setRenderDrawColor 0 0 0 0, Cmd.renderClear, Cmd.renderPresent]
            else [])
            ++ [Cmd.delay 100])
      ∧ (∀ ins : List Input, ins.length = 119 → (∀ j ∈ ins, j.visible = false) →
          runOut bounds initial ins
              = (List.range 119).map
                  (fun k =>
                    if k = 0 ∨ k = 60 then
                      [Cmd.setRenderDrawColor 0 0 0 0, Cmd.renderClear, Cmd.renderPresent,
                       Cmd.delay 100]
                    else [Cmd.delay 100])
            ∧ ((runOut bounds initial ins).map (fun o => o.count Cmd.renderPresent)).sum = 2
            ∧ ∀ o ∈ runOut bounds initial ins, ∀ c ∈ o, isDraw c = false) := by
  refine ⟨fun ins i hv hn => tick_out_hidden_numbered bounds ins i hv hn, ?_⟩
  intro ins hlen hall
  have hrun : runOut bounds initial ins
      = (List.range 119).map
          (fun k =>
            if k = 0 ∨ k = 60 then
              [Cmd.setRenderDrawColor 0 0 0 0, Cmd.renderClear, Cmd.renderPresent,
               Cmd.delay 100]
            else [Cmd.delay 100]) := by
    rw [runOut_all_hidden bounds ins hall (by rw [hlen]; decide), hlen]
    apply List.map_congr_left
    intro k hk
    have hk2 : k < 119 := List.mem_range.1 hk
    by_cases h : k = 0 ∨ k = 60
    · have : k % 60 = 0 := by omega
      simp [h, this]
    · have : ¬ k % 60 = 0 := by omega
      simp [h, this]
  refine ⟨hrun, ?_, ?_⟩
  · rw [hrun]
    decide!
  · rw [hrun]
    decide!

theorem hidden_blank_presents_witness :
    (Input.mk 8 8 1 6000 false).visible = false
      ∧ countHidden (List.replicate 60 (Input.mk 0 0 0 0 false)) < 2 ^ 31
      ∧ (tick ⟨0, 0, 1920, 1080⟩
            (run ⟨0, 0, 1920, 1080⟩ initial (List.replicate 60 (Input.mk 0 0 0 0 false)))
            (Input.mk 8 8 1 6000 false)).out.count Cmd.renderPresent = 1
      ∧ (List.replicate 119 (Input.mk 0 0 0 0 false)).length = 119
      ∧ (∀ j ∈ List.replicate 119 (Input.mk 0 0 0 0 false), j.visible = false)
      ∧ ((runOut ⟨0, 0, 1920, 1080⟩ initial (List.replicate 119 (Input.mk 0 0 0 0 false))).map
            (fun o => o.count Cmd.renderPresent)).sum = 2 :=
  ⟨rfl, by decide,
    by
      rw [(hidden_blank_presents ⟨0, 0, 1920, 1080⟩).1
        (List.replicate 60 (Input.mk 0 0 0 0 false)) (Input.mk 8 8 1 6000 false) rfl (by decide)]
      decide!,
    by decide,
    fun j hj => by rw [(List.mem_replicate.1 hj).2],
    ((hidden_blank_presents ⟨0, 0, 1920, 1080⟩).2
      (List.replicate 119 (Input.mk 0 0 0 0 false)) (by decide)
      (fun j hj => by rw [(List.mem_replicate.1 hj).2])).2.1⟩

/-! ## The activity flag -/

theorem stageTrail_eq (bounds : SDL_Rect) (s : State) (i : Input) :
    stageTrail bounds s i = trailEvict i.now (stagePush bounds s i) := rfl

theorem stagePush_frame (bounds : SDL_Rect) (s : State) (i : Input) :
    (stagePush bounds s i).st.trail
        = (if moved s.trail (windowX bounds i) (windowY bounds i) then
            { pos := ⟨windowX bounds i, windowY bounds i⟩, timestamp := i.now } :: s.trail
          else s.trail)
      ∧ (stagePush bounds s i).hasActivity
        = moved s.trail (windowX bounds i) (windowY bounds i) := by
  unfold stagePush trailPush
  split
  · rename_i h
    exact ⟨rfl, h.symm⟩
  · rename_i h
    refine ⟨rfl, ?_⟩
    simp only [Bool.not_eq_true] at h
    exact h.symm

theorem evictLoop_snd (now : Nat) (l : List TrailNode) :
    ∀ act : Bool,
      (evictLoop now l act).2 = (act || decide ((evictLoop now l act).1.length < l.length)) := by
  induction l with
  | nil => intro act; simp [evictLoop]
  | cons back rest ih =>
    intro act
    unfold evictLoop
    split
    · have hlen := (evictLoop_suffix now rest true).length_le
      have hlt : (evictLoop now rest true).1.length < (back :: rest).length := by
        simp only [List.length_cons]
        omega
      rw [ih true]
      simp only [Bool.true_or, List.length_cons]
      have : (evictLoop now rest true).1.length < rest.length + 1 := by omega
      simp [this]
    · simp

theorem evictLoop_fst_act (now : Nat) (l : List TrailNode) :
    ∀ act act2 : Bool, (evictLoop now l act).1 = (evictLoop now l act2).1 := by
  induction l with
  | nil => intro act act2; rfl
  | cons back rest ih =>
    intro act act2
    unfold evictLoop
    split
    · rfl
    · rfl

theorem stageTrail_hasActivity (bounds : SDL_Rect) (s : State) (i : Input) :
    (stageTrail bounds s i).hasActivity
      = (moved s.trail (windowX bounds i) (windowY bounds i)
          || decide ((stageTrail bounds s i).st.trail.length
              < (stagePush bounds s i).st.trail.length)) := by
  rw [stageTrail_eq]
  simp only [trailEvict, List.length_reverse]
  rw [evictLoop_snd, (stagePush_frame bounds s i).2, List.length_reverse]

theorem leftClick_hasActivity (wx wy : ℚ) (down : Bool) (f : Frame) :
    (leftClick wx wy down f).hasActivity = (f.hasActivity || (down && !f.st.wasLeftDown)) := by
  unfold leftClick
  split
  · rename_i h
    simp [h]
  · rename_i h
    simp only [Bool.not_eq_true] at h
    simp [h]

theorem rightClick_hasActivity (wx wy : ℚ) (down : Bool) (f : Frame) :
    (rightClick wx wy down f).hasActivity
      = (f.hasActivity || (down && !f.st.wasRightDown)) := by
  unfold rightClick
  split
  · rename_i h
    simp [h]
  · rename_i h
    simp only [Bool.not_eq_true] at h
    simp [h]

theorem advanceRipples_hasActivity (f : Frame) :
    (advanceRipples f).hasActivity = (f.hasActivity || !f.st.ripples.isEmpty) := by
  unfold advanceRipples
  split
  · rename_i h
    simp [h]
  · rename_i h
    simp only [Bool.not_eq_true] at h
    simp [h]

theorem schedule_hasActivity (visible : Bool) (f : Frame) :
    (schedule visible f).hasActivity = f.hasActivity := by
  unfold schedule
  split
  · rw [(cleanup_frame _).2.2.2.2.2.2.2]
    rfl
  · split
    · rfl
    · rw [(cleanup_frame _).2.2.2.2.2.2.2]
      rfl

theorem stageAdvance_hasActivity (bounds : SDL_Rect) (s : State) (i : Input) :
    (stageAdvance bounds s i).hasActivity
      = (moved s.trail (windowX bounds i) (windowY bounds i)
          || decide ((stageTrail bounds s i).st.trail.length
              < (stagePush bounds s i).st.trail.length)
          || (isLeftDown i && !s.wasLeftDown)
          || (isRightDown i && !s.wasRightDown)
          || !(stageRight bounds s i).st.ripples.isEmpty) := by
  obtain ⟨_, hT1, hT2, _⟩ := stageTrail_frame bounds s i
  have hR : (stageRight bounds s i).hasActivity
      = (moved s.trail (windowX bounds i) (windowY bounds i)
          || decide ((stageTrail bounds s i).st.trail.length
              < (stagePush bounds s i).st.trail.length)
          || (isLeftDown i && !s.wasLeftDown)
          || (isRightDown i && !s.wasRightDown)) := by
    unfold stageRight
    rw [rightClick_hasActivity]
    unfold stageLeft
    rw [leftClick_hasActivity, (leftClick_frame _ _ _ _).2.2.1, stageTrail_hasActivity, hT1, hT2]
  unfold stageAdvance
  rw [advanceRipples_hasActivity, hR]

/-- C13. On every tick, in every state, the flag `hasActivity` that decides the
redraw and the sleep is true exactly when, on that tick, a trail node was pushed,
or the trail is shorter after the eviction loop than before it, or a ripple was
spawned for the left or for the right button, or the ripple collection was not
empty when the advance step began.  It starts from `false` on every tick: it is
not part of the state that passes from one tick to the next, and the scheduling
steps leave it as the state update set it. -/
theorem hasActivity_definition (bounds : SDL_Rect) (s : State) (i : Input) :
    (stageAdvance bounds s i).hasActivity
        = (moved s.trail (windowX bounds i) (windowY bounds i)
            || decide ((stageTrail bounds s i).st.trail.length
                < (stagePush bounds s i).st.trail.length)
            || (isLeftDown i && !s.wasLeftDown)
            || (isRightDown i && !s.wasRightDown)
            || !(stageRight bounds s i).st.ripples.isEmpty)
      ∧ (tick bounds s i).hasActivity = (stageAdvance bounds s i).hasActivity :=
  ⟨stageAdvance_hasActivity bounds s i, schedule_hasActivity _ _⟩

/-! ## Trail: eviction keeps a node pushed on the tick -/

theorem expired_self (now : Nat) (p : Point) :
    expired now { pos := p, timestamp := now } = false := by
  simp [expired]

theorem evictLoop_keeps_front (now : Nat) (front : TrailNode)
    (hfresh : expired now front = false) (pre : List TrailNode) :
    ∀ act : Bool, (evictLoop now (pre ++ [front]) act).1 ≠ [] := by
  induction pre with
  | nil =>
    intro act
    simp [evictLoop, hfresh, TRAIL_LENGTH]
  | cons back rest ih =>
    intro act
    rw [List.cons_append]
    unfold evictLoop
    split
    · exact ih true
    · simp

theorem initial_segment_head {α : Type} (t : List α) (a : α) (l : List α)
    (hseg : t <+: a :: l) (hne : t ≠ []) : ∃ rest, t = a :: rest := by
  obtain ⟨u, hu⟩ := hseg
  cases t with
  | nil => exact absurd rfl hne
  | cons c r =>
    rw [List.cons_append] at hu
    injection hu with h1 _
    exact ⟨r, by rw [h1]⟩

theorem fabs_sub_self (v : ℚ) : fabs (v - v) ≤ 1 / 10 := by
  unfold fabs
  rw [sub_self]
  norm_num

theorem tick_trail_pushed (bounds : SDL_Rect) (s : State) (i : Input)
    (hm : moved s.trail (windowX bounds i) (windowY bounds i) = true) :
    ∃ rest, (tick bounds s i).st.trail
      = { pos := ⟨windowX bounds i, windowY bounds i⟩, timestamp := i.now } :: rest := by
  have hseg := stageTrail_initial_segment bounds s i
  rw [hm] at hseg
  simp only [if_true] at hseg
  rw [tick_trail]
  refine initial_segment_head _ _ _ hseg ?_
  rw [stageTrail_eq]
  simp only [trailEvict]
  rw [(stagePush_frame bounds s i).1, hm]
  simp only [if_true, List.reverse_cons, ne_eq, List.reverse_eq_nil_iff]
  exact evictLoop_keeps_front i.now _ (expired_self i.now _) _ _

/-! ## Trail: an end-to-end scenario -/

theorem tick_trail_eq (bounds : SDL_Rect) (s : State) (i : Input) :
    (tick bounds s i).st.trail
      = (evictLoop i.now
          (if moved s.trail (windowX bounds i) (windowY bounds i) then
            { pos := ⟨windowX bounds i, windowY bounds i⟩, timestamp := i.now } :: s.trail
          else s.trail).reverse false).1.reverse := by
  rw [tick_trail, stageTrail_eq]
  simp only [trailEvict]
  rw [(stagePush_frame bounds s i).1, evictLoop_fst_act _ _ _ false]

theorem expired_of_le (now ts : Nat) (p : Point) (hle : ts ≤ now) (hnow : now < 2 ^ 64) :
    expired now { pos := p, timestamp := ts } = decide (now - ts > 200) := by
  have e : now + 2 ^ 64 - ts = (now - ts) + 2 ^ 64 := by omega
  simp only [expired]
  rw [e, Nat.add_mod_right, Nat.mod_eq_of_lt (by omega)]

/-- C11. Starting from the empty trail, with pointer positions `(0,0)`, `(5,0)`,
`(5,0)`, `(10,0)` on ticks 0 to 3, time stamps 50 ms apart from any start `t0`,
no button down and any visibility: the trail after tick 3 holds exactly the three
nodes `(10,0)`, `(5,0)`, `(0,0)` from front to back; tick 2 pushes nothing and
leaves the trail as tick 1 left it; and every node is at most 200 ms old at
tick 3. -/
theorem trail_scenario (t0 : Nat) (w h : Int) (v0 v1 v2 v3 : Bool)
    (ht : t0 + 150 < 2 ^ 64) :
    (run ⟨0, 0, w, h⟩ initial
        [Input.mk 0 0 0 t0 v0, Input.mk 5 0 0 (t0 + 50) v1, Input.mk 5 0 0 (t0 + 100) v2,
         Input.mk 10 0 0 (t0 + 150) v3]).trail
        = [⟨⟨10, 0⟩, t0 + 150⟩, ⟨⟨5, 0⟩, t0 + 50⟩, ⟨⟨0, 0⟩, t0⟩]
      ∧ moved (run ⟨0, 0, w, h⟩ initial
          [Input.mk 0 0 0 t0 v0, Input.mk 5 0 0 (t0 + 50) v1]).trail
          (windowX ⟨0, 0, w, h⟩ (Input.mk 5 0 0 (t0 + 100) v2))
          (windowY ⟨0, 0, w, h⟩ (Input.mk 5 0 0 (t0 + 100) v2)) = false
      ∧ (run ⟨0, 0, w, h⟩ initial
          [Input.mk 0 0 0 t0 v0, Input.mk 5 0 0 (t0 + 50) v1,
           Input.mk 5 0 0 (t0 + 100) v2]).trail
        = (run ⟨0, 0, w, h⟩ initial
          [Input.mk 0 0 0 t0 v0, Input.mk 5 0 0 (t0 + 50) v1]).trail
      ∧ ∀ n ∈ (run ⟨0, 0, w, h⟩ initial
          [Input.mk 0 0 0 t0 v0, Input.mk 5 0 0 (t0 + 50) v1, Input.mk 5 0 0 (t0 + 100) v2,
           Input.mk 10 0 0 (t0 + 150) v3]).trail,
          t0 + 150 - n.timestamp ≤ 200 := by
  have e0 : (tick ⟨0, 0, w, h⟩ initial (Input.mk 0 0 0 t0 v0)).st.trail
      = [⟨⟨0, 0⟩, t0⟩] := by
    rw [tick_trail_eq]
    simp [initial, moved, windowX, windowY, evictLoop, expired_self, TRAIL_LENGTH]
  have e1 : (tick ⟨0, 0, w, h⟩ (tick ⟨0, 0, w, h⟩ initial (Input.mk 0 0 0 t0 v0)).st
        (Input.mk 5 0 0 (t0 + 50) v1)).st.trail
      = [⟨⟨5, 0⟩, t0 + 50⟩, ⟨⟨0, 0⟩, t0⟩] := by
    rw [tick_trail_eq, e0]
    have hm : moved [(⟨⟨0, 0⟩, t0⟩ : TrailNode)]
        (windowX ⟨0, 0, w, h⟩ (Input.mk 5 0 0 (t0 + 50) v1))
        (windowY ⟨0, 0, w, h⟩ (Input.mk 5 0 0 (t0 + 50) v1)) = true := by
      simp [moved, windowX, windowY, fabs]
      norm_num
    rw [hm]
    simp [windowX, windowY, evictLoop, TRAIL_LENGTH,
      expired_of_le (t0 + 50) t0 ⟨0, 0⟩ (by omega) (by omega)]
  have m2 : moved [(⟨⟨5, 0⟩, t0 + 50⟩ : TrailNode), ⟨⟨0, 0⟩, t0⟩]
      (windowX ⟨0, 0, w, h⟩ (Input.mk 5 0 0 (t0 + 100) v2))
      (windowY ⟨0, 0, w, h⟩ (Input.mk 5 0 0 (t0 + 100) v2)) = false := by
    simp [moved, windowX, windowY, fabs]
  have e2 : (tick ⟨0, 0, w, h⟩
        (tick ⟨0, 0, w, h⟩ (tick ⟨0, 0, w, h⟩ initial (Input.mk 0 0 0 t0 v0)).st
          (Input.mk 5 0 0 (t0 + 50) v1)).st
        (Input.mk 5 0 0 (t0 + 100) v2)).st.trail
      = [⟨⟨5, 0⟩, t0 + 50⟩, ⟨⟨0, 0⟩, t0⟩] := by
    rw [tick_trail_eq, e1, m2]
    simp [evictLoop, TRAIL_LENGTH,
      expired_of_le (t0 + 100) t0 ⟨0, 0⟩ (by omega) (by omega)]
  have e3 : (tick ⟨0, 0, w, h⟩
        (tick ⟨0, 0, w, h⟩
          (tick ⟨0, 0, w, h⟩ (tick ⟨0, 0, w, h⟩ initial (Input.mk 0 0 0 t0 v0)).st
            (Input.mk 5 0 0 (t0 + 50) v1)).st
          (Input.mk 5 0 0 (t0 + 100) v2)).st
        (Input.mk 10 0 0 (t0 + 150) v3)).st.trail
      = [⟨⟨10, 0⟩, t0 + 150⟩, ⟨⟨5, 0⟩, t0 + 50⟩, ⟨⟨0, 0⟩, t0⟩] := by
    rw [tick_trail_eq, e2]
    have hm : moved [(⟨⟨5, 0⟩, t0 + 50⟩ : TrailNode), ⟨⟨0, 0⟩, t0⟩]
        (windowX ⟨0, 0, w, h⟩ (Input.mk 10 0 0 (t0 + 150) v3))
        (windowY ⟨0, 0, w, h⟩ (Input.mk 10 0 0 (t0 + 150) v3)) = true := by
      simp [moved, windowX, windowY, fabs]
      norm_num
    rw [hm]
    simp [windowX, windowY, evictLoop, TRAIL_LENGTH,
      expired_of_le (t0 + 150) t0 ⟨0, 0⟩ (by omega) (by omega)]
  refine ⟨e3, ?_, ?_, ?_⟩
  · show moved (tick ⟨0, 0, w, h⟩ (tick ⟨0, 0, w, h⟩ initial (Input.mk 0 0 0 t0 v0)).st
        (Input.mk 5 0 0 (t0 + 50) v1)).st.trail _ _ = false
    rw [e1]
    exact m2
  · show (tick ⟨0, 0, w, h⟩
        (tick ⟨0, 0, w, h⟩ (tick ⟨0, 0, w, h⟩ initial (Input.mk 0 0 0 t0 v0)).st
          (Input.mk 5 0 0 (t0 + 50) v1)).st
        (Input.mk 5 0 0 (t0 + 100) v2)).st.trail
      = (tick ⟨0, 0, w, h⟩ (tick ⟨0, 0, w, h⟩ initial (Input.mk 0 0 0 t0 v0)).st
        (Input.mk 5 0 0 (t0 + 50) v1)).st.trail
    rw [e2, e1]
  · show ∀ n ∈ (tick ⟨0, 0, w, h⟩
        (tick ⟨0, 0, w, h⟩
          (tick ⟨0, 0, w, h⟩ (tick ⟨0, 0, w, h⟩ initial (Input.mk 0 0 0 t0 v0)).st
            (Input.mk 5 0 0 (t0 + 50) v1)).st
          (Input.mk 5 0 0 (t0 + 100) v2)).st
        (Input.mk 10 0 0 (t0 + 150) v3)).st.trail, t0 + 150 - n.timestamp ≤ 200
    rw [e3]
    intro n hn
    simp only [List.mem_cons, List.mem_singleton, List.not_mem_nil, or_false] at hn
    rcases hn with hn | hn | hn <;> rw [hn] <;> simp only [] <;> omega

theorem trail_scenario_witness :
    (0 : Nat) + 150 < 2 ^ 64
      ∧ (run ⟨0, 0, 1920, 1080⟩ initial
          [Input.mk 0 0 0 (0 + 0) true, Input.mk 5 0 0 (0 + 50) true,
           Input.mk 5 0 0 (0 + 100) true, Input.mk 10 0 0 (0 + 150) true]).trail
          = [⟨⟨10, 0⟩, 150⟩, ⟨⟨5, 0⟩, 50⟩, ⟨⟨0, 0⟩, 0⟩] :=
  ⟨by decide, (trail_scenario 0 1920 1080 true true true true (by decide)).1⟩

/-! ## Scheduling: the cleanup counter -/

theorem stageAdvance_cleanupCounter (bounds : SDL_Rect) (s : State) (i : Input) :
    (stageAdvance bounds s i).st.cleanupCounter = s.cleanupCounter := by
  unfold stageAdvance stageRight stageLeft
  rw [(advanceRipples_frame _).2.2.2.2.2.1, (rightClick_frame _ _ _ _).2.2.2.2.2.1,
    (leftClick_frame _ _ _ _).2.2.2.2.1]
  exact (stageTrail_frame bounds s i).2.2.2.2.2.1

theorem cleanup_cleanupCounter (f : Frame) :
    (cleanup f).st.cleanupCounter
      = if incInt f.st.cleanupCounter > 600 then 0 else incInt f.st.cleanupCounter := by
  unfold cleanup
  split <;> rfl

theorem tick_cleanupCounter (bounds : SDL_Rect) (s : State) (i : Input) :
    (tick bounds s i).st.cleanupCounter
      = if i.visible then
          (if incInt s.cleanupCounter > 600 then 0 else incInt s.cleanupCounter)
        else s.cleanupCounter := by
  have hc := stageAdvance_cleanupCounter bounds s i
  unfold tick schedule
  cases hv : i.visible
  · simp [hiddenBranch, hc]
  · cases ha : (stageAdvance bounds s i).hasActivity
    · simp only [Bool.and_false, Bool.not_true, Bool.false_eq_true, if_false, if_true]
      rw [cleanup_cleanupCounter]
      simp only [frameRateControl, hc]
    · simp only [Bool.and_self, if_true]
      rw [cleanup_cleanupCounter]
      simp only [frameRateControl, drawFrame, hc]

theorem countVisible_append (l : List Input) (i : Input) :
    countVisible (l ++ [i]) = countVisible l + (if i.visible then 1 else 0) := by
  induction l with
  | nil => simp [countVisible]
  | cons j rest ih =>
    show (if j.visible then 1 else 0) + countVisible (rest ++ [i])
      = (if j.visible then 1 else 0) + countVisible rest + _
    rw [ih, Nat.add_assoc]

theorem countVisible_replicate (n : Nat) (i : Input) (hv : i.visible = true) :
    countVisible (List.replicate n i) = n := by
  induction n with
  | zero => rfl
  | succ n ih =>
    show (if i.visible then 1 else 0) + countVisible (List.replicate n i) = n + 1
    rw [ih, hv]
    simp [Nat.add_comm]

theorem run_cleanupCounter (bounds : SDL_Rect) (ins : List Input) :
    (run bounds initial ins).cleanupCounter = ((countVisible ins % 601 : Nat) : Int) := by
  induction ins using List.reverseRecOn with
  | nil => rfl
  | append_singleton l i ih =>
    rw [run_append, tick_cleanupCounter, ih, countVisible_append]
    cases hv : i.visible
    · simp
    · simp only [if_true]
      unfold incInt
      have hlt : countVisible l % 601 < 601 := Nat.mod_lt _ (by decide)
      by_cases h600 : countVisible l % 601 = 600
      · have h0 : (countVisible l + 1) % 601 = 0 := by omega
        rw [h600, h0]
        decide
      · have hs : (countVisible l + 1) % 601 = countVisible l % 601 + 1 := by omega
        rw [hs]
        have hle : countVisible l % 601 < 600 := by omega
        generalize countVisible l % 601 = c at hle
        have e : ((c : Int) + 1 + 2 ^ 31) % 2 ^ 32 - 2 ^ 31 = (c : Int) + 1 := by omega
        rw [e]
        have hnot : ¬ ((c : Int) + 1 > 600) := by omega
        rw [if_neg hnot]
        push_cast
        rfl

/-- C12, as stated, fails: over a run of visible ticks the counter is 600 after
the 600th tick, which does not trim (its test `++cleanupCounter > 600` compares
600 with 600), and the trim with the reset to 0 comes on the 601st tick. -/
theorem maintenance_period_counterexample :
    (run ⟨0, 0, 1920, 1080⟩ initial (List.replicate 599 (Input.mk 0 0 0 0 true))).cleanupCounter
        = 599
      ∧ ¬ (incInt 599 > 600)
      ∧ (run ⟨0, 0, 1920, 1080⟩ initial
          (List.replicate 600 (Input.mk 0 0 0 0 true))).cleanupCounter = 600
      ∧ incInt 600 > 600
      ∧ (run ⟨0, 0, 1920, 1080⟩ initial
          (List.replicate 601 (Input.mk 0 0 0 0 true))).cleanupCounter = 0 := by
  refine ⟨?_, by decide, ?_, by decide, ?_⟩
  · rw [run_cleanupCounter, countVisible_replicate _ _ rfl]
    decide
  · rw [run_cleanupCounter, countVisible_replicate _ _ rfl]
    decide
  · rw [run_cleanupCounter, countVisible_replicate _ _ rfl]
    decide

/-- C12, amended. In every run from the initial state the maintenance counter
is the number of visible ticks so far modulo 601.  A hidden tick leaves it as it
is.  A visible tick takes the trim branch, which resets the counter to 0, exactly
when the incremented counter exceeds 600, that is when 600 visible ticks have
passed since the start or since the previous trim, this tick being the 601st;
any other visible tick raises the counter by one. -/
theorem maintenance_period (bounds : SDL_Rect) (ins : List Input) (i : Input) :
    (run bounds initial ins).cleanupCounter = ((countVisible ins % 601 : Nat) : Int)
      ∧ (i.visible = false →
          (tick bounds (run bounds initial ins) i).st.cleanupCounter
            = (run bounds initial ins).cleanupCounter)
      ∧ (i.visible = true →
          (incInt (run bounds initial ins).cleanupCounter > 600
              ↔ countVisible ins % 601 = 600)
          ∧ (tick bounds (run bounds initial ins) i).st.cleanupCounter
              = if countVisible ins % 601 = 600 then 0
                else (run bounds initial ins).cleanupCounter + 1) := by
  have hrun := run_cleanupCounter bounds ins
  refine ⟨hrun, ?_, ?_⟩
  · intro hv
    rw [tick_cleanupCounter, hv]
    simp
  · intro hv
    have hlt : countVisible ins % 601 < 601 := Nat.mod_lt _ (by decide)
    have hinc : incInt (run bounds initial ins).cleanupCounter
        = ((countVisible ins % 601 : Nat) : Int) + 1 := by
      rw [hrun]
      unfold incInt
      generalize countVisible ins % 601 = c at hlt
      omega
    have hiff : incInt (run bounds initial ins).cleanupCounter > 600
        ↔ countVisible ins % 601 = 600 := by
      rw [hinc]
      generalize countVisible ins % 601 = c at hlt
      omega
    refine ⟨hiff, ?_⟩
    rw [tick_cleanupCounter, hv]
    simp only [if_true]
    by_cases h600 : countVisible ins % 601 = 600
    · rw [if_pos (hiff.2 h600), if_pos h600]
    · rw [if_neg (fun hgt => h600 (hiff.1 hgt)), if_neg h600, hinc, hrun]

theorem maintenance_period_witness :
    (Input.mk 0 0 0 0 true).visible = true
      ∧ (tick ⟨0, 0, 1920, 1080⟩
          (run ⟨0, 0, 1920, 1080⟩ initial (List.replicate 600 (Input.mk 0 0 0 0 true)))
          (Input.mk 0 0 0 0 true)).st.cleanupCounter
        = if countVisible (List.replicate 600 (Input.mk 0 0 0 0 true)) % 601 = 600 then 0
          else (run ⟨0, 0, 1920, 1080⟩ initial
            (List.replicate 600 (Input.mk 0 0 0 0 true))).cleanupCounter + 1 :=
  ⟨rfl, ((maintenance_period ⟨0, 0, 1920, 1080⟩ (List.replicate 600 (Input.mk 0 0 0 0 true))
    (Input.mk 0 0 0 0 true)).2.2 rfl).2⟩

/-! ## Renderer: the shape of what is drawn for a ripple -/

theorem drawRipple_shape (r : Ripple) :
    drawRipple r
      = [Cmd.setRenderDrawColor r.color.r r.color.g r.color.b
          (toUint8 (255 * (r.life / 30)))]
        ++ (if r.radius > 1 / 2 then [Cmd.renderLines r.center.x r.center.y r.radius]
            else [])
        ++ (if r.radius - 6 / 5 > 1 / 2 then
              [Cmd.renderLines r.center.x r.center.y (r.radius - 6 / 5)]
            else [])
        ++ (if r.radius - 12 / 5 > 1 / 2 then
              [Cmd.renderLines r.center.x r.center.y (r.radius - 12 / 5)]
            else []) := by
  have h30 : ((RIPPLE_MAX_LIFE : Int) : ℚ) = 30 := by
    simp [RIPPLE_MAX_LIFE]
  simp only [drawRipple, drawCircleApprox, h30]
  by_cases h1 : r.radius ≤ 1 / 2
  · have a1 : ¬ r.radius > 1 / 2 := not_lt.2 h1
    have a2 : ¬ r.radius > 6 / 5 := by
      intro h
      linarith
    have a3 : ¬ r.radius > 12 / 5 := by
      intro h
      linarith
    have a4 : ¬ r.radius - 6 / 5 > 1 / 2 := by
      intro h
      linarith
    have a5 : ¬ r.radius - 12 / 5 > 1 / 2 := by
      intro h
      linarith
    simp only [h1, a1, a2, a3, a4, a5, if_true, if_false]
  · have a1 : r.radius > 1 / 2 := not_le.1 h1
    by_cases h2 : r.radius - 6 / 5 ≤ 1 / 2
    · have a4 : ¬ r.radius - 6 / 5 > 1 / 2 := not_lt.2 h2
      have a5 : ¬ r.radius - 12 / 5 > 1 / 2 := by
        intro h
        linarith
      have a6 : r.radius - 12 / 5 ≤ 1 / 2 := by linarith
      simp only [h1, a1, h2, a4, a5, a6, if_true, if_false]
      split <;> split <;> simp
    · have a4 : r.radius - 6 / 5 > 1 / 2 := not_le.1 h2
      have a2 : r.radius > 6 / 5 := by linarith
      by_cases h3 : r.radius - 12 / 5 ≤ 1 / 2
      · have a5 : ¬ r.radius - 12 / 5 > 1 / 2 := not_lt.2 h3
        simp only [h1, a1, h2, a4, a2, h3, a5, if_true, if_false]
        split <;> simp
      · have a5 : r.radius - 12 / 5 > 1 / 2 := not_le.1 h3
        have a3 : r.radius > 12 / 5 := by linarith
        simp only [h1, a1, h2, a4, a2, h3, a5, a3, if_true, if_false]

/-! ## Trail: the single-pass trim against a full scan -/

theorem expired_eq_age (now : Nat) (node : TrailNode) (hle : node.timestamp ≤ now)
    (hnow : now < 2 ^ 64) : expired now node = decide (now - node.timestamp > 200) :=
  expired_of_le now node.timestamp node.pos hle hnow

theorem evictLoop_eq_filter_drop (now : Nat) (hnow : now < 2 ^ 64) (l : List TrailNode) :
    ∀ act : Bool, l.Pairwise (fun a c => a.timestamp ≤ c.timestamp) →
      (∀ n ∈ l, n.timestamp ≤ now) →
      (evictLoop now l act).1
        = (l.filter (fun n => !decide (now - n.timestamp > 200))).drop
            ((l.filter (fun n => !decide (now - n.timestamp > 200))).length - 14) := by
  induction l with
  | nil => intro act _ _; rfl
  | cons back rest ih =>
    intro act hs hle
    have hb : back.timestamp ≤ now := hle back (List.mem_cons_self _ _)
    have hrest : ∀ n ∈ rest, n.timestamp ≤ now :=
      fun n hn => hle n (List.mem_cons_of_mem _ hn)
    have ihr := ih true (List.Pairwise.of_cons hs) hrest
    have hexp := expired_eq_age now back hb hnow
    unfold evictLoop
    by_cases hold : now - back.timestamp > 200
    · have hcond : (decide ((back :: rest).length > TRAIL_LENGTH) || expired now back) = true := by
        rw [hexp, decide_eq_true hold]
        cases decide ((back :: rest).length > TRAIL_LENGTH) <;> rfl
      have hnotfresh : ¬ (!decide (now - back.timestamp > 200)) = true := by
        rw [decide_eq_true hold]
        decide
      have hfilt : List.filter (fun n : TrailNode => !decide (now - n.timestamp > 200))
          (back :: rest)
          = List.filter (fun n : TrailNode => !decide (now - n.timestamp > 200)) rest := by
        simp only [List.filter_cons]
        rw [if_neg hnotfresh]
      rw [if_pos hcond, ihr, hfilt]
    · have hfresh : List.filter (fun n => !decide (now - n.timestamp > 200)) rest = rest := by
        rw [List.filter_eq_self]
        intro n hn
        have h1 := List.rel_of_pairwise_cons hs hn
        have h2 := hrest n hn
        have : ¬ now - n.timestamp > 200 := by omega
        simpa using this
      have hisfresh : (!decide (now - back.timestamp > 200)) = true := by
        rw [decide_eq_false hold]
        rfl
      have hfilt : List.filter (fun n : TrailNode => !decide (now - n.timestamp > 200))
          (back :: rest) = back :: rest := by
        simp only [List.filter_cons]
        rw [if_pos hisfresh, hfresh]
      rw [hfilt]
      rw [hfresh] at ihr
      by_cases hlen : (back :: rest).length > TRAIL_LENGTH
      · have hcond : (decide ((back :: rest).length > TRAIL_LENGTH) || expired now back)
            = true := by
          rw [decide_eq_true hlen]
          rfl
        rw [if_pos hcond, ihr]
        simp only [List.length_cons, TRAIL_LENGTH] at hlen ⊢
        have e : rest.length + 1 - 14 = (rest.length - 14) + 1 := by omega
        rw [e, List.drop_succ_cons]
      · have hcond : ¬ (decide ((back :: rest).length > TRAIL_LENGTH) || expired now back)
            = true := by
          rw [hexp, decide_eq_false hlen, decide_eq_false hold]
          decide
        rw [if_neg hcond]
        simp only [List.length_cons, TRAIL_LENGTH] at hlen ⊢
        have e : rest.length + 1 - 14 = 0 := by omega
        rw [e, List.drop_zero]

/-- C16. For every trail buffer whose time stamps do not increase from front to
back and every `now` (in the range of the 64-bit clock) that is no earlier than
any of them, the eviction loop of the tick, which pops the back while the size
exceeds 14 or the back is older than 200 and stops at the first back node that is
neither, leaves exactly the buffer that the full scan of the specification
gives: every node older than 200 removed, then the first 14 of the rest kept. -/
theorem single_pass_trim_eq_full_scan (now : Nat) (f : Frame) (hnow : now < 2 ^ 64)
    (hsorted : f.st.trail.Pairwise (fun a c => c.timestamp ≤ a.timestamp))
    (hle : ∀ n ∈ f.st.trail, n.timestamp ≤ now) :
    (trailEvict now f).st.trail = specFullScanTrim now f.st.trail := by
  simp only [trailEvict, specFullScanTrim]
  rw [evictLoop_eq_filter_drop now hnow f.st.trail.reverse f.hasActivity
      (List.pairwise_reverse.2 hsorted) (fun n hn => hle n (List.mem_reverse.1 hn)),
    List.filter_reverse, List.length_reverse, ← List.reverse_take, List.reverse_reverse]

theorem single_pass_trim_eq_full_scan_witness :
    (300 : Nat) < 2 ^ 64
      ∧ (Frame.mk (State.mk [⟨⟨2, 0⟩, 290⟩, ⟨⟨1, 0⟩, 150⟩, ⟨⟨0, 0⟩, 40⟩] [] false false false 0 0)
          false []).st.trail.Pairwise (fun a c => c.timestamp ≤ a.timestamp)
      ∧ (∀ n ∈ (Frame.mk
          (State.mk [⟨⟨2, 0⟩, 290⟩, ⟨⟨1, 0⟩, 150⟩, ⟨⟨0, 0⟩, 40⟩] [] false false false 0 0)
          false []).st.trail, n.timestamp ≤ 300)
      ∧ specFullScanTrim 300 [⟨⟨2, 0⟩, 290⟩, ⟨⟨1, 0⟩, 150⟩, ⟨⟨0, 0⟩, 40⟩]
          = [⟨⟨2, 0⟩, 290⟩, ⟨⟨1, 0⟩, 150⟩]
      ∧ (trailEvict 300 (Frame.mk
          (State.mk [⟨⟨2, 0⟩, 290⟩, ⟨⟨1, 0⟩, 150⟩, ⟨⟨0, 0⟩, 40⟩] [] false false false 0 0)
          false [])).st.trail
          = specFullScanTrim 300 [⟨⟨2, 0⟩, 290⟩, ⟨⟨1, 0⟩, 150⟩, ⟨⟨0, 0⟩, 40⟩] :=
  ⟨by decide, by simp, by simp, by decide!,
    single_pass_trim_eq_full_scan 300
      (Frame.mk (State.mk [⟨⟨2, 0⟩, 290⟩, ⟨⟨1, 0⟩, 150⟩, ⟨⟨0, 0⟩, 40⟩] [] false false false 0 0)
        false [])
      (by decide) (by simp) (by simp)⟩

/-! ## The state update does not read the visibility -/

theorem stageRight_ripples (bounds : SDL_Rect) (s : State) (i : Input) :
    (stageRight bounds s i).st.ripples = s.ripples ++ spawned bounds s i := by
  obtain ⟨hT0, hT1, hT2, hT3, _⟩ := stageTrail_frame bounds s i
  unfold stageRight
  rw [rightClick_ripples]
  unfold stageLeft
  rw [(leftClick_ripples _ _ _ _).1, (leftClick_frame _ _ _ _).2.2.1, hT0, hT1, hT2, hT3,
    List.append_assoc]
  rfl

theorem tick_ripples_eq (bounds : SDL_Rect) (s : State) (i : Input) :
    (tick bounds s i).st.ripples = advanceList (s.ripples ++ spawned bounds s i) := by
  rw [tick_ripples, stageRight_ripples]

theorem tick_core_congr (bounds : SDL_Rect) (s1 s2 : State) (i1 i2 : Input)
    (ht : s1.trail = s2.trail) (hr : s1.ripples = s2.ripples)
    (hl : s1.wasLeftDown = s2.wasLeftDown) (hrd : s1.wasRightDown = s2.wasRightDown)
    (hu : s1.useAux = s2.useAux)
    (hx : i1.gx = i2.gx) (hy : i1.gy = i2.gy) (hb : i1.buttons = i2.buttons)
    (hn : i1.now = i2.now) :
    (tick bounds s1 i1).st.trail = (tick bounds s2 i2).st.trail
      ∧ (tick bounds s1 i1).st.ripples = (tick bounds s2 i2).st.ripples
      ∧ (tick bounds s1 i1).st.wasLeftDown = (tick bounds s2 i2).st.wasLeftDown
      ∧ (tick bounds s1 i1).st.wasRightDown = (tick bounds s2 i2).st.wasRightDown
      ∧ (tick bounds s1 i1).st.useAux = (tick bounds s2 i2).st.useAux := by
  have hwx : windowX bounds i1 = windowX bounds i2 := by unfold windowX; rw [hx]
  have hwy : windowY bounds i1 = windowY bounds i2 := by unfold windowY; rw [hy]
  have hld : isLeftDown i1 = isLeftDown i2 := by unfold isLeftDown; rw [hb]
  have hrdn : isRightDown i1 = isRightDown i2 := by unfold isRightDown; rw [hb]
  have hsp : spawned bounds s1 i1 = spawned bounds s2 i2 := by
    unfold spawned
    rw [hwx, hwy, hld, hrdn, hl, hrd, hu]
  refine ⟨?_, ?_, ?_, ?_, ?_⟩
  · rw [tick_trail_eq, tick_trail_eq, ht, hwx, hwy, hn]
  · rw [tick_ripples_eq, tick_ripples_eq, hr, hsp]
  · rw [(tick_flags _ _ _).1, (tick_flags _ _ _).1, hld]
  · rw [(tick_flags _ _ _).2.1, (tick_flags _ _ _).2.1, hrdn]
  · rw [(tick_flags _ _ _).2.2, (tick_flags _ _ _).2.2, hld, hl, hu]

theorem run_core_congr (bounds : SDL_Rect) (ins1 ins2 : List Input)
    (h : List.Forall₂
      (fun a c : Input => a.gx = c.gx ∧ a.gy = c.gy ∧ a.buttons = c.buttons ∧ a.now = c.now)
      ins1 ins2) :
    ∀ s1 s2 : State, s1.trail = s2.trail → s1.ripples = s2.ripples →
      s1.wasLeftDown = s2.wasLeftDown → s1.wasRightDown = s2.wasRightDown →
      s1.useAux = s2.useAux →
      (run bounds s1 ins1).trail = (run bounds s2 ins2).trail
        ∧ (run bounds s1 ins1).ripples = (run bounds s2 ins2).ripples
        ∧ (run bounds s1 ins1).wasLeftDown = (run bounds s2 ins2).wasLeftDown
        ∧ (run bounds s1 ins1).wasRightDown = (run bounds s2 ins2).wasRightDown
        ∧ (run bounds s1 ins1).useAux = (run bounds s2 ins2).useAux := by
  induction h with
  | nil => intro s1 s2 ht hr hl hrd hu; exact ⟨ht, hr, hl, hrd, hu⟩
  | cons hab _ ih =>
    intro s1 s2 ht hr hl hrd hu
    obtain ⟨hx, hy, hb, hn⟩ := hab
    obtain ⟨a1, a2, a3, a4, a5⟩ := tick_core_congr bounds s1 s2 _ _ ht hr hl hrd hu hx hy hb hn
    exact ih _ _ a1 a2 a3 a4 a5

/-- C15. For any two runs from the initial state fed, tick by tick, the same
pointer position, button bitmask and time stamp, with visibility flags that may
differ in any way, the trail buffer, the ripple collection, the left-button
toggle and the two previous-down flags are the same in both runs after every
tick.  On every tick, hidden or not, the previous-down flags take the button state
of the tick and the ripples of the press edges of the tick are appended before
the advance step. -/
theorem sampling_independent_of_visibility (bounds : SDL_Rect) (ins1 ins2 : List Input)
    (h : List.Forall₂
      (fun a c : Input => a.gx = c.gx ∧ a.gy = c.gy ∧ a.buttons = c.buttons ∧ a.now = c.now)
      ins1 ins2) :
    ((run bounds initial ins1).trail = (run bounds initial ins2).trail
        ∧ (run bounds initial ins1).ripples = (run bounds initial ins2).ripples
        ∧ (run bounds initial ins1).wasLeftDown = (run bounds initial ins2).wasLeftDown
        ∧ (run bounds initial ins1).wasRightDown = (run bounds initial ins2).wasRightDown
        ∧ (run bounds initial ins1).useAux = (run bounds initial ins2).useAux)
      ∧ ∀ (s : State) (i : Input),
          (tick bounds s i).st.wasLeftDown = isLeftDown i
            ∧ (tick bounds s i).st.wasRightDown = isRightDown i
            ∧ (tick bounds s i).st.ripples = advanceList (s.ripples ++ spawned bounds s i) :=
  ⟨run_core_congr bounds ins1 ins2 h initial initial rfl rfl rfl rfl rfl,
    fun s i => ⟨(tick_flags bounds s i).1, (tick_flags bounds s i).2.1,
      tick_ripples_eq bounds s i⟩⟩

theorem sampling_independent_of_visibility_witness :
    List.Forall₂
        (fun a c : Input => a.gx = c.gx ∧ a.gy = c.gy ∧ a.buttons = c.buttons ∧ a.now = c.now)
        [Input.mk 0 0 1 0 true, Input.mk 3 0 4 50 true]
        [Input.mk 0 0 1 0 false, Input.mk 3 0 4 50 false]
      ∧ (run ⟨0, 0, 1920, 1080⟩ initial
          [Input.mk 0 0 1 0 false, Input.mk 3 0 4 50 false]).ripples
          = [⟨⟨0, 0⟩, 4, 28, COLOR_MAIN⟩, ⟨⟨3, 0⟩, 2, 29, COLOR_MAIN⟩]
      ∧ (run ⟨0, 0, 1920, 1080⟩ initial
          [Input.mk 0 0 1 0 true, Input.mk 3 0 4 50 true]).ripples
          = (run ⟨0, 0, 1920, 1080⟩ initial
            [Input.mk 0 0 1 0 false, Input.mk 3 0 4 50 false]).ripples :=
  ⟨List.Forall₂.cons ⟨rfl, rfl, rfl, rfl⟩ (List.Forall₂.cons ⟨rfl, rfl, rfl, rfl⟩ List.Forall₂.nil),
    by decide!,
    (sampling_independent_of_visibility ⟨0, 0, 1920, 1080⟩
      [Input.mk 0 0 1 0 true, Input.mk 3 0 4 50 true]
      [Input.mk 0 0 1 0 false, Input.mk 3 0 4 50 false]
      (List.Forall₂.cons ⟨rfl, rfl, rfl, rfl⟩
        (List.Forall₂.cons ⟨rfl, rfl, rfl, rfl⟩ List.Forall₂.nil))).1.2.1⟩

/-! ## Ripples: where each one came from -/

theorem spawnedTagged_erase (bounds : SDL_Rect) (s : State) (i : Input) :
    (spawnedTagged bounds s i).map Prod.fst = spawned bounds s i := by
  unfold spawnedTagged spawned
  rw [List.map_append]
  congr 1
  · split <;> rfl
  · split <;> rfl

theorem advanceTagged_erase (ts : List (Ripple × Bool)) :
    (advanceTagged ts).map Prod.fst = advanceList (ts.map Prod.fst) := by
  rw [advanceList_eq]
  unfold advanceTagged
  induction ts with
  | nil => rfl
  | cons p rest ih =>
    simp only [List.map_cons, List.filter_cons]
    split
    · rw [List.map_cons, ih]
    · exact ih

theorem advanceTagged_mem (ts : List (Ripple × Bool)) (q : Ripple × Bool)
    (hq : q ∈ advanceTagged ts) :
    ∃ p ∈ ts, q = (growRipple p.1, p.2) ∧ 0 < p.1.life - 1 := by
  unfold advanceTagged at hq
  rw [List.mem_filter, List.mem_map] at hq
  obtain ⟨⟨p, hp, hpq⟩, hlife⟩ := hq
  refine ⟨p, hp, hpq.symm, ?_⟩
  rw [← hpq] at hlife
  simpa [growRipple] using hlife

theorem spawnedTagged_mem (bounds : SDL_Rect) (s : State) (i : Input) (p : Ripple × Bool)
    (hp : p ∈ spawnedTagged bounds s i) :
    (isLeftDown i = true ∧ s.wasLeftDown = false
        ∧ p = (newRipple (windowX bounds i) (windowY bounds i)
            (if s.useAux then COLOR_AUX else COLOR_MAIN), true))
      ∨ (isRightDown i = true ∧ s.wasRightDown = false
        ∧ p = (newRipple (windowX bounds i) (windowY bounds i) COLOR_MAIN, false)) := by
  unfold spawnedTagged at hp
  rcases List.mem_append.1 hp with h | h
  · left
    split at h
    · rename_i he
      simp only [Bool.and_eq_true, Bool.not_eq_true'] at he
      simp only [List.mem_singleton] at h
      exact ⟨he.1, he.2, h⟩
    · simp at h
  · right
    split at h
    · rename_i he
      simp only [Bool.and_eq_true, Bool.not_eq_true'] at he
      simp only [List.mem_singleton] at h
      exact ⟨he.1, he.2, h⟩
    · simp at h

theorem newRipple_fields (wx wy : ℚ) (c : SDL_Color) :
    (growRipple (newRipple wx wy c)).life = 29
      ∧ (growRipple (newRipple wx wy c)).radius = 2
      ∧ (growRipple (newRipple wx wy c)).color = c
      ∧ (newRipple wx wy c).life = 30 := by
  simp only [growRipple, newRipple, RIPPLE_MAX_LIFE, RIPPLE_GROWTH]
  norm_num

theorem growRipple_fields (r : Ripple) :
    (growRipple r).life = r.life - 1
      ∧ (growRipple r).radius = r.radius + 2
      ∧ (growRipple r).color = r.color
      ∧ (growRipple r).center = r.center :=
  ⟨rfl, rfl, rfl, rfl⟩

theorem advanceTagged_cases (bounds : SDL_Rect) (s : State) (i : Input)
    (ts : List (Ripple × Bool)) (q : Ripple × Bool)
    (hq : q ∈ advanceTagged (ts ++ spawnedTagged bounds s i)) :
    (∃ p ∈ ts, q = (growRipple p.1, p.2) ∧ 0 < p.1.life - 1)
      ∨ (isLeftDown i = true ∧ s.wasLeftDown = false
          ∧ q = (growRipple (newRipple (windowX bounds i) (windowY bounds i)
              (if s.useAux then COLOR_AUX else COLOR_MAIN)), true))
      ∨ (isRightDown i = true ∧ s.wasRightDown = false
          ∧ q = (growRipple (newRipple (windowX bounds i) (windowY bounds i) COLOR_MAIN),
              false)) := by
  obtain ⟨p, hp, hqp, hpos⟩ := advanceTagged_mem _ q hq
  rcases List.mem_append.1 hp with h | h
  · exact Or.inl ⟨p, h, hqp, hpos⟩
  · rcases spawnedTagged_mem bounds s i p h with ⟨h1, h2, h3⟩ | ⟨h1, h2, h3⟩
    · right; left
      rw [h3] at hqp
      exact ⟨h1, h2, hqp⟩
    · right; right
      rw [h3] at hqp
      exact ⟨h1, h2, hqp⟩

theorem tagInv_life_le (wl wr u : Bool) (ts : List (Ripple × Bool))
    (hinv : TagInv wl wr u ts) (p : Ripple × Bool) (hp : p ∈ ts) :
    1 ≤ p.1.life ∧ p.1.life ≤ 29 ∧ (p.1.life ≠ 29 → p.1.life ≤ 28)
      ∧ (28 < p.1.life → p.1.life = 29) := by
  obtain ⟨k, hk1, hk2, hl, _⟩ := hinv.1 p hp
  rw [hl]
  refine ⟨by exact_mod_cast hk1, by exact_mod_cast hk2, ?_, ?_⟩
  · intro hne
    have hk : k ≠ 29 := fun h => hne (by rw [h]; norm_num)
    have : k ≤ 28 := by omega
    exact_mod_cast this
  · intro hgt
    have h28 : 28 < k := by exact_mod_cast hgt
    have : k = 29 := by omega
    rw [this]
    norm_num

theorem spawnedTagged_pairwise (bounds : SDL_Rect) (s : State) (i : Input) :
    (spawnedTagged bounds s i).Pairwise
      (fun a c =>
        (growRipple a.1).life ≤ (growRipple c.1).life
          ∧ (a.2 = c.2 → (growRipple a.1).life + 2 ≤ (growRipple c.1).life)
          ∧ (a.2 = true → c.2 = true → (growRipple a.1).life + 2 = (growRipple c.1).life →
              (growRipple a.1).color ≠ (growRipple c.1).color)) := by
  unfold spawnedTagged
  by_cases hL : (isLeftDown i && !s.wasLeftDown) = true
  · by_cases hR : (isRightDown i && !s.wasRightDown) = true
    · rw [if_pos hL, if_pos hR]
      show List.Pairwise _ [_, _]
      rw [List.pairwise_pair]
      refine ⟨?_, ?_, ?_⟩
      · show (growRipple _).life ≤ (growRipple _).life
        rw [(newRipple_fields _ _ _).1, (newRipple_fields _ _ _).1]
      · intro h
        cases h
      · intro _ h
        cases h
    · rw [if_pos hL, if_neg hR]
      exact List.pairwise_singleton _ _
  · by_cases hR : (isRightDown i && !s.wasRightDown) = true
    · rw [if_neg hL, if_pos hR]
      exact List.pairwise_singleton _ _
    · rw [if_neg hL, if_neg hR]
      exact List.Pairwise.nil

theorem tagInv_step (bounds : SDL_Rect) (s : State) (i : Input) (ts : List (Ripple × Bool))
    (hinv : TagInv s.wasLeftDown s.wasRightDown s.useAux ts) :
    TagInv (isLeftDown i) (isRightDown i)
      (if isLeftDown i && !s.wasLeftDown then !s.useAux else s.useAux)
      (advanceTagged (ts ++ spawnedTagged bounds s i)) := by
  have hrange := tagInv_life_le _ _ _ ts hinv
  obtain ⟨hA, hB, hC, hD, hP⟩ := hinv
  have hne : COLOR_MAIN ≠ COLOR_AUX := by decide
  refine ⟨?_, ?_, ?_, ?_, ?_⟩
  · intro q hq
    rcases advanceTagged_cases bounds s i ts q hq with
      ⟨p, hp, hqp, hpos⟩ | ⟨_, _, hqp⟩ | ⟨_, _, hqp⟩
    · obtain ⟨k, hk1, hk2, hl, hr⟩ := hA p hp
      rw [hl] at hpos
      have h1k : (1 : ℚ) < (k : ℚ) := by linarith
      have hk : 1 < k := by exact_mod_cast h1k
      refine ⟨k - 1, by omega, by omega, ?_, ?_⟩
      · rw [hqp]
        show p.1.life - 1 = ((k - 1 : Nat) : ℚ)
        rw [hl, Nat.cast_sub (by omega)]
        norm_num
      · rw [hqp]
        show p.1.radius + 2 = 2 * (30 - ((k - 1 : Nat) : ℚ))
        rw [hr, Nat.cast_sub (by omega)]
        push_cast
        ring
    · refine ⟨29, by decide, by decide, ?_, ?_⟩
      · rw [hqp]
        exact (newRipple_fields _ _ _).1.trans (by norm_num)
      · rw [hqp]
        exact (newRipple_fields _ _ _).2.1.trans (by norm_num)
    · refine ⟨29, by decide, by decide, ?_, ?_⟩
      · rw [hqp]
        exact (newRipple_fields _ _ _).1.trans (by norm_num)
      · rw [hqp]
        exact (newRipple_fields _ _ _).2.1.trans (by norm_num)
  · intro q hq h29
    rcases advanceTagged_cases bounds s i ts q hq with
      ⟨p, hp, hqp, _⟩ | ⟨hd, _, hqp⟩ | ⟨hd, _, hqp⟩
    · exfalso
      rw [hqp] at h29
      have h30 : p.1.life - 1 = 29 := h29
      have := (hrange p hp).2.1
      linarith
    · rw [hqp]
      exact hd
    · rw [hqp]
      exact hd
  · intro q hq htag
    rcases advanceTagged_cases bounds s i ts q hq with
      ⟨p, hp, hqp, _⟩ | ⟨_, _, hqp⟩ | ⟨_, _, hqp⟩
    · rw [hqp] at htag ⊢
      exact hC p hp htag
    · rw [hqp] at htag
      cases htag
    · rw [hqp]
      exact (newRipple_fields _ _ _).2.2.1
  · intro q hq htag h28
    rcases advanceTagged_cases bounds s i ts q hq with
      ⟨p, hp, hqp, _⟩ | ⟨hd, hw, hqp⟩ | ⟨_, _, hqp⟩
    · rw [hqp] at htag h28 ⊢
      have hp2 : p.2 = true := htag
      have hl28 : 28 ≤ p.1.life - 1 := h28
      have hl29 : p.1.life = 29 := (hrange p hp).2.2.2 (by linarith)
      have hwas := hB p hp hl29
      rw [hp2] at hwas
      simp only [if_true] at hwas
      have hcol := hD p hp hp2 (by linarith)
      show p.1.color = _
      rw [hcol, hwas]
      simp
    · rw [hqp, hd, hw]
      show (growRipple _).color = _
      rw [(newRipple_fields _ _ _).2.2.1]
      cases s.useAux <;> rfl
    · rw [hqp] at htag
      cases htag
  · unfold advanceTagged
    apply List.Pairwise.filter
    rw [List.pairwise_map, List.pairwise_append]
    refine ⟨?_, ?_, ?_⟩
    · refine hP.imp ?_
      intro a b hab
      obtain ⟨h1, h2, h3⟩ := hab
      refine ⟨?_, ?_, ?_⟩
      · show a.1.life - 1 ≤ b.1.life - 1
        linarith
      · intro ht
        show a.1.life - 1 + 2 ≤ b.1.life - 1
        have := h2 ht
        linarith
      · intro ha hb hgap
        show a.1.color ≠ b.1.color
        apply h3 ha hb
        have hg : a.1.life - 1 + 2 = b.1.life - 1 := hgap
        linarith
    · exact spawnedTagged_pairwise bounds s i
    · intro a ha b hb
      have hla := hrange a ha
      rcases spawnedTagged_mem bounds s i b hb with ⟨_, hw, hbe⟩ | ⟨_, hw, hbe⟩
      · rw [hbe]
        refine ⟨?_, ?_, ?_⟩
        · show a.1.life - 1 ≤ (growRipple _).life
          rw [(newRipple_fields _ _ _).1]
          linarith [hla.2.1]
        · intro ht
          have ha2 : a.2 = true := ht
          show a.1.life - 1 + 2 ≤ (growRipple _).life
          rw [(newRipple_fields _ _ _).1]
          have hne29 : a.1.life ≠ 29 := by
            intro h29
            have := hB a ha h29
            rw [ha2, hw] at this
            simp at this
          linarith [hla.2.2.1 hne29]
        · intro ha2 _ hgap
          have hg : a.1.life - 1 + 2 = (growRipple (newRipple (windowX bounds i)
              (windowY bounds i) (if s.useAux then COLOR_AUX else COLOR_MAIN))).life := hgap
          rw [(newRipple_fields _ _ _).1] at hg
          have hcol := hD a ha ha2 (by linarith)
          show a.1.color ≠ (growRipple _).color
          rw [(newRipple_fields _ _ _).2.2.1, hcol]
          cases s.useAux
          · exact fun h => hne h.symm
          · exact hne
      · rw [hbe]
        refine ⟨?_, ?_, ?_⟩
        · show a.1.life - 1 ≤ (growRipple _).life
          rw [(newRipple_fields _ _ _).1]
          linarith [hla.2.1]
        · intro ht
          have ha2 : a.2 = false := ht
          show a.1.life - 1 + 2 ≤ (growRipple _).life
          rw [(newRipple_fields _ _ _).1]
          have hne29 : a.1.life ≠ 29 := by
            intro h29
            have := hB a ha h29
            rw [ha2, hw] at this
            simp at this
          linarith [hla.2.2.1 hne29]
        · intro _ hb2 _
          cases hb2

theorem tagInv_nil : TagInv false false false [] := by
  refine ⟨?_, ?_, ?_, ?_, List.Pairwise.nil⟩ <;> intro p hp <;> simp at hp

/-- Every state of a run from the initial state has its ripples tagged so that
`TagInv` holds with the flags of the state. -/
theorem run_tagInv (bounds : SDL_Rect) (ins : List Input) :
    ∃ ts : List (Ripple × Bool),
      ts.map Prod.fst = (run bounds initial ins).ripples
        ∧ TagInv (run bounds initial ins).wasLeftDown (run bounds initial ins).wasRightDown
            (run bounds initial ins).useAux ts := by
  induction ins using List.reverseRecOn with
  | nil => exact ⟨[], rfl, tagInv_nil⟩
  | append_singleton l i ih =>
    obtain ⟨ts, herase, hinv⟩ := ih
    refine ⟨advanceTagged (ts ++ spawnedTagged bounds (run bounds initial l) i), ?_, ?_⟩
    · rw [run_append, tick_ripples_eq, advanceTagged_erase, List.map_append, herase,
        spawnedTagged_erase]
    · rw [run_append, (tick_flags _ _ _).1, (tick_flags _ _ _).2.1, (tick_flags _ _ _).2.2]
      exact tagInv_step bounds _ i ts hinv

/-! ## Ripples: life, radius and alpha of every reachable ripple -/

theorem alpha_of_life (k : Nat) (h1 : 1 ≤ k) (h2 : k ≤ 29) :
    toUint8 (255 * ((k : ℚ) / 30)) = 255 * k / 30
      ∧ 8 ≤ 255 * k / 30 ∧ 255 * k / 30 ≤ 246 := by
  interval_cases k <;> decide!

/-- C18. Starting from the empty collection, after every tick of every run each
ripple in the collection has a whole life `k` in `1..29` and radius exactly
`2 (30 - k)`, hence a radius between 2 and 58; rendering such a ripple selects
its colour with alpha `floor(255 k / 30)`, which lies between 8 and 246. -/
theorem ripple_state_invariant (bounds : SDL_Rect) (ins : List Input) :
    ∀ r ∈ (run bounds initial ins).ripples,
      ∃ k : Nat, 1 ≤ k ∧ k ≤ 29 ∧ r.life = (k : ℚ) ∧ r.radius = 2 * (30 - (k : ℚ))
        ∧ 2 ≤ r.radius ∧ r.radius ≤ 58
        ∧ (∃ rest, drawRipple r
            = Cmd.setRenderDrawColor r.color.r r.color.g r.color.b (255 * k / 30) :: rest)
        ∧ 8 ≤ 255 * k / 30 ∧ 255 * k / 30 ≤ 246 := by
  obtain ⟨ts, herase, hinv⟩ := run_tagInv bounds ins
  intro r hr
  rw [← herase, List.mem_map] at hr
  obtain ⟨p, hp, hpr⟩ := hr
  obtain ⟨k, hk1, hk2, hl, hrad⟩ := hinv.1 p hp
  rw [hpr] at hl hrad
  obtain ⟨ha, hb, hc⟩ := alpha_of_life k hk1 hk2
  have hkq1 : (1 : ℚ) ≤ (k : ℚ) := by exact_mod_cast hk1
  have hkq2 : (k : ℚ) ≤ 29 := by exact_mod_cast hk2
  refine ⟨k, hk1, hk2, hl, hrad, by rw [hrad]; linarith, by rw [hrad]; linarith, ?_, hb, hc⟩
  have h30 : ((RIPPLE_MAX_LIFE : Int) : ℚ) = 30 := by
    simp [RIPPLE_MAX_LIFE]
  have hd : drawRipple r
      = Cmd.setRenderDrawColor r.color.r r.color.g r.color.b
          (toUint8 (255 * (r.life / ((RIPPLE_MAX_LIFE : Int) : ℚ))))
        :: (drawCircleApprox r.center.x r.center.y r.radius
            ++ (if r.radius > 6 / 5 then
                  drawCircleApprox r.center.x r.center.y (r.radius - 6 / 5) else [])
            ++ (if r.radius > 12 / 5 then
                  drawCircleApprox r.center.x r.center.y (r.radius - 12 / 5) else [])) := rfl
  rw [h30, hl, ha] at hd
  exact ⟨_, hd⟩

theorem ripple_state_invariant_witness :
    (Ripple.mk ⟨3, 4⟩ 2 29 COLOR_MAIN)
        ∈ (run ⟨0, 0, 1920, 1080⟩ initial [Input.mk 3 4 1 0 true]).ripples
      ∧ ∃ k : Nat, 1 ≤ k ∧ k ≤ 29 ∧ (Ripple.mk ⟨3, 4⟩ 2 29 COLOR_MAIN).life = (k : ℚ)
        ∧ (Ripple.mk ⟨3, 4⟩ 2 29 COLOR_MAIN).radius = 2 * (30 - (k : ℚ))
        ∧ 2 ≤ (Ripple.mk ⟨3, 4⟩ 2 29 COLOR_MAIN).radius
        ∧ (Ripple.mk ⟨3, 4⟩ 2 29 COLOR_MAIN).radius ≤ 58
        ∧ (∃ rest, drawRipple (Ripple.mk ⟨3, 4⟩ 2 29 COLOR_MAIN)
            = Cmd.setRenderDrawColor (Ripple.mk ⟨3, 4⟩ 2 29 COLOR_MAIN).color.r
                (Ripple.mk ⟨3, 4⟩ 2 29 COLOR_MAIN).color.g
                (Ripple.mk ⟨3, 4⟩ 2 29 COLOR_MAIN).color.b (255 * k / 30) :: rest)
        ∧ 8 ≤ 255 * k / 30 ∧ 255 * k / 30 ≤ 246 :=
  ⟨by decide!,
    ripple_state_invariant ⟨0, 0, 1920, 1080⟩ [Input.mk 3 4 1 0 true]
      (Ripple.mk ⟨3, 4⟩ 2 29 COLOR_MAIN) (by decide!)⟩

/-! ## Ripples: how many there can be -/

theorem gap_count (l : List (Ripple × Bool)) :
    ∀ lo : ℚ, lo ≤ 31 → (∀ p ∈ l, lo ≤ p.1.life ∧ p.1.life ≤ 29) →
      l.Pairwise (fun p q => p.1.life + 2 ≤ q.1.life) →
      2 * (l.length : ℚ) ≤ 31 - lo := by
  induction l with
  | nil => intro lo hlo _ _; simp; linarith
  | cons a rest ih =>
    intro lo _ hmem hpw
    have ha := hmem a (List.mem_cons_self _ _)
    have hrest : ∀ p ∈ rest, a.1.life + 2 ≤ p.1.life ∧ p.1.life ≤ 29 := by
      intro p hp
      exact ⟨List.rel_of_pairwise_cons hpw hp, (hmem p (List.mem_cons_of_mem _ hp)).2⟩
    have := ih (a.1.life + 2) (by linarith) hrest (List.Pairwise.of_cons hpw)
    rw [List.length_cons]
    push_cast
    linarith

theorem filter_length_split {α : Type} (f : α → Bool) (l : List α) :
    (l.filter f).length + (l.filter (fun a => !f a)).length = l.length := by
  induction l with
  | nil => rfl
  | cons a rest ih =>
    simp only [List.filter_cons, List.length_cons]
    cases f a
    · simp only [Bool.false_eq_true, if_false, Bool.not_false, if_true, List.length_cons]
      omega
    · simp only [if_true, Bool.not_true, Bool.false_eq_true, if_false, List.length_cons]
      omega

theorem tagInv_same_button_count (wl wr u : Bool) (ts : List (Ripple × Bool))
    (hinv : TagInv wl wr u ts) (tag : Bool) :
    (ts.filter (fun p => p.2 == tag)).length ≤ 15 := by
  have hrange := tagInv_life_le wl wr u ts hinv
  have hpw : (ts.filter (fun p => p.2 == tag)).Pairwise
      (fun p q => p.1.life + 2 ≤ q.1.life) := by
    refine List.Pairwise.imp_of_mem ?_ (hinv.2.2.2.2.filter _)
    intro a c ha hc hac
    have ha2 : a.2 = tag := by simpa using (List.mem_filter.1 ha).2
    have hc2 : c.2 = tag := by simpa using (List.mem_filter.1 hc).2
    exact hac.2.1 (ha2.trans hc2.symm)
  have hmem : ∀ p ∈ ts.filter (fun p => p.2 == tag), (1 : ℚ) ≤ p.1.life ∧ p.1.life ≤ 29 := by
    intro p hp
    have := hrange p (List.mem_filter.1 hp).1
    exact ⟨this.1, this.2.1⟩
  have h := gap_count _ 1 (by norm_num) hmem hpw
  have h15 : ((ts.filter (fun p => p.2 == tag)).length : ℚ) ≤ 15 := by linarith
  exact_mod_cast h15

/-- C19. Starting from the initial state, for every sequence of per-tick inputs
the ripple collection holds at most 30 ripples at the end of every tick: two
ripples of one button are at least two ticks apart and every life lies in
`1..29`, which leaves room for 15 per button.  The bound is attained: with both
buttons pressed together on every second tick, the collection holds 30 ripples
after 29 ticks. -/
theorem ripple_count_bound :
    (∀ (bounds : SDL_Rect) (ins : List Input), (run bounds initial ins).ripples.length ≤ 30)
      ∧ (run ⟨0, 0, 1920, 1080⟩ initial
          ((List.range 29).map
            (fun k => Input.mk 0 0 (if k % 2 = 0 then 5 else 0) 0 true))).ripples.length
          = 30 := by
  refine ⟨?_, by decide!⟩
  intro bounds ins
  obtain ⟨ts, herase, hinv⟩ := run_tagInv bounds ins
  rw [← herase, List.length_map]
  have hsplit := filter_length_split (fun p : Ripple × Bool => p.2 == true) ts
  have hL := tagInv_same_button_count _ _ _ ts hinv true
  have hR := tagInv_same_button_count _ _ _ ts hinv false
  have hRe : ts.filter (fun p => !(p.2 == true)) = ts.filter (fun p => p.2 == false) := by
    congr 1
    funext p
    cases p.2 <;> rfl
  rw [hRe] at hsplit
  omega

/-! ## Ripples: an advance step never reproduces the collection -/

theorem advanceTagged_append (xs ys : List (Ripple × Bool)) :
    advanceTagged (xs ++ ys) = advanceTagged xs ++ advanceTagged ys := by
  unfold advanceTagged
  rw [List.map_append, List.filter_append]

theorem advanceTagged_length_le (xs : List (Ripple × Bool)) :
    (advanceTagged xs).length ≤ xs.length := by
  unfold advanceTagged
  exact (List.length_filter_le _ _).trans (by rw [List.length_map])

theorem advanceTagged_singleton (p : Ripple × Bool) (h : 0 < p.1.life - 1) :
    advanceTagged [p] = [(growRipple p.1, p.2)] := by
  have hd : decide (0 < (growRipple p.1).life) = true := decide_eq_true h
  unfold advanceTagged
  simp only [List.map_cons, List.map_nil, List.filter_cons, List.filter_nil]
  rw [if_pos hd]

theorem snoc_of_map_eq (X : List Ripple) (r : Ripple) (W : List (Ripple × Bool))
    (h : X ++ [r] = W.map Prod.fst) :
    ∃ W0 w, W = W0 ++ [w] ∧ w.1 = r ∧ X = W0.map Prod.fst := by
  rcases List.eq_nil_or_concat W with hw | ⟨W0, w, hw⟩
  · rw [hw] at h
    simp at h
  · rw [List.concat_eq_append] at hw
    refine ⟨W0, w, hw, ?_, ?_⟩
    · rw [hw, List.map_append] at h
      have := (List.append_inj' h rfl).2
      simp only [List.map_cons, List.map_nil, List.cons.injEq, and_true] at this
      exact this.symm
    · rw [hw, List.map_append] at h
      exact (List.append_inj' h rfl).1

/-- One step back along the collection: if advancing `W` and then adding a
ripple `r` that survives one more step gives `W` again, then `W` ends with `r`,
and the same holds one ripple earlier for `r` advanced. -/
theorem peel (W : List (Ripple × Bool)) (r : Ripple)
    (h : (advanceTagged W).map Prod.fst ++ [r] = W.map Prod.fst)
    (halive : 0 < r.life - 1) :
    ∃ W0 w, W = W0 ++ [w] ∧ w.1 = r
      ∧ (advanceTagged W0).map Prod.fst ++ [growRipple r] = W0.map Prod.fst := by
  obtain ⟨W0, w, hW, hw, hX⟩ := snoc_of_map_eq _ r W h
  refine ⟨W0, w, hW, hw, ?_⟩
  have hwal : 0 < w.1.life - 1 := by rw [hw]; exact halive
  rw [hW, advanceTagged_append, advanceTagged_singleton w hwal, List.map_append] at hX
  rw [← hX, hw]
  rfl

theorem advanceTagged_singleton_dead (p : Ripple × Bool) (h : ¬ 0 < p.1.life - 1) :
    advanceTagged [p] = [] := by
  have hd : ¬ decide (0 < (growRipple p.1).life) = true := by
    intro hc
    exact h (of_decide_eq_true hc)
  unfold advanceTagged
  simp only [List.map_cons, List.map_nil, List.filter_cons, List.filter_nil]
  rw [if_neg hd]

theorem grown_fields (wx wy : ℚ) (c : SDL_Color) :
    ((growRipple (newRipple wx wy c)).life = 29
        ∧ (growRipple (newRipple wx wy c)).color = c)
      ∧ ((growRipple (growRipple (newRipple wx wy c))).life = 28
        ∧ (growRipple (growRipple (newRipple wx wy c))).color = c)
      ∧ ((growRipple (growRipple (growRipple (newRipple wx wy c)))).life = 27
        ∧ (growRipple (growRipple (growRipple (newRipple wx wy c)))).color = c) := by
  simp only [growRipple, newRipple, RIPPLE_MAX_LIFE, RIPPLE_GROWTH]
  norm_num

theorem advanceTagged_new (wx wy : ℚ) (c : SDL_Color) (tag : Bool) :
    advanceTagged [(newRipple wx wy c, tag)] = [(growRipple (newRipple wx wy c), tag)] := by
  apply advanceTagged_singleton
  show 0 < (newRipple wx wy c).life - 1
  rw [(newRipple_fields wx wy c).2.2.2]
  norm_num

theorem tagged_no_fixpoint_idle (ts : List (Ripple × Bool))
    (hne : ts ≠ []) : (advanceTagged ts).map Prod.fst ≠ ts.map Prod.fst := by
  intro hEq
  rcases List.eq_nil_or_concat ts with hw | ⟨W0, x, hw⟩
  · exact hne hw
  · rw [List.concat_eq_append] at hw
    by_cases hal : 0 < x.1.life - 1
    · rw [hw, advanceTagged_append, advanceTagged_singleton x hal, List.map_append,
        List.map_append] at hEq
      have h2 := (List.append_inj' hEq rfl).2
      simp only [List.map_cons, List.map_nil, List.cons.injEq, and_true] at h2
      have hlife : (growRipple x.1).life = x.1.life := by rw [h2]
      have : x.1.life - 1 = x.1.life := hlife
      linarith
    · have hlen := congrArg List.length hEq
      rw [hw, advanceTagged_append, advanceTagged_singleton_dead x hal, List.append_nil,
        List.length_map, List.length_map, List.length_append, List.length_singleton] at hlen
      have := advanceTagged_length_le W0
      omega

theorem tagged_no_fixpoint (bounds : SDL_Rect) (s : State) (i : Input)
    (ts : List (Ripple × Bool))
    (hinv : TagInv s.wasLeftDown s.wasRightDown s.useAux ts)
    (hne : ts ++ spawnedTagged bounds s i ≠ []) :
    (advanceTagged (ts ++ spawnedTagged bounds s i)).map Prod.fst ≠ ts.map Prod.fst := by
  obtain ⟨_, hB, hC, hD, hP⟩ := hinv
  have hcol : COLOR_MAIN ≠ COLOR_AUX := by decide
  intro hEq
  rw [advanceTagged_append, List.map_append] at hEq
  by_cases hL : (isLeftDown i && !s.wasLeftDown) = true
  · have hwl : s.wasLeftDown = false := by
      simp only [Bool.and_eq_true, Bool.not_eq_true'] at hL
      exact hL.2
    by_cases hR : (isRightDown i && !s.wasRightDown) = true
    · -- both buttons: the last ripple of the state would be one tick old
      have hwr : s.wasRightDown = false := by
        simp only [Bool.and_eq_true, Bool.not_eq_true'] at hR
        exact hR.2
      have hsp : spawnedTagged bounds s i
          = [(newRipple (windowX bounds i) (windowY bounds i)
                (if s.useAux then COLOR_AUX else COLOR_MAIN), true)]
            ++ [(newRipple (windowX bounds i) (windowY bounds i) COLOR_MAIN, false)] := by
        unfold spawnedTagged
        rw [if_pos hL, if_pos hR]
      rw [hsp, advanceTagged_append, advanceTagged_new, advanceTagged_new, List.map_append,
        ← List.append_assoc] at hEq
      obtain ⟨W0, x, hW, hx, _⟩ := snoc_of_map_eq _ _ ts hEq
      have hxm : x ∈ ts := by rw [hW]; simp
      have hx29 : x.1.life = 29 := by rw [hx]; exact (grown_fields _ _ _).1.1
      have := hB x hxm hx29
      rw [hwl, hwr] at this
      simp at this
    · -- left button only
      have hsp : spawnedTagged bounds s i
          = [(newRipple (windowX bounds i) (windowY bounds i)
                (if s.useAux then COLOR_AUX else COLOR_MAIN), true)] := by
        unfold spawnedTagged
        rw [if_pos hL, if_neg hR, List.append_nil]
      rw [hsp, advanceTagged_new] at hEq
      have g := grown_fields (windowX bounds i) (windowY bounds i)
        (if s.useAux then COLOR_AUX else COLOR_MAIN)
      obtain ⟨W0, x, hW, hx, hE1⟩ := peel ts _ hEq (by
        show 0 < (growRipple _).life - 1
        rw [g.1.1]; norm_num)
      obtain ⟨W1, y, hW0, hy, _⟩ := peel W0 _ hE1 (by
        show 0 < (growRipple (growRipple _)).life - 1
        rw [g.2.1.1]; norm_num)
      have hxm : x ∈ ts := by rw [hW]; simp
      have hym : y ∈ ts := by rw [hW, hW0]; simp
      have hx29 : x.1.life = 29 := by rw [hx]; exact g.1.1
      have hy28 : y.1.life = 28 := by rw [hy]; exact g.2.1.1
      have hyc : y.1.color = (if s.useAux then COLOR_AUX else COLOR_MAIN) := by
        rw [hy]; exact g.2.1.2
      have hx2 : x.2 = false := by
        have := hB x hxm hx29
        cases hxt : x.2
        · rfl
        · rw [hxt, hwl] at this
          simp at this
      have hyx := (List.pairwise_append.1 (hW ▸ hP)).2.2 y (by rw [hW0]; simp) x (by simp)
      have hy2 : y.2 = true := by
        cases hyt : y.2
        · exfalso
          have := hyx.2.1 (by rw [hyt, hx2])
          rw [hy28, hx29] at this
          norm_num at this
        · rfl
      have := hD y hym hy2 (by rw [hy28])
      rw [hyc] at this
      cases hu : s.useAux
      · rw [hu] at this
        exact hcol this
      · rw [hu] at this
        exact hcol this.symm
  · by_cases hR : (isRightDown i && !s.wasRightDown) = true
    · -- right button only
      have hwr : s.wasRightDown = false := by
        simp only [Bool.and_eq_true, Bool.not_eq_true'] at hR
        exact hR.2
      have hsp : spawnedTagged bounds s i
          = [(newRipple (windowX bounds i) (windowY bounds i) COLOR_MAIN, false)] := by
        unfold spawnedTagged
        rw [if_neg hL, if_pos hR, List.nil_append]
      rw [hsp, advanceTagged_new] at hEq
      have g := grown_fields (windowX bounds i) (windowY bounds i) COLOR_MAIN
      obtain ⟨W0, x, hW, hx, hE1⟩ := peel ts _ hEq (by
        show 0 < (growRipple _).life - 1
        rw [g.1.1]; norm_num)
      obtain ⟨W1, y, hW0, hy, hE2⟩ := peel W0 _ hE1 (by
        show 0 < (growRipple (growRipple _)).life - 1
        rw [g.2.1.1]; norm_num)
      obtain ⟨W2, z, hW1, hz, _⟩ := peel W1 _ hE2 (by
        show 0 < (growRipple (growRipple (growRipple _))).life - 1
        rw [g.2.2.1]; norm_num)
      have hxm : x ∈ ts := by rw [hW]; simp
      have hx29 : x.1.life = 29 := by rw [hx]; exact g.1.1
      have hy28 : y.1.life = 28 := by rw [hy]; exact g.2.1.1
      have hz27 : z.1.life = 27 := by rw [hz]; exact g.2.2.1
      have hxc : x.1.color = COLOR_MAIN := by rw [hx]; exact g.1.2
      have hzc : z.1.color = COLOR_MAIN := by rw [hz]; exact g.2.2.2
      have hx2 : x.2 = true := by
        have := hB x hxm hx29
        cases hxt : x.2
        · rw [hxt, hwr] at this
          simp at this
        · rfl
      have hP0 := List.pairwise_append.1 (hW ▸ hP)
      have hyx := hP0.2.2 y (by rw [hW0]; simp) x (by simp)
      have hzx := hP0.2.2 z (by rw [hW0, hW1]; simp) x (by simp)
      have hzy := (List.pairwise_append.1 (hW0 ▸ hP0.1)).2.2 z (by rw [hW1]; simp) y (by simp)
      have hy2 : y.2 = false := by
        cases hyt : y.2
        · rfl
        · exfalso
          have := hyx.2.1 (by rw [hyt, hx2])
          rw [hy28, hx29] at this
          norm_num at this
      have hz2 : z.2 = true := by
        cases hzt : z.2
        · exfalso
          have := hzy.2.1 (by rw [hzt, hy2])
          rw [hz27, hy28] at this
          norm_num at this
        · rfl
      exact hzx.2.2 hz2 hx2 (by rw [hz27, hx29]; norm_num) (by rw [hzc, hxc])
    · -- no spawn
      have hsp : spawnedTagged bounds s i = [] := by
        unfold spawnedTagged
        rw [if_neg hL, if_neg hR]
        rfl
      rw [hsp] at hne
      rw [hsp] at hEq
      simp only [List.append_nil] at hne
      have hadv : advanceTagged ([] : List (Ripple × Bool)) = [] := rfl
      rw [hadv, List.map_nil, List.append_nil] at hEq
      exact tagged_no_fixpoint_idle ts hne hEq

/-- In a state reached by a run, a tick that starts its advance step with a
non-empty ripple collection ends with a ripple collection different from the one
it started with. -/
theorem tick_ripples_changed (bounds : SDL_Rect) (ins : List Input) (i : Input)
    (hne : (stageRight bounds (run bounds initial ins) i).st.ripples ≠ []) :
    (tick bounds (run bounds initial ins) i).st.ripples ≠ (run bounds initial ins).ripples := by
  obtain ⟨ts, herase, hinv⟩ := run_tagInv bounds ins
  have hne2 : ts ++ spawnedTagged bounds (run bounds initial ins) i ≠ [] := by
    intro h
    apply hne
    rw [stageRight_ripples, ← herase, ← spawnedTagged_erase, ← List.map_append, h]
    rfl
  have := tagged_no_fixpoint bounds _ i ts hinv hne2
  rw [advanceTagged_erase, List.map_append, herase, spawnedTagged_erase, ← tick_ripples_eq]
    at this
  exact this

/-! ## Redraw is skipped only when nothing changed -/

theorem moved_front_self (wx wy : ℚ) (now : Nat) (rest : List TrailNode) :
    moved ({ pos := ⟨wx, wy⟩, timestamp := now } :: rest) wx wy = false := by
  simp only [moved, Bool.or_eq_false_iff, decide_eq_false_iff_not, not_lt, gt_iff_lt]
  exact ⟨fabs_sub_self wx, fabs_sub_self wy⟩

theorem activity_iff_changed (bounds : SDL_Rect) (ins : List Input) (i : Input) :
    (stageAdvance bounds (run bounds initial ins) i).hasActivity = false
      ↔ ((tick bounds (run bounds initial ins) i).st.trail = (run bounds initial ins).trail
          ∧ (tick bounds (run bounds initial ins) i).st.ripples
              = (run bounds initial ins).ripples) := by
  have hform := stageAdvance_hasActivity bounds (run bounds initial ins) i
  have hseg := stageTrail_initial_segment bounds (run bounds initial ins) i
  have hpush := (stagePush_frame bounds (run bounds initial ins) i).1
  constructor
  · intro hfalse
    rw [hfalse] at hform
    have h := hform.symm
    simp only [Bool.or_eq_false_iff, decide_eq_false_iff_not, not_lt, Bool.not_eq_false',
      List.isEmpty_iff] at h
    obtain ⟨⟨⟨⟨hm, hlen⟩, _⟩, _⟩, hemp⟩ := h
    rw [hm] at hseg hpush
    simp only [Bool.false_eq_true, if_false] at hseg hpush
    rw [hpush] at hlen
    constructor
    · rw [tick_trail]
      exact hseg.eq_of_length (le_antisymm hseg.length_le hlen)
    · rw [tick_ripples, hemp]
      rw [stageRight_ripples] at hemp
      rw [(List.append_eq_nil.1 hemp).1]
      rfl
  · rintro ⟨htr, hri⟩
    have hrip : (stageRight bounds (run bounds initial ins) i).st.ripples = [] := by
      by_contra hne
      exact tick_ripples_changed bounds ins i hne hri
    have hsp : spawned bounds (run bounds initial ins) i = [] := by
      rw [stageRight_ripples] at hrip
      exact (List.append_eq_nil.1 hrip).2
    have hm : moved (run bounds initial ins).trail (windowX bounds i) (windowY bounds i)
        = false := by
      cases hmv : moved (run bounds initial ins).trail (windowX bounds i) (windowY bounds i)
      · rfl
      · obtain ⟨rest, hrest⟩ := tick_trail_pushed bounds _ i hmv
        rw [htr] at hrest
        rw [hrest, moved_front_self] at hmv
        exact absurd hmv (by decide)
    have hL : (isLeftDown i && !(run bounds initial ins).wasLeftDown) = false := by
      cases he : (isLeftDown i && !(run bounds initial ins).wasLeftDown)
      · rfl
      · unfold spawned at hsp
        rw [he] at hsp
        simp at hsp
    have hR : (isRightDown i && !(run bounds initial ins).wasRightDown) = false := by
      cases he : (isRightDown i && !(run bounds initial ins).wasRightDown)
      · rfl
      · unfold spawned at hsp
        rw [he] at hsp
        simp at hsp
    rw [hm] at hpush
    simp only [Bool.false_eq_true, if_false] at hpush
    have hlen : ¬ (stageTrail bounds (run bounds initial ins) i).st.trail.length
        < (stagePush bounds (run bounds initial ins) i).st.trail.length := by
      rw [hpush, ← tick_trail, htr]
      exact lt_irrefl _
    rw [hform, hm, hL, hR, hrip, decide_eq_false hlen]
    rfl

theorem onScreen_append (l : List (List Cmd)) (out : List Cmd) :
    ∀ shown : List Cmd,
      onScreen shown (l ++ [out]) = (presentedFrame out).getD (onScreen shown l) := by
  induction l with
  | nil => intro shown; rfl
  | cons o rest ih =>
    intro shown
    show onScreen ((presentedFrame o).getD shown) (rest ++ [out]) = _
    rw [ih]
    rfl

theorem takeWhile_paint (P rest : List Cmd) (hP : ∀ c ∈ P, isPaint c = true) :
    (P ++ Cmd.renderPresent :: rest).takeWhile (fun c => c != Cmd.renderPresent) = P := by
  induction P with
  | nil => simp [List.takeWhile]
  | cons c tl ih =>
    have hc := hP c (List.mem_cons_self _ _)
    have hne : (c != Cmd.renderPresent) = true := by
      apply bne_iff_ne.2
      intro h
      rw [h] at hc
      exact absurd hc (by decide)
    rw [List.cons_append, List.takeWhile_cons, if_pos hne,
      ih (fun d hd => hP d (List.mem_cons_of_mem _ hd))]

theorem presentedFrame_drawn (P : List Cmd) (hP : ∀ c ∈ P, isPaint c = true) :
    presentedFrame ([Cmd.setRenderDrawColor 0 0 0 0, Cmd.renderClear] ++ P
        ++ [Cmd.renderPresent, Cmd.delay 12]) = some P := by
  unfold presentedFrame
  have hmem : Cmd.renderPresent ∈ [Cmd.setRenderDrawColor 0 0 0 0, Cmd.renderClear] ++ P
      ++ [Cmd.renderPresent, Cmd.delay 12] := by simp
  rw [if_pos hmem]
  have hdrop : ([Cmd.setRenderDrawColor 0 0 0 0, Cmd.renderClear] ++ P
      ++ [Cmd.renderPresent, Cmd.delay 12]).dropWhile (fun c => c != Cmd.renderClear)
      = Cmd.renderClear :: (P ++ [Cmd.renderPresent, Cmd.delay 12]) := by
    have h1 : (Cmd.setRenderDrawColor 0 0 0 0 != Cmd.renderClear) = true := by decide
    have h2 : (Cmd.renderClear != Cmd.renderClear) = false := by decide
    simp [List.dropWhile, h1, h2]
  rw [hdrop, List.tail_cons, takeWhile_paint P _ hP]

theorem frameCmds_paint (s : State) : ∀ c ∈ frameCmds s, isPaint c = true := by
  intro c hc
  rcases List.mem_append.1 hc with h | h
  · exact drawRipples_paint _ c h
  · exact drawTrail_paint _ c h

theorem onScreen_all_visible (bounds : SDL_Rect) (ins : List Input) :
    (∀ j ∈ ins, j.visible = true) →
      onScreen [] (runOut bounds initial ins) = frameCmds (run bounds initial ins) := by
  induction ins using List.reverseRecOn with
  | nil => intro _; rfl
  | append_singleton l i ih =>
    intro hall
    have hl : ∀ j ∈ l, j.visible = true := fun j hj => hall j (List.mem_append_left _ hj)
    have hv : i.visible = true := hall i (by simp)
    rw [runOut_append, onScreen_append, ih hl, run_append]
    cases ha : (stageAdvance bounds (run bounds initial l) i).hasActivity
    · rw [tick_out_idle bounds _ i hv ha]
      obtain ⟨htr, hri⟩ := (activity_iff_changed bounds l i).1 ha
      show frameCmds (run bounds initial l) = frameCmds (tick bounds (run bounds initial l) i).st
      unfold frameCmds
      rw [htr, hri]
    · rw [tick_out_drawn bounds _ i hv ha]
      have hp := presentedFrame_drawn
        (drawRipples (tick bounds (run bounds initial l) i).st.ripples
          ++ drawTrail (tick bounds (run bounds initial l) i).st.trail)
        (frameCmds_paint (tick bounds (run bounds initial l) i).st)
      rw [hp]
      rfl

theorem presentedFrame_tick_drawn (bounds : SDL_Rect) (s : State) (i : Input)
    (hv : i.visible = true) (ha : (stageAdvance bounds s i).hasActivity = true) :
    presentedFrame (tick bounds s i).out = some (frameCmds (tick bounds s i).st) := by
  rw [tick_out_drawn bounds s i hv ha]
  exact presentedFrame_drawn
    (drawRipples (tick bounds s i).st.ripples ++ drawTrail (tick bounds s i).st.trail)
    (frameCmds_paint (tick bounds s i).st)

/-- After a visible tick that rendered, and as long as only visible ticks
follow, the frame on screen is the frame of the current state. -/
theorem onScreen_since_render (bounds : SDL_Rect) (pre : List Input) (d : Input)
    (hd : d.visible = true)
    (hact : (stageAdvance bounds (run bounds initial pre) d).hasActivity = true)
    (shown : List Cmd) (post : List Input) :
    (∀ j ∈ post, j.visible = true) →
      onScreen shown (runOut bounds initial (pre ++ [d] ++ post))
        = frameCmds (run bounds initial (pre ++ [d] ++ post)) := by
  induction post using List.reverseRecOn with
  | nil =>
    intro _
    rw [List.append_nil, runOut_append, onScreen_append, run_append,
      presentedFrame_tick_drawn bounds _ d hd hact]
    rfl
  | append_singleton l i ih =>
    intro hall
    have hl : ∀ j ∈ l, j.visible = true := fun j hj => hall j (List.mem_append_left _ hj)
    have hv : i.visible = true := hall i (by simp)
    rw [← List.append_assoc, runOut_append, onScreen_append, ih hl, run_append]
    cases ha : (stageAdvance bounds (run bounds initial (pre ++ [d] ++ l)) i).hasActivity
    · rw [tick_out_idle bounds _ i hv ha]
      obtain ⟨htr, hri⟩ := (activity_iff_changed bounds (pre ++ [d] ++ l) i).1 ha
      show frameCmds (run bounds initial (pre ++ [d] ++ l))
        = frameCmds (tick bounds (run bounds initial (pre ++ [d] ++ l)) i).st
      unfold frameCmds
      rw [htr, hri]
    · rw [presentedFrame_tick_drawn bounds _ i hv ha]
      rfl

/-- C17, as stated, fails in its conclusion: a visible tick that skips rendering
can leave on screen a frame that is not the frame of the current state, when
hidden ticks came before it.  First run: two hidden ticks, the first presenting
the blank frame while the pointer moves from `(0,0)` to `(5,0)`, then a visible
tick with the pointer at rest: no activity, the tick only sleeps 33 ms, the
screen is blank, yet the trail holds a segment to draw.  Second run: a hidden
tick, a visible tick with a left press, which presents the ring of the new
ripple, 29 hidden ticks during which the ripple dies and none of which presents
anything, then a visible tick at rest: no activity, the tick only sleeps 33 ms,
and the ring of the dead ripple is still the frame on screen. -/
theorem redraw_skipped_counterexample :
    ((Input.mk 5 0 0 200 true).visible = true
        ∧ (stageAdvance ⟨0, 0, 1920, 1080⟩
            (run ⟨0, 0, 1920, 1080⟩ initial [Input.mk 0 0 0 0 false, Input.mk 5 0 0 100 false])
            (Input.mk 5 0 0 200 true)).hasActivity = false
        ∧ (tick ⟨0, 0, 1920, 1080⟩
            (run ⟨0, 0, 1920, 1080⟩ initial [Input.mk 0 0 0 0 false, Input.mk 5 0 0 100 false])
            (Input.mk 5 0 0 200 true)).out = [Cmd.delay 33]
        ∧ onScreen [] (runOut ⟨0, 0, 1920, 1080⟩ initial
            [Input.mk 0 0 0 0 false, Input.mk 5 0 0 100 false, Input.mk 5 0 0 200 true]) = []
        ∧ frameCmds (run ⟨0, 0, 1920, 1080⟩ initial
            [Input.mk 0 0 0 0 false, Input.mk 5 0 0 100 false, Input.mk 5 0 0 200 true])
          = [Cmd.setRenderDrawColor 243 186 236 255, Cmd.renderLine 5 0 0 0,
             Cmd.renderLine (11 / 2) (1 / 2) (1 / 2) (1 / 2)])
      ∧ ((Input.mk 50 0 0 3150 true).visible = true
        ∧ (stageAdvance ⟨0, 0, 1920, 1080⟩
            (run ⟨0, 0, 1920, 1080⟩ initial
              ([Input.mk 0 0 0 0 false, Input.mk 0 0 1 100 true]
                ++ (List.range 28).map (fun k => Input.mk 0 0 0 (200 + 100 * k) false)
                ++ [Input.mk 50 0 0 3050 false]))
            (Input.mk 50 0 0 3150 true)).hasActivity = false
        ∧ (tick ⟨0, 0, 1920, 1080⟩
            (run ⟨0, 0, 1920, 1080⟩ initial
              ([Input.mk 0 0 0 0 false, Input.mk 0 0 1 100 true]
                ++ (List.range 28).map (fun k => Input.mk 0 0 0 (200 + 100 * k) false)
                ++ [Input.mk 50 0 0 3050 false]))
            (Input.mk 50 0 0 3150 true)).out = [Cmd.delay 33]
        ∧ onScreen [] (runOut ⟨0, 0, 1920, 1080⟩ initial
            ([Input.mk 0 0 0 0 false, Input.mk 0 0 1 100 true]
              ++ (List.range 28).map (fun k => Input.mk 0 0 0 (200 + 100 * k) false)
              ++ [Input.mk 50 0 0 3050 false] ++ [Input.mk 50 0 0 3150 true]))
          = [Cmd.setRenderDrawColor 243 186 236 246, Cmd.renderLines 0 0 2,
             Cmd.renderLines 0 0 (4 / 5)]
        ∧ frameCmds (run ⟨0, 0, 1920, 1080⟩ initial
            ([Input.mk 0 0 0 0 false, Input.mk 0 0 1 100 true]
              ++ (List.range 28).map (fun k => Input.mk 0 0 0 (200 + 100 * k) false)
              ++ [Input.mk 50 0 0 3050 false] ++ [Input.mk 50 0 0 3150 true])) = []) := by
  decide!

/-- C17, amended. On every tick of a run from the initial state, `hasActivity`
is false if and only if the trail buffer and the ripple collection at the end of
the tick's state update are exactly what they were at the start of the tick.
Hence a visible tick that skips rendering leaves no stale frame on screen when
every tick since the last visible tick that rendered was visible: the frame on
screen is then the frame of the current trail and ripples.  That is the case, in
particular, after every tick of a run without hidden ticks. -/
theorem redraw_skipped_only_when_unchanged (bounds : SDL_Rect) (ins : List Input)
    (i : Input) :
    ((stageAdvance bounds (run bounds initial ins) i).hasActivity = false
        ↔ ((stageAdvance bounds (run bounds initial ins) i).st.trail
              = (run bounds initial ins).trail
            ∧ (stageAdvance bounds (run bounds initial ins) i).st.ripples
              = (run bounds initial ins).ripples))
      ∧ (∀ (pre : List Input) (d : Input) (post : List Input),
          ins ++ [i] = pre ++ [d] ++ post → d.visible = true →
          (stageAdvance bounds (run bounds initial pre) d).hasActivity = true →
          (∀ j ∈ post, j.visible = true) →
          onScreen [] (runOut bounds initial (ins ++ [i]))
            = frameCmds (run bounds initial (ins ++ [i])))
      ∧ ((∀ j ∈ ins ++ [i], j.visible = true) →
          onScreen [] (runOut bounds initial (ins ++ [i]))
            = frameCmds (run bounds initial (ins ++ [i]))) := by
  have ht : (tick bounds (run bounds initial ins) i).st.trail
      = (stageAdvance bounds (run bounds initial ins) i).st.trail :=
    (schedule_frame _ _).1
  have hr : (tick bounds (run bounds initial ins) i).st.ripples
      = (stageAdvance bounds (run bounds initial ins) i).st.ripples :=
    (schedule_frame _ _).2.1
  refine ⟨?_, ?_, onScreen_all_visible bounds (ins ++ [i])⟩
  · rw [← ht, ← hr]
    exact activity_iff_changed bounds ins i
  · intro pre d post hsplit hd hact hpost
    rw [hsplit]
    exact onScreen_since_render bounds pre d hd hact [] post hpost

theorem redraw_skipped_only_when_unchanged_witness :
    (∀ j ∈ [Input.mk 0 0 0 0 true, Input.mk 5 0 0 50 true] ++ [Input.mk 5 0 0 100 true],
        j.visible = true)
      ∧ (tick ⟨0, 0, 1920, 1080⟩
          (run ⟨0, 0, 1920, 1080⟩ initial [Input.mk 0 0 0 0 true, Input.mk 5 0 0 50 true])
          (Input.mk 5 0 0 100 true)).out = [Cmd.delay 33]
      ∧ frameCmds (run ⟨0, 0, 1920, 1080⟩ initial
          ([Input.mk 0 0 0 0 true, Input.mk 5 0 0 50 true] ++ [Input.mk 5 0 0 100 true]))
        = [Cmd.setRenderDrawColor 243 186 236 255, Cmd.renderLine 5 0 0 0,
           Cmd.renderLine (11 / 2) (1 / 2) (1 / 2) (1 / 2)]
      ∧ onScreen [] (runOut ⟨0, 0, 1920, 1080⟩ initial
          ([Input.mk 0 0 0 0 true, Input.mk 5 0 0 50 true] ++ [Input.mk 5 0 0 100 true]))
        = frameCmds (run ⟨0, 0, 1920, 1080⟩ initial
          ([Input.mk 0 0 0 0 true, Input.mk 5 0 0 50 true] ++ [Input.mk 5 0 0 100 true])) :=
  ⟨by decide, by decide!, by decide!,
    (redraw_skipped_only_when_unchanged ⟨0, 0, 1920, 1080⟩
      [Input.mk 0 0 0 0 true, Input.mk 5 0 0 50 true] (Input.mk 5 0 0 100 true)).2.2
      (by decide)⟩


/-! ## Renderer: the outlines of a ripple -/

theorem pow2_eq_zpow (e : Int) : pow2 e = (2 : ℚ) ^ e := by
  unfold pow2
  split
  · rename_i h
    have h1 : ((e.toNat : Int)) = e := Int.toNat_of_nonneg h
    conv_rhs => rw [← h1]
    rw [zpow_natCast]
    push_cast
    rfl
  · rename_i h
    have h0 : 0 ≤ -e := by omega
    have h1 : (((-e).toNat : Int)) = -e := Int.toNat_of_nonneg h0
    have h2 : e = -(((-e).toNat : Int)) := by omega
    conv_rhs => rw [h2]
    rw [zpow_neg, zpow_natCast]
    push_cast
    rw [one_div]

theorem pow2_pos (e : Int) : 0 < pow2 e := by
  rw [pow2_eq_zpow]
  positivity

theorem bitLength_zero (fuel : Nat) : bitLength fuel 0 = 0 := by
  cases fuel <;> simp [bitLength]

theorem bitLength_spec (fuel : Nat) :
    ∀ n : Nat, 0 < n → n ≤ fuel →
      ∃ b : Nat, bitLength fuel n = b + 1 ∧ 2 ^ b ≤ n ∧ n < 2 ^ (b + 1) := by
  induction fuel with
  | zero =>
    intro n h0 h1
    omega
  | succ fuel ih =>
    intro n h0 h1
    have hn : n ≠ 0 := by omega
    simp only [bitLength, if_neg hn]
    by_cases h2 : n / 2 = 0
    · refine ⟨0, ?_, ?_, ?_⟩
      · rw [h2, bitLength_zero]
      · simpa using h0
      · have : n < 2 := by omega
        simpa using this
    · obtain ⟨b, hb, hlo, hhi⟩ := ih (n / 2) (by omega) (by omega)
      refine ⟨b + 1, by rw [hb], ?_, ?_⟩
      · rw [pow_succ]
        omega
      · rw [pow_succ] at hhi ⊢
        omega

theorem roundHalfEven_ge (x : ℚ) : x - 1 / 2 ≤ (roundHalfEven x : ℚ) := by
  have hfl : (Rat.floor x : ℚ) ≤ x := Int.floor_le x
  have hlt : x < (Rat.floor x : ℚ) + 1 := Int.lt_floor_add_one x
  unfold roundHalfEven
  split
  · linarith
  · split
    · push_cast
      linarith
    · split
      · linarith
      · push_cast
        linarith

theorem roundHalfEven_le (x : ℚ) : (roundHalfEven x : ℚ) ≤ x + 1 / 2 := by
  have hfl : (Rat.floor x : ℚ) ≤ x := Int.floor_le x
  have hlt : x < (Rat.floor x : ℚ) + 1 := Int.lt_floor_add_one x
  unfold roundHalfEven
  split
  · linarith
  · split
    · push_cast
      linarith
    · split
      · linarith
      · push_cast
        linarith

theorem floorLog2_le (x : ℚ) (hx : 0 < x) : pow2 (floorLog2 x) ≤ x := by
  unfold floorLog2
  split
  · assumption
  · have hnum : 0 < x.num := Rat.num_pos.2 hx
    have hn : 0 < x.num.natAbs := Int.natAbs_pos.2 (ne_of_gt hnum)
    have hd : 0 < x.den := x.den_pos
    obtain ⟨bn, hbn, hnlo, _⟩ := bitLength_spec x.num.natAbs x.num.natAbs hn le_rfl
    obtain ⟨bd, hbd, _, hdhi⟩ := bitLength_spec x.den x.den hd le_rfl
    rw [hbn, hbd, pow2_eq_zpow]
    have he : (((bn + 1 : Nat) : Int) - ((bd + 1 : Nat) : Int) - 1) = (bn : Int) - ((bd + 1 : Nat) : Int) := by
      push_cast
      ring
    rw [he, zpow_sub₀ (by norm_num : (2 : ℚ) ≠ 0), zpow_natCast, zpow_natCast]
    have hxe : x = (x.num.natAbs : ℚ) / (x.den : ℚ) := by
      have h1 : ((x.num.natAbs : Int)) = x.num := Int.natAbs_of_nonneg (le_of_lt hnum)
      have h2 : ((x.num.natAbs : ℚ)) = (x.num : ℚ) := by
        rw [Nat.cast_natAbs, abs_of_pos hnum]
      rw [h2]
      exact (Rat.num_div_den x).symm
    have hdq : (0 : ℚ) < (x.den : ℚ) := by exact_mod_cast hd
    have hnq : (2 : ℚ) ^ bn ≤ (x.num.natAbs : ℚ) := by exact_mod_cast hnlo
    have hdq2 : (x.den : ℚ) ≤ (2 : ℚ) ^ (bd + 1) := by exact_mod_cast (le_of_lt hdhi)
    rw [hxe]
    have hp : (0 : ℚ) < (2 : ℚ) ^ (bd + 1) := by positivity
    rw [div_le_div_iff₀ hp hdq]
    have hpn : (0 : ℚ) ≤ (2 : ℚ) ^ bn := by positivity
    nlinarith [mul_le_mul hnq hdq2 (le_of_lt hdq) (le_trans hpn hnq)]

theorem pow2_mono (a b : Int) (h : a ≤ b) : pow2 a ≤ pow2 b := by
  rw [pow2_eq_zpow, pow2_eq_zpow]
  exact zpow_le_zpow_right₀ (by norm_num) h

theorem pow2_sub_23 (a : Int) : pow2 (a - 23) = pow2 a / 8388608 := by
  rw [pow2_eq_zpow, pow2_eq_zpow, zpow_sub₀ (by norm_num : (2 : ℚ) ≠ 0)]
  norm_num

theorem f32_error (x : ℚ) :
    x - pow2 (max (floorLog2 (fabs x)) (-126) - 23) / 2 ≤ f32 x
      ∧ f32 x ≤ x + pow2 (max (floorLog2 (fabs x)) (-126) - 23) / 2 := by
  have hq := pow2_pos (max (floorLog2 (fabs x)) (-126) - 23)
  unfold f32
  split
  · rename_i h
    constructor <;> linarith
  · have h1 := roundHalfEven_ge (x / pow2 (max (floorLog2 (fabs x)) (-126) - 23))
    have h2 := roundHalfEven_le (x / pow2 (max (floorLog2 (fabs x)) (-126) - 23))
    have h3 : x / pow2 (max (floorLog2 (fabs x)) (-126) - 23)
        * pow2 (max (floorLog2 (fabs x)) (-126) - 23) = x := by
      field_simp
    constructor
    · have := mul_le_mul_of_nonneg_right h1 (le_of_lt hq)
      rw [sub_mul, h3] at this
      linarith
    · have := mul_le_mul_of_nonneg_right h2 (le_of_lt hq)
      rw [add_mul, h3] at this
      linarith

theorem le_fabs (v : ℚ) : v ≤ fabs v := by
  unfold fabs
  split <;> linarith

theorem neg_le_fabs (v : ℚ) : -v ≤ fabs v := by
  unfold fabs
  split <;> linarith

theorem f32_far (d : ℚ) (h : 26843547 / 268435456 < fabs d) :
    13421773 / 134217728 < fabs (f32 d) := by
  have herr := f32_error d
  have hpos : 0 < fabs d := by linarith
  have hlog := floorLog2_le (fabs d) hpos
  have hbig : fabs d - pow2 (max (floorLog2 (fabs d)) (-126) - 23) / 2
      ≤ fabs (f32 d) := by
    by_cases hd : d < 0
    · have hf : fabs d = -d := if_pos hd
      have hneg := neg_le_fabs (f32 d)
      rw [hf] at herr ⊢
      linarith [herr.2]
    · have hf : fabs d = d := if_neg hd
      have hself := le_fabs (f32 d)
      rw [hf] at herr ⊢
      linarith [herr.1]
  by_cases hq : max (floorLog2 (fabs d)) (-126) ≤ -4
  · have h1 := pow2_mono _ _ hq
    rw [pow2_sub_23] at hbig
    have h2 : pow2 (-4) = 1 / 16 := by decide!
    rw [h2] at h1
    linarith
  · have ha : max (floorLog2 (fabs d)) (-126) = floorLog2 (fabs d) := by omega
    have h3 : (-3 : Int) ≤ floorLog2 (fabs d) := by omega
    have h1 := pow2_mono _ _ h3
    have h2 : pow2 (-3) = 1 / 8 := by decide!
    rw [ha, pow2_sub_23] at hbig
    rw [h2] at h1
    linarith

theorem floorLog2_lt (x : ℚ) (hx : 0 < x) : x < pow2 (floorLog2 x + 1) := by
  unfold floorLog2
  split
  · have hnum : 0 < x.num := Rat.num_pos.2 hx
    have hn : 0 < x.num.natAbs := Int.natAbs_pos.2 (ne_of_gt hnum)
    have hd : 0 < x.den := x.den_pos
    obtain ⟨bn, hbn, _, hnhi⟩ := bitLength_spec x.num.natAbs x.num.natAbs hn le_rfl
    obtain ⟨bd, hbd, hdlo, _⟩ := bitLength_spec x.den x.den hd le_rfl
    rw [hbn, hbd, pow2_eq_zpow]
    have he : (((bn + 1 : Nat) : Int) - ((bd + 1 : Nat) : Int) + 1)
        = ((bn + 1 : Nat) : Int) - (bd : Int) := by
      push_cast
      ring
    rw [he, zpow_sub₀ (by norm_num : (2 : ℚ) ≠ 0), zpow_natCast, zpow_natCast]
    have hxe : x = (x.num.natAbs : ℚ) / (x.den : ℚ) := by
      have h2 : ((x.num.natAbs : ℚ)) = (x.num : ℚ) := by
        rw [Nat.cast_natAbs, abs_of_pos hnum]
      rw [h2]
      exact (Rat.num_div_den x).symm
    have hdq : (0 : ℚ) < (x.den : ℚ) := by exact_mod_cast hd
    have hnq : (x.num.natAbs : ℚ) < (2 : ℚ) ^ (bn + 1) := by exact_mod_cast hnhi
    have hdq2 : (2 : ℚ) ^ bd ≤ (x.den : ℚ) := by exact_mod_cast hdlo
    have hp : (0 : ℚ) < (2 : ℚ) ^ bd := by positivity
    have hn0 : (0 : ℚ) ≤ (x.num.natAbs : ℚ) := by positivity
    have hlhs : x < (2 : ℚ) ^ (bn + 1) / (x.den : ℚ) := by
      conv_lhs => rw [hxe]
      exact div_lt_div_of_pos_right hnq hdq
    have hrhs : (2 : ℚ) ^ (bn + 1) / (x.den : ℚ) ≤ (2 : ℚ) ^ (bn + 1) / (2 : ℚ) ^ bd :=
      div_le_div_of_nonneg_left (by positivity) hp hdq2
    exact lt_of_lt_of_le hlhs hrhs
  · rename_i h
    have he : ((bitLength x.num.natAbs x.num.natAbs : Int) - (bitLength x.den x.den : Int) - 1 + 1)
        = (bitLength x.num.natAbs x.num.natAbs : Int) - (bitLength x.den x.den : Int) := by
      ring
    rw [he]
    exact not_le.1 h

theorem f32_tenth : f32 (1 / 10) = 13421773 / 134217728 := by decide!

theorem f32_values :
    f32 1 = 1 ∧ f32 (1 / 2) = 1 / 2 ∧ f32 (1 / 3) = 11184811 / 33554432
      ∧ f32 (6 / 5) = 5033165 / 4194304 ∧ f32 (-(1 / 10)) = -(13421773 / 134217728)
      ∧ f32 16777217 = 16777216 ∧ f32 16777219 = 16777220
      ∧ f32 (13421773 / 134217728) = 13421773 / 134217728
      ∧ f32 (3 / 2 ^ 150) = 1 / 2 ^ 148 ∧ f32 (1 / 2 ^ 150) = 0 := by
  decide!

theorem near_of_not_far (d : ℚ) (h : ¬ fabs (f32 d) > f32 (1 / 10)) :
    fabs d ≤ 26843547 / 268435456 := by
  by_contra hc
  rw [f32_tenth] at h
  exact h (f32_far d (not_le.1 hc))


/-! ## Trail: the front node -/

theorem trailPushF32_trail (wx wy : ℚ) (now : Nat) (f : Frame) :
    (trailPushF32 wx wy now f).st.trail
      = if movedF32 f.st.trail wx wy then
          { pos := ⟨wx, wy⟩, timestamp := now } :: f.st.trail
        else f.st.trail := by
  unfold trailPushF32
  split <;> rfl

theorem stageTrailF32_initial_segment (bounds : SDL_Rect) (s : State) (i : Input) :
    (stageTrailF32 bounds s i).st.trail <+:
      (if movedF32 s.trail (windowXF32 bounds i) (windowYF32 bounds i) then
        { pos := ⟨windowXF32 bounds i, windowYF32 bounds i⟩, timestamp := i.now } :: s.trail
       else s.trail) := by
  have hp := trailPushF32_trail (windowXF32 bounds i) (windowYF32 bounds i) i.now
    { st := s, hasActivity := false, out := [] }
  simp only [stageTrailF32, trailEvict]
  rw [← hp]
  have hsuf := evictLoop_suffix i.now
    (trailPushF32 (windowXF32 bounds i) (windowYF32 bounds i) i.now
      { st := s, hasActivity := false, out := [] }).st.trail.reverse
    (trailPushF32 (windowXF32 bounds i) (windowYF32 bounds i) i.now
      { st := s, hasActivity := false, out := [] }).hasActivity
  have := List.reverse_prefix.2 hsuf
  rwa [List.reverse_reverse] at this

theorem tickF32_trail (bounds : SDL_Rect) (s : State) (i : Input) :
    (tickF32 bounds s i).st.trail = (stageTrailF32 bounds s i).st.trail := by
  unfold tickF32
  rw [(schedule_frame _ _).1, (advanceRipples_frame _).1, (rightClick_frame _ _ _ _).1,
    (leftClick_frame _ _ _ _).1]

theorem stageTrailF32_pushed (bounds : SDL_Rect) (s : State) (i : Input)
    (hm : movedF32 s.trail (windowXF32 bounds i) (windowYF32 bounds i) = true) :
    ∃ rest, (stageTrailF32 bounds s i).st.trail
      = { pos := ⟨windowXF32 bounds i, windowYF32 bounds i⟩, timestamp := i.now } :: rest := by
  have hseg := stageTrailF32_initial_segment bounds s i
  rw [hm] at hseg
  simp only [if_true] at hseg
  refine initial_segment_head _ _ _ hseg ?_
  simp only [stageTrailF32, trailEvict]
  rw [trailPushF32_trail, hm]
  simp only [if_true, List.reverse_cons, ne_eq, List.reverse_eq_nil_iff]
  exact evictLoop_keeps_front i.now _ (expired_self i.now _) _ _

theorem not_far_self (v : ℚ) :
    ¬ fabs (f32 (v - v)) > f32 (1 / 10) ∧ fabs (v - v) ≤ 26843547 / 268435456 := by
  rw [sub_self, f32_tenth]
  have h0 : f32 0 = 0 := if_pos rfl
  rw [h0]
  unfold fabs
  norm_num

/-- C20, as stated, fails.  The pointer rests at `(0, 0)` on the first
tick and is sampled at `(0, 0.1f)` ten milliseconds later, `0.1f` being the float
`13421773 / 2 ^ 27`.  The second tick pushes nothing, since the difference is
`0.1f` and `0.1f > 0.1f` is false; the trail keeps the node `(0, 0)` at its
front, and that node is more than one tenth away from the sample. -/
theorem trail_head_counterexample :
    f32 (13421773 / 134217728) = 13421773 / 134217728
      ∧ windowXF32 ⟨0, 0, 1920, 1080⟩ (Input.mk 0 (13421773 / 134217728) 0 10 true) = 0
      ∧ windowYF32 ⟨0, 0, 1920, 1080⟩ (Input.mk 0 (13421773 / 134217728) 0 10 true)
          = 13421773 / 134217728
      ∧ (runF32 ⟨0, 0, 1920, 1080⟩ initial [Input.mk 0 0 0 0 true]).trail
          = [⟨⟨0, 0⟩, 0⟩]
      ∧ movedF32 (runF32 ⟨0, 0, 1920, 1080⟩ initial [Input.mk 0 0 0 0 true]).trail
          0 (13421773 / 134217728) = false
      ∧ (runF32 ⟨0, 0, 1920, 1080⟩ initial
          [Input.mk 0 0 0 0 true, Input.mk 0 (13421773 / 134217728) 0 10 true]).trail
          = [⟨⟨0, 0⟩, 0⟩]
      ∧ (stageTrailF32 ⟨0, 0, 1920, 1080⟩
          (runF32 ⟨0, 0, 1920, 1080⟩ initial [Input.mk 0 0 0 0 true])
          (Input.mk 0 (13421773 / 134217728) 0 10 true)).st.trail = [⟨⟨0, 0⟩, 0⟩]
      ∧ ¬ fabs ((0 : ℚ) - 13421773 / 134217728) ≤ 1 / 10 := by
  decide!

/-- C20, amended.  On every tick, in every state and for any sample and time
stamp, with the sample and the test of line 175 computed in `float`: the trail
at the end of the tick is either empty or has a front node that passes the
test of line 175 against the sample of the tick, on each axis the `float`
difference being not greater than `0.1f`, so that the exact distance is at most
`0.1f + 2 ^ -28 = 26843547 / 2 ^ 28` on each axis; and when the tick pushes a
node, the trail at the end of the tick is not empty and its front node is
exactly that node, position and time stamp: eviction does not remove the node
just pushed.  The later steps of the tick leave the trail alone. -/
theorem trail_head_tracks_pointer (bounds : SDL_Rect) (s : State) (i : Input) :
    ((tickF32 bounds s i).st.trail = []
        ∨ ∃ front rest, (tickF32 bounds s i).st.trail = front :: rest
            ∧ ¬ fabs (f32 (front.pos.x - windowXF32 bounds i)) > f32 (1 / 10)
            ∧ ¬ fabs (f32 (front.pos.y - windowYF32 bounds i)) > f32 (1 / 10)
            ∧ fabs (front.pos.x - windowXF32 bounds i) ≤ 26843547 / 268435456
            ∧ fabs (front.pos.y - windowYF32 bounds i) ≤ 26843547 / 268435456)
      ∧ (movedF32 s.trail (windowXF32 bounds i) (windowYF32 bounds i) = true →
          ∃ rest, (tickF32 bounds s i).st.trail
            = { pos := ⟨windowXF32 bounds i, windowYF32 bounds i⟩, timestamp := i.now }
                :: rest)
      ∧ (tickF32 bounds s i).st.trail = (stageTrailF32 bounds s i).st.trail := by
  have hseg := stageTrailF32_initial_segment bounds s i
  have hpushed := stageTrailF32_pushed bounds s i
  rw [tickF32_trail]
  refine ⟨?_, hpushed, rfl⟩
  cases hm : movedF32 s.trail (windowXF32 bounds i) (windowYF32 bounds i)
  · by_cases hnil : (stageTrailF32 bounds s i).st.trail = []
    · exact Or.inl hnil
    · right
      rw [hm] at hseg
      simp only [Bool.false_eq_true, if_false] at hseg
      cases hs : s.trail with
      | nil =>
        rw [hs] at hm
        simp [movedF32] at hm
      | cons front rest =>
        rw [hs] at hseg hm
        obtain ⟨r, hr⟩ := initial_segment_head _ _ _ hseg hnil
        simp only [movedF32, Bool.or_eq_false_iff, decide_eq_false_iff_not] at hm
        exact ⟨front, r, hr, hm.1, hm.2, near_of_not_far _ hm.1, near_of_not_far _ hm.2⟩
  · right
    obtain ⟨rest, hrest⟩ := hpushed hm
    exact ⟨_, rest, hrest, (not_far_self _).1, (not_far_self _).1, (not_far_self _).2,
      (not_far_self _).2⟩

theorem trail_head_tracks_pointer_witness :
    movedF32 [(⟨⟨0, 0⟩, 0⟩ : TrailNode)]
        (windowXF32 ⟨0, 0, 1920, 1080⟩ (Input.mk 9 2 0 500 true))
        (windowYF32 ⟨0, 0, 1920, 1080⟩ (Input.mk 9 2 0 500 true)) = true
      ∧ (tickF32 ⟨0, 0, 1920, 1080⟩ (State.mk [⟨⟨0, 0⟩, 0⟩] [] false false false 0 0)
          (Input.mk 9 2 0 500 true)).st.trail = [⟨⟨9, 2⟩, 500⟩]
      ∧ ∃ rest, (tickF32 ⟨0, 0, 1920, 1080⟩
          (State.mk [⟨⟨0, 0⟩, 0⟩] [] false false false 0 0)
          (Input.mk 9 2 0 500 true)).st.trail
            = { pos := ⟨windowXF32 ⟨0, 0, 1920, 1080⟩ (Input.mk 9 2 0 500 true),
                        windowYF32 ⟨0, 0, 1920, 1080⟩ (Input.mk 9 2 0 500 true)⟩,
                timestamp := (Input.mk 9 2 0 500 true).now } :: rest :=
  ⟨by decide!, by decide!,
    (trail_head_tracks_pointer ⟨0, 0, 1920, 1080⟩
      (State.mk [⟨⟨0, 0⟩, 0⟩] [] false false false 0 0) (Input.mk 9 2 0 500 true)).2.1
      (by decide!)⟩


/-! ## Renderer: a ripple drawn in binary32 arithmetic -/

theorem alphaF32_of_life :
    ∀ k : Nat, k < 30 → 1 ≤ k →
      toUint8 (f32 (255 * f32 ((k : ℚ) / f32 ((RIPPLE_MAX_LIFE : Int) : ℚ)))) = 255 * k / 30 := by
  decide!

theorem insetF32_first :
    ∀ k : Nat, k < 30 → 1 ≤ k →
      ¬ (2 * (30 - (k : ℚ)) ≤ 1 / 2) ∧ 2 * (30 - (k : ℚ)) > f32 (6 / 5)
        ∧ ¬ (f32 (2 * (30 - (k : ℚ)) - f32 (6 / 5)) ≤ 1 / 2) := by
  decide!

theorem insetF32_second :
    (∀ k : Nat, k < 29 → 1 ≤ k →
      2 * (30 - (k : ℚ)) > f32 (12 / 5)
        ∧ ¬ (f32 (2 * (30 - (k : ℚ)) - f32 (12 / 5)) ≤ 1 / 2))
      ∧ ¬ (2 * (30 - ((29 : Nat) : ℚ)) > f32 (12 / 5)) := by
  decide!


theorem drawRippleF32_of_life (r : Ripple) (k : Nat) (h1 : 1 ≤ k) (h2 : k ≤ 29)
    (hl : r.life = (k : ℚ)) (hr : r.radius = 2 * (30 - (k : ℚ))) :
    drawRippleF32 r
      = [Cmd.setRenderDrawColor r.color.r r.color.g r.color.b (255 * k / 30)]
        ++ [Cmd.renderLines r.center.x r.center.y r.radius]
        ++ [Cmd.renderLines r.center.x r.center.y (f32 (r.radius - f32 (6 / 5)))]
        ++ (if r.radius - 12 / 5 > 0 then
              [Cmd.renderLines r.center.x r.center.y (f32 (r.radius - f32 (12 / 5)))]
            else []) := by
  have hk : k < 30 := by omega
  have hA := alphaF32_of_life k hk h1
  obtain ⟨b0, b1, b2⟩ := insetF32_first k hk h1
  simp only [drawRippleF32, drawCircleApprox]
  rw [hl, hr, hA, if_neg b0, if_pos b1, if_neg b2]
  by_cases h29 : k = 29
  · have c1 : ¬ (2 * (30 - (k : ℚ)) > f32 (12 / 5)) := by
      rw [h29]
      exact insetF32_second.2
    have c2 : ¬ (2 * (30 - (k : ℚ)) - 12 / 5 > 0) := by
      rw [h29]
      norm_num
    rw [if_neg c1, if_neg c2]
  · obtain ⟨c1, c3⟩ := insetF32_second.1 k (by omega) h1
    have hkq : (k : ℚ) ≤ 28 := by
      have : k ≤ 28 := by omega
      exact_mod_cast this
    have c2 : 2 * (30 - (k : ℚ)) - 12 / 5 > 0 := by linarith
    rw [if_pos c1, if_pos c2, if_neg c3]

theorem drawRippleF32_run (bounds : SDL_Rect) (ins : List Input) :
    ∀ r ∈ (run bounds initial ins).ripples,
      ∃ k : Nat, 1 ≤ k ∧ k ≤ 29 ∧ r.life = (k : ℚ)
        ∧ drawRippleF32 r
          = [Cmd.setRenderDrawColor r.color.r r.color.g r.color.b (255 * k / 30)]
            ++ [Cmd.renderLines r.center.x r.center.y r.radius]
            ++ [Cmd.renderLines r.center.x r.center.y (f32 (r.radius - f32 (6 / 5)))]
            ++ (if r.radius - 12 / 5 > 0 then
                  [Cmd.renderLines r.center.x r.center.y (f32 (r.radius - f32 (12 / 5)))]
                else [])
        ∧ (drawRippleF32 r).map isDraw = (drawRipple r).map isDraw
        ∧ (drawRippleF32 r).head? = (drawRipple r).head? := by
  obtain ⟨ts, herase, hinv⟩ := run_tagInv bounds ins
  intro r hr
  rw [← herase, List.mem_map] at hr
  obtain ⟨p, hp, hpr⟩ := hr
  obtain ⟨k, hk1, hk2, hl, hrad⟩ := hinv.1 p hp
  rw [hpr] at hl hrad
  have hF := drawRippleF32_of_life r k hk1 hk2 hl hrad
  refine ⟨k, hk1, hk2, hl, hF, ?_, ?_⟩
  · obtain ⟨ha, _, _⟩ := alpha_of_life k hk1 hk2
    have hkq2 : (k : ℚ) ≤ 29 := by exact_mod_cast hk2
    have a1 : r.radius > 1 / 2 := by
      rw [hrad]
      linarith
    have a2 : r.radius - 6 / 5 > 1 / 2 := by
      rw [hrad]
      linarith
    rw [hF, drawRipple_shape, if_pos a1, if_pos a2]
    by_cases h29 : k = 29
    · have hr2 : r.radius = 2 := by
        rw [hrad, h29]
        norm_num
      have c1 : ¬ r.radius - 12 / 5 > 1 / 2 := by
        rw [hr2]
        norm_num
      have c2 : ¬ r.radius - 12 / 5 > 0 := by
        rw [hr2]
        norm_num
      rw [if_neg c1, if_neg c2]
      rfl
    · have hkq : (k : ℚ) ≤ 28 := by
        have : k ≤ 28 := by omega
        exact_mod_cast this
      have c1 : r.radius - 12 / 5 > 1 / 2 := by
        rw [hrad]
        linarith
      have c2 : r.radius - 12 / 5 > 0 := by linarith
      rw [if_pos c1, if_pos c2]
      rfl
  · obtain ⟨ha, _, _⟩ := alpha_of_life k hk1 hk2
    rw [hF, drawRipple_shape, hl, ha]
    rfl

end MouseLine
